import Mathlib

/-!
# Wt: modal dialogs and web utilities

A shallow embedding of parts of the Wt toolkit:

* `src/Wt/WDialog.C`: the modal dialog state machine (`exec`, `done`, `setHidden`,
  `saveCoverState`, `restoreCoverState`, `setModal`, `setWindowTitle`, `windowTitle`);
* `src/web/WebUtils.C`: `inplaceUrlDecode`.

A `std::string` is a list of characters (bytes are the characters below 256).  A dialog and
the application it lives in are explicit records that every operation receives and returns.
Code that runs while `exec()` waits (slots of `dialogExecuted`, handlers of incoming events)
is a script of the public, non-blocking dialog operations.
-/

namespace Wt

/-! ## Data model -/

/-- A `std::string`: a sequence of characters. -/
abbrev StdString := List Char

/-- The result code of a dialog (`WDialog::DialogCode`), with the two values that
`WDialog.C` uses. -/
inductive DialogCode where
  | Rejected
  | Accepted
  deriving DecidableEq, Repr

/-- A `WException`, with the message it is constructed with. -/
structure WException where
  what : String
  deriving DecidableEq, Repr

/-- A `WAnimation`: its effects (zero when there are none) and its duration. -/
structure WAnimation where
  effects : Nat
  duration : Int
  deriving DecidableEq, Repr

/-- The effect `WAnimation::Fade`; what matters here is that it is not zero. -/
def WAnimation.Fade : Nat := 256

/-- The default animation `WAnimation()`, which is empty. -/
def WAnimation.none : WAnimation := { effects := 0, duration := 250 }

/-- The method `WAnimation::empty()`. -/
def WAnimation.empty (a : WAnimation) : Bool := a.effects == 0

/-- Modelled from the spec: the session-wide cover widget (a `WContainerWidget` whose class is
not in the sources at hand), reduced to what the dialog reads and writes: its visibility and
its z-order. -/
structure WContainerWidget where
  hidden : Bool
  zIndex : Int
  deriving DecidableEq, Repr

/-- The call `cover->isHidden()`. -/
def WContainerWidget.isHidden (w : WContainerWidget) : Bool := w.hidden

/-- The call `cover->setHidden(hidden)`. -/
def WContainerWidget.setHidden (w : WContainerWidget) (hidden : Bool) : WContainerWidget :=
  { w with hidden := hidden }

/-- The call `cover->show()`. -/
def WContainerWidget.show (w : WContainerWidget) : WContainerWidget := w.setHidden false

/-- The call `cover->animateShow(animation)`: it shows the widget; the animation itself is
a matter of the browser. -/
def WContainerWidget.animateShow (w : WContainerWidget) (_animation : WAnimation) :
    WContainerWidget :=
  w.setHidden false

/-- The call `cover->setZIndex(z)`. -/
def WContainerWidget.setZIndex (w : WContainerWidget) (z : Int) : WContainerWidget :=
  { w with zIndex := z }

/-- An operation of the public interface of a dialog that a slot or an event handler may
call on it. -/
inductive Action where
  | show
  | hide
  | setModal (modal : Bool)
  | done (result : DialogCode)
  | accept
  | reject
  deriving DecidableEq, Repr

/-- What a dialog makes happen outside of itself and of the cover, in the order in which it
happens. -/
inductive Ev where
  /-- The call `WCompositeWidget::setHidden(hidden, animation)` on the dialog `dlg`. -/
  | widgetSetHidden (dlg : Nat) (hidden : Bool)
  /-- The `doJavaScript` call of `setHidden` that blurs the active element. -/
  | blurActiveElement (dlg : Nat)
  /-- The emission `finished_.emit(result)`. -/
  | finished (dlg : Nat) (result : DialogCode)
  /-- The emission `environment().dialogExecuted().emit(this)`. -/
  | dialogExecuted (dlg : Nat)
  /-- The call `session()->doRecursiveEventLoop()`. -/
  | doRecursiveEventLoop
  deriving DecidableEq, Repr

/-- Modelled from the spec: the application (session) state a dialog works on; the class
`WApplication` is not in the sources at hand.  It holds the cover widget (absent while the
application is being destroyed), the stack of exposed constraints (top first), whether the
environment is a scripted test, the slots connected to `dialogExecuted`, the handlers of the
events still to come, and the record of what has happened so far. -/
structure WApplication where
  dialogCover : Option WContainerWidget
  exposedOnly : List Nat
  isTest : Bool
  dialogExecutedSlots : List Action
  pendingEvents : List (List Action)
  trace : List Ev
  deriving DecidableEq, Repr

/-- Modelled from the spec: `WApplication::pushExposedConstraint(w)` pushes the widget onto
the exposed-constraint stack. -/
def WApplication.pushExposedConstraint (app : WApplication) (w : Nat) : WApplication :=
  { app with exposedOnly := w :: app.exposedOnly }

/-- Modelled from the spec: `WApplication::popExposedConstraint(w)` pops the widget from the
exposed-constraint stack: its topmost entry is removed. -/
def WApplication.popExposedConstraint (app : WApplication) (w : Nat) : WApplication :=
  { app with exposedOnly := app.exposedOnly.erase w }

/-- The state of a `WDialog`: its identity (`this`), the hidden flag of the composite
widget, the z-index of its implementation widget, the text of the caption widget, and the
members `modal_`, `recursiveEventLoop_`, `result_`, `coverWasHidden_` and
`coverPreviousZIndex_`. -/
structure WDialog where
  id : Nat
  hidden : Bool
  implZIndex : Int
  caption_ : StdString
  modal_ : Bool
  recursiveEventLoop_ : Bool
  result_ : DialogCode
  coverWasHidden_ : Bool
  coverPreviousZIndex_ : Int
  deriving DecidableEq, Repr

/-! ## `WDialog.C` -/

/-- The method `WDialog::isHidden()`. -/
def WDialog.isHidden (d : WDialog) : Bool := d.hidden

/-- The method `WDialog::saveCoverState`. -/
def WDialog.saveCoverState (d : WDialog) (cover : WContainerWidget) : WDialog :=
  { d with coverWasHidden_ := cover.isHidden, coverPreviousZIndex_ := cover.zIndex }

/-- The method `WDialog::restoreCoverState`. -/
def WDialog.restoreCoverState (d : WDialog) (app : WApplication) (cover : WContainerWidget) :
    WApplication :=
  let cover1 := cover.setHidden d.coverWasHidden_
  let cover2 := cover1.setZIndex d.coverPreviousZIndex_
  { app with dialogCover := some cover2 }.popExposedConstraint d.id

/-- The method `WCompositeWidget::setHidden(hidden, animation)`, which `WDialog::setHidden`
ends with: the hidden flag of the widget is set. -/
def WCompositeWidget.setHidden (d : WDialog) (app : WApplication) (hidden : Bool)
    (_animation : WAnimation) : WDialog × WApplication :=
  ({ d with hidden := hidden },
   { app with trace := app.trace ++ [Ev.widgetSetHidden d.id hidden] })

/-- The method `WDialog::setHidden(hidden, animation)`. -/
def WDialog.setHidden (d : WDialog) (app : WApplication) (hidden : Bool)
    (animation : WAnimation) : WDialog × WApplication :=
  if d.isHidden != hidden then
    if d.modal_ then
      match app.dialogCover with
      | Option.none => (d, app)
      | some cover =>
        if !hidden then
          let d1 := d.saveCoverState cover
          let cover1 :=
            if cover.isHidden then
              if !animation.empty then
                cover.animateShow
                  { effects := WAnimation.Fade, duration := animation.duration * 4 }
              else
                cover.show
            else
              cover
          let cover2 := cover1.setZIndex (d1.implZIndex - 1)
          let app1 := { app with dialogCover := some cover2 }.pushExposedConstraint d1.id
          let app2 := { app1 with trace := app1.trace ++ [Ev.blurActiveElement d1.id] }
          WCompositeWidget.setHidden d1 app2 hidden animation
        else
          let app1 := d.restoreCoverState app cover
          WCompositeWidget.setHidden d app1 hidden animation
    else
      WCompositeWidget.setHidden d app hidden animation
  else
    WCompositeWidget.setHidden d app hidden animation

/-- The method `WWidget::show()`, that is `setHidden(false)`. -/
def WDialog.show (d : WDialog) (app : WApplication) : WDialog × WApplication :=
  d.setHidden app false WAnimation.none

/-- The method `WWidget::hide()`, that is `setHidden(true)`. -/
def WDialog.hide (d : WDialog) (app : WApplication) : WDialog × WApplication :=
  d.setHidden app true WAnimation.none

/-- The method `WWidget::animateShow(animation)`, that is `setHidden(false, animation)`. -/
def WDialog.animateShow (d : WDialog) (app : WApplication) (animation : WAnimation) :
    WDialog × WApplication :=
  d.setHidden app false animation

/-- The method `WDialog::setModal`. -/
def WDialog.setModal (d : WDialog) (modal : Bool) : WDialog :=
  { d with modal_ := modal }

/-- The method `WDialog::done`. -/
def WDialog.done (d : WDialog) (app : WApplication) (result : DialogCode) :
    WDialog × WApplication :=
  let d1 := { d with result_ := result }
  let r :=
    if d1.recursiveEventLoop_ then
      ({ d1 with recursiveEventLoop_ := false }, app)
    else
      d1.hide app
  (r.1, { r.2 with trace := r.2.trace ++ [Ev.finished d.id result] })

/-- The method `WDialog::accept`. -/
def WDialog.accept (d : WDialog) (app : WApplication) : WDialog × WApplication :=
  d.done app DialogCode.Accepted

/-- The method `WDialog::reject`. -/
def WDialog.reject (d : WDialog) (app : WApplication) : WDialog × WApplication :=
  d.done app DialogCode.Rejected

/-- One call of a slot or handler on the dialog. -/
def Action.apply (a : Action) (d : WDialog) (app : WApplication) : WDialog × WApplication :=
  match a with
  | Action.show => d.show app
  | Action.hide => d.hide app
  | Action.setModal modal => (d.setModal modal, app)
  | Action.done result => d.done app result
  | Action.accept => d.accept app
  | Action.reject => d.reject app

/-- The calls of a slot or handler, one after the other. -/
def runHandler : List Action → WDialog → WApplication → WDialog × WApplication
  | [], d, app => (d, app)
  | a :: rest, d, app => runHandler rest (a.apply d app).1 (a.apply d app).2

/-- The exception of `exec()` on a dialog that is being executed already. -/
def alreadyExecuted : WException := { what := "WDialog::exec(): already being executed." }

/-- The exception of `exec()` in a test whose slots leave the dialog open. -/
def mustCloseDialog : WException := { what := "Test case must close dialog" }

/-- How a call of `exec()` ends: it returns a result code, it throws, or it waits for ever
in the recursive event loop because no further event arrives. -/
inductive ExecResult where
  | returned (result : DialogCode) (d : WDialog) (app : WApplication)
  | threw (e : WException) (d : WDialog) (app : WApplication)
  | blocked
  deriving DecidableEq, Repr

/-- The loop `do { app->session()->doRecursiveEventLoop(); } while (recursiveEventLoop_);`
of `exec()`.  Modelled from the spec: one call of `doRecursiveEventLoop()` (class
`WebSession` is not in the sources at hand) handles the next incoming event; when there is
none left the call never returns. -/
def execLoop : List (List Action) → WDialog → WApplication → Option (WDialog × WApplication)
  | [], _, _ => Option.none
  | handler :: rest, d, app =>
    let app1 := { app with pendingEvents := rest,
                           trace := app.trace ++ [Ev.doRecursiveEventLoop] }
    let r := runHandler handler d app1
    if r.1.recursiveEventLoop_ then execLoop rest r.1 r.2 else some r

/-- The method `WDialog::exec(animation)`. -/
def WDialog.exec (d : WDialog) (app : WApplication) (animation : WAnimation) : ExecResult :=
  if d.recursiveEventLoop_ then
    ExecResult.threw alreadyExecuted d app
  else
    let s := d.animateShow app animation
    let d1 := { s.1 with recursiveEventLoop_ := true }
    if s.2.isTest then
      let app1 := { s.2 with trace := s.2.trace ++ [Ev.dialogExecuted d1.id] }
      let r := runHandler app1.dialogExecutedSlots d1 app1
      if r.1.recursiveEventLoop_ then
        ExecResult.threw mustCloseDialog r.1 r.2
      else
        let h := r.1.hide r.2
        ExecResult.returned h.1.result_ h.1 h.2
    else
      match execLoop s.2.pendingEvents d1 s.2 with
      | Option.none => ExecResult.blocked
      | some r =>
        let h := r.1.hide r.2
        ExecResult.returned h.1.result_ h.1 h.2

/-- The method `WDialog::setWindowTitle`. -/
def WDialog.setWindowTitle (d : WDialog) (windowTitle : StdString) : WDialog :=
  { d with caption_ := "<h3>".toList ++ windowTitle ++ "</h3>".toList }

/-- The method `std::string::substr(pos, n)`, for a position inside the string. -/
def substr (s : StdString) (pos n : Nat) : StdString := (s.drop pos).take n

/-- The method `WDialog::windowTitle`. -/
def WDialog.windowTitle (d : WDialog) : StdString :=
  let text := d.caption_
  if text.length > 9 then substr text 4 (text.length - 9) else []

/-- The part of `WDialog::create()` that sets the state of the new dialog: it is modal, not
in a recursive event loop, and records the state of the cover, which `saveCoverState` reads
without a check.  The member `result_` is not set by `create()` and is given here.  That a
new dialog is hidden, with an empty caption, is the work of constructors that are not in the
sources at hand, and is modelled from the spec (a dialog starts in the state `Hidden`). -/
def WDialog.create (app : WApplication) (id : Nat) (implZIndex : Int) (result : DialogCode) :
    Option WDialog :=
  match app.dialogCover with
  | Option.none => Option.none
  | some cover =>
    some (WDialog.saveCoverState
      { id := id, hidden := true, implZIndex := implZIndex, caption_ := [], modal_ := true,
        recursiveEventLoop_ := false, result_ := result, coverWasHidden_ := false,
        coverPreviousZIndex_ := 0 } cover)

/-! ## Notions used to state the properties -/

/-- The action is `done(c)`, `accept()` or `reject()`. -/
def Action.closes : Action → Bool
  | Action.done _ => true
  | Action.accept => true
  | Action.reject => true
  | _ => false

/-- The result codes that the dialog `dlg` has emitted `finished` with, in order. -/
def finishedCodes (dlg : Nat) : List Ev → List DialogCode
  | [] => []
  | Ev.finished d c :: rest =>
    if d = dlg then c :: finishedCodes dlg rest else finishedCodes dlg rest
  | _ :: rest => finishedCodes dlg rest

/-- The event comes from the widget itself: `WCompositeWidget::setHidden` or the blur of
the active element. -/
def Ev.fromWidget : Ev → Bool
  | Ev.widgetSetHidden _ _ => true
  | Ev.blurActiveElement _ => true
  | _ => false

/-- The event comes from an operation of the dialog other than `exec()`: from the widget
itself, or from `finished`. -/
def Ev.fromOperation : Ev → Bool
  | Ev.widgetSetHidden _ _ => true
  | Ev.blurActiveElement _ => true
  | Ev.finished _ _ => true
  | _ => false

/-- The state of a dialog that `exec()` is waiting on, `base` being the record of events
when the wait began: either the dialog is still in its recursive event loop and has not
emitted `finished` since, or it has left the loop and the last result code it emitted
`finished` with is its result code. -/
def Waiting (base : List Ev) (d : WDialog) (app : WApplication) : Prop :=
  ∃ extra, app.trace = base ++ extra ∧
    ((d.recursiveEventLoop_ = true ∧ finishedCodes d.id extra = []) ∨
     (d.recursiveEventLoop_ = false ∧ (finishedCodes d.id extra).getLast? = some d.result_))

/-- The application state that a call of `exec()` ends with, when it ends. -/
def ExecResult.app? : ExecResult → Option WApplication
  | ExecResult.returned _ _ app => some app
  | ExecResult.threw _ _ app => some app
  | ExecResult.blocked => Option.none

/-- The dialog is on the stack of exposed constraints. -/
def onExposedStack (d : WDialog) (app : WApplication) : Prop := d.id ∈ app.exposedOnly

instance (d : WDialog) (app : WApplication) : Decidable (onExposedStack d app) := by
  unfold onExposedStack
  infer_instance

/-- The stack of exposed constraints is `stack`, with the dialog on top of it when the
dialog is modal and visible. -/
def StackTracksDialog (stack : List Nat) (d : WDialog) (app : WApplication) : Prop :=
  app.exposedOnly = if d.modal_ && !d.hidden then d.id :: stack else stack

/-- Along the run of the actions from the state `(d, app)`, `setModal` is only called while
the dialog is hidden. -/
def setModalOnlyWhenHidden : List Action → WDialog → WApplication → Bool
  | [], _, _ => true
  | a :: rest, d, app =>
    (match a with
      | Action.setModal _ => d.isHidden
      | _ => true) &&
    setModalOnlyWhenHidden rest (a.apply d app).1 (a.apply d app).2

/-! ## Concrete states -/

/-- A session in a test, with a hidden cover and nothing on the stack, whose slot of
`dialogExecuted` accepts the dialog. -/
def testApp : WApplication :=
  { dialogCover := some { hidden := true, zIndex := 0 }, exposedOnly := [], isTest := true,
    dialogExecutedSlots := [Action.accept], pendingEvents := [], trace := [] }

/-- A session outside of tests, in which a first event does not touch the dialog and a
second one accepts it. -/
def liveApp : WApplication :=
  { dialogCover := some { hidden := true, zIndex := 0 }, exposedOnly := [], isTest := false,
    dialogExecutedSlots := [], pendingEvents := [[], [Action.accept], [Action.reject]],
    trace := [] }

/-- A new dialog of `testApp`. -/
def freshDialog : WDialog :=
  { id := 1, hidden := true, implZIndex := 10, caption_ := [], modal_ := true,
    recursiveEventLoop_ := false, result_ := DialogCode.Rejected, coverWasHidden_ := true,
    coverPreviousZIndex_ := 0 }

/-- A second new dialog, above the first. -/
def secondDialog : WDialog :=
  { id := 2, hidden := true, implZIndex := 20, caption_ := [], modal_ := true,
    recursiveEventLoop_ := false, result_ := DialogCode.Rejected, coverWasHidden_ := true,
    coverPreviousZIndex_ := 0 }

/-- A session in a test whose slot of `dialogExecuted` shows the dialog and does not close
it. -/
def silentTestApp : WApplication :=
  { dialogCover := some { hidden := true, zIndex := 0 }, exposedOnly := [], isTest := true,
    dialogExecutedSlots := [Action.show], pendingEvents := [], trace := [] }

/-- A session in a test that is being destroyed (its cover is gone), whose slot of
`dialogExecuted` accepts the dialog and then rejects it. -/
def teardownApp : WApplication :=
  { dialogCover := Option.none, exposedOnly := [], isTest := true,
    dialogExecutedSlots := [Action.accept, Action.reject], pendingEvents := [], trace := [] }

/-- A modal dialog that is visible. -/
def visibleDialog : WDialog :=
  { id := 1, hidden := false, implZIndex := 10, caption_ := [], modal_ := true,
    recursiveEventLoop_ := false, result_ := DialogCode.Accepted, coverWasHidden_ := true,
    coverPreviousZIndex_ := 0 }

/-! ## `WebUtils.C`: `inplaceUrlDecode` -/

/-- The character with code zero, which terminates a C string. -/
def NUL : Char := Char.ofNat 0

/-- The C function `isspace`, in the C locale: space, and the controls from tab to carriage
return. -/
def isspace (c : Char) : Bool := c.toNat == 32 || (9 ≤ c.toNat && c.toNat ≤ 13)

/-- The C function `isxdigit`: a decimal digit or a letter from A to F in either case. -/
def isxdigit (c : Char) : Bool :=
  (48 ≤ c.toNat && c.toNat ≤ 57) || (97 ≤ c.toNat && c.toNat ≤ 102) ||
    (65 ≤ c.toNat && c.toNat ≤ 70)

/-- The value of a hexadecimal digit. -/
def hexValue (c : Char) : Nat :=
  if 48 ≤ c.toNat ∧ c.toNat ≤ 57 then c.toNat - 48
  else if 97 ≤ c.toNat ∧ c.toNat ≤ 102 then c.toNat - 87
  else c.toNat - 55

/-- The largest `long` (64 bits). -/
def LONG_MAX : Int := 9223372036854775807

/-- The smallest `long` (64 bits). -/
def LONG_MIN : Int := -9223372036854775808

/-- The method `std::string::c_str()` as a C string: the characters before the first NUL. -/
def c_str (s : StdString) : StdString := s.takeWhile (fun c => c != NUL)

/-- The C library function `strtol(nptr, &e, 16)` on the C string `nptr`: white space is
skipped, then an optional sign and an optional `0x` (taken only when a hexadecimal digit
follows) are read, then hexadecimal digits as far as they go.  The result is the value,
clamped to the range of `long`, and how many characters of `nptr` lie before `e`; without
any digit the value is zero and `e` is `nptr`. -/
def strtol16 (nptr : StdString) : Int × Nat :=
  let ws := nptr.takeWhile isspace
  let s1 := nptr.dropWhile isspace
  let negative := s1.head? == some '-'
  let signLen := if s1.head? == some '-' || s1.head? == some '+' then 1 else 0
  let s2 := s1.drop signLen
  let baseLen :=
    match s2 with
    | z :: x :: h :: _ =>
      if z == '0' && (x == 'x' || x == 'X') && isxdigit h then 2 else 0
    | _ => 0
  let s3 := s2.drop baseLen
  let digits := s3.takeWhile isxdigit
  if digits.isEmpty then
    (0, 0)
  else
    let magnitude : Int := (digits.foldl (fun acc c => 16 * acc + hexValue c) 0 : Nat)
    let value := if negative then max (-magnitude) LONG_MIN else min magnitude LONG_MAX
    (value, ws.length + signLen + baseLen + digits.length)

/-- The conversion of a `long` to `int` (32 bits, two's complement). -/
def toInt32 (v : Int) : Int := (v + 2147483648) % 4294967296 - 2147483648

/-- The conversion `(char)hval`: the byte that is congruent to the value modulo 256. -/
def toChar (hval : Int) : Char := Char.ofNat (hval % 256).toNat

/-- What can go wrong in the model of `inplaceUrlDecode`: an index that is not inside the
string, or a loop that is cut off before its end. -/
inductive Fault where
  | outOfBounds
  | outOfFuel
  deriving DecidableEq, Repr

/-- The read `text[i]`. -/
def readAt (text : StdString) (i : Nat) : Except Fault Char :=
  match text[i]? with
  | some c => Except.ok c
  | Option.none => Except.error Fault.outOfBounds

/-- The write `text[j] = c`. -/
def writeAt (text : StdString) (j : Nat) (c : Char) : Except Fault StdString :=
  if j < text.length then Except.ok (text.set j c) else Except.error Fault.outOfBounds

/-- The method `std::string::substr(pos, n)`, which is an error when `pos` is beyond the
end of the string. -/
def substrAt (text : StdString) (pos n : Nat) : Except Fault StdString :=
  if pos ≤ text.length then Except.ok (substr text pos n) else Except.error Fault.outOfBounds

/-- The loop of `inplaceUrlDecode`, from the state `(text, i, j)` on; every iteration uses
up one unit of fuel.  The result is the text and `j` at the end of the loop. -/
def urlDecodeLoop : Nat → StdString → Nat → Nat → Except Fault (StdString × Nat)
  | 0, text, i, j =>
    if i < text.length then Except.error Fault.outOfFuel else Except.ok (text, j)
  | fuel + 1, text, i, j =>
    if i < text.length then
      match readAt text i with
      | Except.error f => Except.error f
      | Except.ok c =>
        if c == '+' then
          match writeAt text j ' ' with
          | Except.error f => Except.error f
          | Except.ok text1 => urlDecodeLoop fuel text1 (i + 1) (j + 1)
        else if c == '%' && i + 2 < text.length then
          match substrAt text (i + 1) 2 with
          | Except.error f => Except.error f
          | Except.ok h =>
            let r := strtol16 (c_str h)
            let hval := toInt32 r.1
            if (c_str h).getD r.2 NUL == NUL then
              match writeAt text j (toChar hval) with
              | Except.error f => Except.error f
              | Except.ok text1 => urlDecodeLoop fuel text1 (i + 2 + 1) (j + 1)
            else
              match writeAt text j c with
              | Except.error f => Except.error f
              | Except.ok text1 => urlDecodeLoop fuel text1 (i + 1) (j + 1)
        else
          match writeAt text j c with
          | Except.error f => Except.error f
          | Except.ok text1 => urlDecodeLoop fuel text1 (i + 1) (j + 1)
    else
      Except.ok (text, j)

/-- The function `inplaceUrlDecode`: the loop from `i = 0`, `j = 0`, with one unit of fuel
for every character, and then `text.erase(j)`. -/
def inplaceUrlDecode (text : StdString) : Except Fault StdString :=
  match urlDecodeLoop text.length text 0 0 with
  | Except.error f => Except.error f
  | Except.ok r => Except.ok (r.1.take r.2)

/-- Every `%` of the text is immediately followed by two hexadecimal digits. -/
def EveryPercentEscaped (text : StdString) : Prop :=
  ∀ i, i < text.length → text.getD i NUL = '%' →
    isxdigit (text.getD (i + 1) NUL) = true ∧ isxdigit (text.getD (i + 2) NUL) = true

instance (text : StdString) : Decidable (EveryPercentEscaped text) := by
  unfold EveryPercentEscaped
  infer_instance

/-- What the scan makes of a character that does not start a `%XX`: a space of `+`, and
the character itself otherwise. -/
def plusToSpace (c : Char) : Char := if c = '+' then ' ' else c

/-- The decoding as the specification words it: a scan from left to right that turns `+`
into a space and `%XX`, with `XX` two hexadecimal digits, into the byte of value `XX`, and
copies every other character. -/
def urlDecodeScan : StdString → StdString
  | [] => []
  | [c] => [plusToSpace c]
  | [c, a] => plusToSpace c :: urlDecodeScan [a]
  | c :: a :: b :: rest =>
    if c = '%' ∧ isxdigit a = true ∧ isxdigit b = true then
      Char.ofNat (16 * hexValue a + hexValue b) :: urlDecodeScan rest
    else
      plusToSpace c :: urlDecodeScan (a :: b :: rest)

/-- No `%` of the text is immediately followed by two hexadecimal digits. -/
def NoPercentEscaped (text : StdString) : Prop :=
  ∀ i, i < text.length → text.getD i NUL = '%' →
    ¬ (isxdigit (text.getD (i + 1) NUL) = true ∧ isxdigit (text.getD (i + 2) NUL) = true)

instance (text : StdString) : Decidable (NoPercentEscaped text) := by
  unfold NoPercentEscaped
  infer_instance

/-- One turn of the loop of `inplaceUrlDecode` from the state `(text, i, j)` with `i` inside
the text: the body and the `++i` of the loop, and the state that they leave. -/
def urlDecodeStep (text : StdString) (i j : Nat) : Except Fault (StdString × Nat × Nat) :=
  match readAt text i with
  | Except.error f => Except.error f
  | Except.ok c =>
    if c == '+' then
      match writeAt text j ' ' with
      | Except.error f => Except.error f
      | Except.ok text1 => Except.ok (text1, i + 1, j + 1)
    else if c == '%' && i + 2 < text.length then
      match substrAt text (i + 1) 2 with
      | Except.error f => Except.error f
      | Except.ok h =>
        let r := strtol16 (c_str h)
        let hval := toInt32 r.1
        if (c_str h).getD r.2 NUL == NUL then
          match writeAt text j (toChar hval) with
          | Except.error f => Except.error f
          | Except.ok text1 => Except.ok (text1, i + 2 + 1, j + 1)
        else
          match writeAt text j c with
          | Except.error f => Except.error f
          | Except.ok text1 => Except.ok (text1, i + 1, j + 1)
    else
      match writeAt text j c with
      | Except.error f => Except.error f
      | Except.ok text1 => Except.ok (text1, i + 1, j + 1)

/-- The states `(text, i, j)` that the loop of `inplaceUrlDecode` goes through on the text
`text0`: the state at the start, and the state after a turn of the loop from a state that
it goes through. -/
inductive UrlDecodeReaches (text0 : StdString) : StdString → Nat → Nat → Prop where
  | start : UrlDecodeReaches text0 text0 0 0
  | turn (text : StdString) (i j : Nat) (s : StdString × Nat × Nat) :
      UrlDecodeReaches text0 text i j → i < text.length →
      urlDecodeStep text i j = Except.ok s → UrlDecodeReaches text0 s.1 s.2.1 s.2.2

/-! ## Decimal text of integers -/

/-- The character of a decimal digit: `"0123456789"[n]`. -/
def digitChar (n : Nat) : Char := Char.ofNat (48 + n)

/-- The decimal digits of `n`, the last one first; `fuel` bounds their number. -/
def decimalRev : Nat → Nat → List Char
  | 0, _ => []
  | fuel + 1, n => digitChar (n % 10) :: (if n / 10 = 0 then [] else decimalRev fuel (n / 10))

/-- The decimal text of a natural number. -/
def decimalNat (n : Nat) : StdString := (decimalRev (n + 1) n).reverse

/-- The conversion `boost::lexical_cast<std::string>(v)` of an `int`: its decimal text, with
a minus sign when it is negative. -/
def lexical_cast_string (v : Int) : StdString :=
  if v < 0 then '-' :: decimalNat v.natAbs else decimalNat v.natAbs

/-- The value of a decimal digit, if the character is one. -/
def digitValue? (c : Char) : Option Nat :=
  if 48 ≤ c.toNat ∧ c.toNat ≤ 57 then some (c.toNat - 48) else Option.none

/-- The number that decimal digits denote, read after the digits of `acc`; nothing when a
character is not a digit. -/
def parseNatAux : Nat → List Char → Option Nat
  | acc, [] => some acc
  | acc, c :: rest =>
    match digitValue? c with
    | Option.none => Option.none
    | some d => parseNatAux (10 * acc + d) rest

/-- The number that a text of decimal digits, at least one, denotes. -/
def parseNat (s : StdString) : Option Nat := if s = [] then Option.none else parseNatAux 0 s

/-- The conversion `boost::lexical_cast<int>(s)`: an optional sign and decimal digits, and
nothing else; there is no result (the conversion throws `bad_lexical_cast`) for any other
text.  An `int` is modelled as an integer without bounds. -/
def lexical_cast_int (s : StdString) : Option Int :=
  match s with
  | [] => Option.none
  | c :: rest =>
    if c = '-' then Option.map (fun n : Nat => -(n : Int)) (parseNat rest)
    else if c = '+' then Option.map (fun n : Nat => (n : Int)) (parseNat rest)
    else Option.map (fun n : Nat => (n : Int)) (parseNat (c :: rest))

/-! ## `WSpinBox.C` -/

/-- Modelled from the spec: the locale (class `WLocale` is not in the sources at hand), as
its formatting of an `int` and its parse of one; the parse has no result when it throws
`bad_lexical_cast`. -/
structure WLocale where
  toString : Int → StdString
  toInt : StdString → Option Int

/-- A locale that writes and reads plain decimal text. -/
def WLocale.classic : WLocale := { toString := lexical_cast_string, toInt := lexical_cast_int }

/-- What a validator reports: the input is valid, it is not a number, or it is a number out
of the range, on one side or the other. -/
inductive ValidatorResult where
  | Valid
  | InvalidNotANumber
  | InvalidTooSmall
  | InvalidTooLarge
  deriving DecidableEq, Repr

/-- The result reports a number out of the range. -/
def ValidatorResult.outOfRange (r : ValidatorResult) : Bool :=
  r == ValidatorResult.InvalidTooSmall || r == ValidatorResult.InvalidTooLarge

/-- Modelled from the spec: the range validator (class `WIntValidator` is not in the sources
at hand), with the bottom and the top of its range. -/
structure WIntValidator where
  bottom : Int
  top : Int
  deriving DecidableEq, Repr

/-- The validator that `WIntValidator()` makes: its range is the range of `int`. -/
def WIntValidator.default : WIntValidator := { bottom := -2147483648, top := 2147483647 }

/-- The method `WIntValidator::setRange`. -/
def WIntValidator.setRange (_v : WIntValidator) (bottom top : Int) : WIntValidator :=
  { bottom := bottom, top := top }

/-- Modelled from the spec: `WIntValidator::validate(input)` reads the input as an integer
and reports whether it lies in the range of the validator. -/
def WIntValidator.validate (v : WIntValidator) (input : StdString) : ValidatorResult :=
  match lexical_cast_int input with
  | Option.none => ValidatorResult.InvalidNotANumber
  | some i =>
    if i < v.bottom then ValidatorResult.InvalidTooSmall
    else if i > v.top then ValidatorResult.InvalidTooLarge
    else ValidatorResult.Valid

/-- Modelled from the spec: a DOM element (class `DomElement` is not in the sources at hand)
as the attributes that have been set on it, the latest first. -/
structure DomElement where
  attributes : List (String × StdString)
  deriving DecidableEq, Repr

/-- The method `DomElement::setAttribute(name, value)`. -/
def DomElement.setAttribute (e : DomElement) (name : String) (value : StdString) : DomElement :=
  { attributes := (name, value) :: e.attributes }

/-- The value that an attribute of the element has been set to last, if any. -/
def DomElement.getAttribute (e : DomElement) (name : String) : Option StdString :=
  (e.attributes.find? (fun a => a.1 == name)).map (fun a => a.2)

/-- The state of a `WSpinBox`: its members `value_`, `min_`, `max_` and `step_`; of its base
classes, the flag `changed_`, the texts `prefix_` and `suffix_`, what `nativeControl()`
answers, the validator that `setValidator` has set, and the text of the line edit. -/
structure WSpinBox where
  value_ : Int
  min_ : Int
  max_ : Int
  step_ : Int
  changed_ : Bool
  prefix_ : StdString
  suffix_ : StdString
  nativeControl : Bool
  validator : WIntValidator
  text : StdString
  deriving DecidableEq, Repr

/-- The method `WSpinBox::createValidator`. -/
def WSpinBox.createValidator (sb : WSpinBox) : WIntValidator :=
  WIntValidator.default.setRange sb.min_ sb.max_

/-- The method `WSpinBox::textFromValue`. -/
def WSpinBox.textFromValue (loc : WLocale) (sb : WSpinBox) : StdString :=
  if sb.nativeControl then loc.toString sb.value_
  else sb.prefix_ ++ loc.toString sb.value_ ++ sb.suffix_

/-- The method `WSpinBox::setValue`. -/
def WSpinBox.setValue (loc : WLocale) (sb : WSpinBox) (value : Int) : WSpinBox :=
  if sb.value_ != value then
    let sb1 := { sb with value_ := value }
    { sb1 with text := sb1.textFromValue loc }
  else sb

/-- The constructor `WSpinBox::WSpinBox`: the members are set, the validator that
`createValidator()` makes is set, and the value is set to zero.  The base classes start
with the flag `changed_` clear and with empty `prefix_`, `suffix_` and text. -/
def WSpinBox.new (loc : WLocale) (nativeControl : Bool) : WSpinBox :=
  let sb0 : WSpinBox :=
    { value_ := -1, min_ := 0, max_ := 99, step_ := 1, changed_ := false, prefix_ := [],
      suffix_ := [], nativeControl := nativeControl, validator := WIntValidator.default,
      text := [] }
  let sb1 := { sb0 with validator := sb0.createValidator }
  sb1.setValue loc 0

/-- The method `WSpinBox::setMinimum`; the `repaint` that it ends with asks for a later
render pass and writes nothing by itself. -/
def WSpinBox.setMinimum (sb : WSpinBox) (minimum : Int) : WSpinBox :=
  { sb with min_ := minimum, changed_ := true }

/-- The method `WSpinBox::setMaximum`. -/
def WSpinBox.setMaximum (sb : WSpinBox) (maximum : Int) : WSpinBox :=
  { sb with max_ := maximum, changed_ := true }

/-- The method `WSpinBox::setRange`. -/
def WSpinBox.setRange (sb : WSpinBox) (minimum maximum : Int) : WSpinBox :=
  { sb with min_ := minimum, max_ := maximum, changed_ := true }

/-- The method `WSpinBox::setSingleStep`. -/
def WSpinBox.setSingleStep (sb : WSpinBox) (step : Int) : WSpinBox :=
  { sb with step_ := step, changed_ := true }

/-- The part of `WSpinBox::updateDom(element, all)` that comes before the call of
`WAbstractSpinBox::updateDom`: what it does to the element.  Outside of the native control
it only makes sure that the script of the validator is loaded. -/
def WSpinBox.updateDomRange (sb : WSpinBox) (element : DomElement) (all : Bool) : DomElement :=
  if all || sb.changed_ then
    if sb.nativeControl then
      let e1 := element.setAttribute "min" (lexical_cast_string sb.min_)
      let e2 := e1.setAttribute "max" (lexical_cast_string sb.max_)
      e2.setAttribute "step" (lexical_cast_string sb.step_)
    else
      element
  else
    element

/-- The method `WSpinBox::updateDom(element, all)`; `base` is
`WAbstractSpinBox::updateDom`, which is not in the sources at hand. -/
def WSpinBox.updateDom (base : WSpinBox → DomElement → Bool → WSpinBox × DomElement)
    (sb : WSpinBox) (element : DomElement) (all : Bool) : WSpinBox × DomElement :=
  base sb (sb.updateDomRange element all) all

/-- The method `WSpinBox::parseNumberValue`: the new state and the value returned. -/
def WSpinBox.parseNumberValue (loc : WLocale) (sb : WSpinBox) (text : StdString) :
    WSpinBox × Bool :=
  match loc.toInt text with
  | some n => ({ sb with value_ := n }, true)
  | Option.none => (sb, false)

/-- The method `WSpinBox::validateRange`: a new validator with the range of the spin box
validates the text `WString("{1}").arg(value_)`, which is the decimal text of the value. -/
def WSpinBox.validateRange (sb : WSpinBox) : ValidatorResult :=
  (WIntValidator.default.setRange sb.min_ sb.max_).validate (lexical_cast_string sb.value_)

/-- A call that changes the range of a spin box. -/
inductive RangeCall where
  | setMinimum (minimum : Int)
  | setMaximum (maximum : Int)
  | setRange (minimum maximum : Int)
  deriving DecidableEq, Repr

/-- The spin box after a call that changes its range. -/
def RangeCall.apply (c : RangeCall) (sb : WSpinBox) : WSpinBox :=
  match c with
  | RangeCall.setMinimum m => sb.setMinimum m
  | RangeCall.setMaximum m => sb.setMaximum m
  | RangeCall.setRange a b => sb.setRange a b

/-- The spin box after calls that change its range, in order. -/
def runRangeCalls : List RangeCall → WSpinBox → WSpinBox
  | [], sb => sb
  | c :: rest, sb => runRangeCalls rest (c.apply sb)

/-- A spin box that does not use the native control, holds the value 5 and has the text `$`
in front of it. -/
def dollarSpinBox : WSpinBox :=
  { value_ := 5, min_ := 0, max_ := 99, step_ := 1, changed_ := false, prefix_ := "$".toList,
    suffix_ := [], nativeControl := false, validator := { bottom := 0, top := 99 },
    text := "$5".toList }

/-- Modelled from the spec: the method `WAbstractSpinBox::updateDom` (not in the sources at
hand), reduced to what the spec says of every render pass: it clears the flag `changed_`;
the element is left as it is. -/
def clearChanged (sb : WSpinBox) (element : DomElement) (_all : Bool) : WSpinBox × DomElement :=
  ({ sb with changed_ := false }, element)

/-! ## `WebUtils.C`: numbers to text -/

/-- A `double`, in the format binary64 of IEEE 754: not a number, an infinity, the negative
zero, or a finite value.  A finite value is the rational number that it is, and the zero
among the finite values is the positive zero.  The finite doubles are the rational numbers
that `roundBinary64` leaves as they are; the arithmetic of doubles gives the double nearest
to the exact result. -/
inductive Double where
  | nan
  | inf (negative : Bool)
  | negZero
  | finite (x : ℚ)
  deriving DecidableEq

/-- The number that a double is, for a zero or a finite value; zero for the others. -/
def Double.value : Double → ℚ
  | Double.finite x => x
  | _ => 0

/-- The sign of a double: set for what is negative, the negative zero included. -/
def Double.signbit : Double → Bool
  | Double.inf negative => negative
  | Double.negZero => true
  | Double.finite x => decide (x < 0)
  | Double.nan => false

/-- Whether a double is one of the two zeros. -/
def Double.isZero : Double → Bool
  | Double.negZero => true
  | Double.finite x => decide (x = 0)
  | _ => false

/-- The comparison `a < b` of two doubles: it is false when one of them is not a number, and
the two zeros are equal. -/
def Double.lt : Double → Double → Bool
  | Double.nan, _ => false
  | _, Double.nan => false
  | Double.inf a, Double.inf b => a && !b
  | Double.inf negative, _ => negative
  | _, Double.inf negative => !negative
  | a, b => decide (a.value < b.value)

/-- The comparison `a > b` of two doubles. -/
def Double.gt (a b : Double) : Bool := Double.lt b a

/-- The comparison `a == b` of two doubles: it is false when one of them is not a number, and
the two zeros are equal. -/
def Double.eq : Double → Double → Bool
  | Double.nan, _ => false
  | _, Double.nan => false
  | Double.inf a, Double.inf b => a == b
  | Double.inf _, _ => false
  | _, Double.inf _ => false
  | a, b => decide (a.value = b.value)

/-- The comparison `a != b` of two doubles. -/
def Double.ne (a b : Double) : Bool := !Double.eq a b

/-- The test `boost::math::isnan`. -/
def Double.isnan : Double → Bool
  | Double.nan => true
  | _ => false

/-- The test `boost::math::isinf`. -/
def Double.isinf : Double → Bool
  | Double.inf _ => true
  | _ => false

/-- The integer nearest to a number that is not negative; of two that are as near, the even
one. -/
def roundHalfEven (q : ℚ) : Nat :=
  let f := ⌊q⌋.toNat
  if q - f < 1 / 2 then f
  else if 1 / 2 < q - f then f + 1
  else if f % 2 = 0 then f else f + 1

/-- The number of binary digits of `n`; `fuel` bounds their number. -/
def bitLength : Nat → Nat → Nat
  | 0, _ => 0
  | fuel + 1, n => if n = 0 then 0 else bitLength fuel (n / 2) + 1

/-- The binary exponent of a positive number `m`: the `e` with `2 ^ e ≤ m < 2 ^ (e + 1)`.
It is the difference of the numbers of binary digits of the numerator and of the
denominator, or one less. -/
def binaryExponent (m : ℚ) : Int :=
  if (2 : ℚ) ^ ((bitLength m.num.natAbs m.num.natAbs : Int) - (bitLength m.den m.den : Int)) ≤ m
  then (bitLength m.num.natAbs m.num.natAbs : Int) - (bitLength m.den m.den : Int)
  else (bitLength m.num.natAbs m.num.natAbs : Int) - (bitLength m.den m.den : Int) - 1

/-- The magnitude of the double nearest to a number `m` that is not negative, were there no
largest double: with `2 ^ e ≤ m < 2 ^ (e + 1)`, and `e` not below -1022, the multiple of
`2 ^ (e - 52)` nearest to `m`, and of two that are as near the one with the even
multiplier. -/
def roundBinary64 (m : ℚ) : ℚ :=
  (roundHalfEven (m / 2 ^ (max (binaryExponent m) (-1022) - 52)) : ℚ) *
    2 ^ (max (binaryExponent m) (-1022) - 52)

/-- The largest finite double. -/
def DBL_MAX : ℚ := (2 ^ 53 - 1) * 2 ^ 971

/-- The double nearest to the number with the sign given and the magnitude `m`: an infinity
beyond the largest double, and a zero of the sign given when the magnitude rounds to zero. -/
def Double.round (negative : Bool) (m : ℚ) : Double :=
  if DBL_MAX < roundBinary64 m then Double.inf negative
  else if roundBinary64 m = 0 then (if negative then Double.negZero else Double.finite 0)
  else Double.finite (if negative then -roundBinary64 m else roundBinary64 m)

/-- The double that a number is converted to, as a literal of the source or as an `int` in
an expression of doubles is: the double nearest to it. -/
def Double.ofRat (q : ℚ) : Double := Double.round (decide (q < 0)) |q|

/-- The product `a * b` of two doubles. -/
def Double.mul : Double → Double → Double
  | Double.nan, _ => Double.nan
  | _, Double.nan => Double.nan
  | Double.inf a, b => if b.isZero then Double.nan else Double.inf (a != b.signbit)
  | a, Double.inf b => if a.isZero then Double.nan else Double.inf (a.signbit != b)
  | a, b => Double.round (a.signbit != b.signbit) |a.value * b.value|

/-- The sum `a + b` of two doubles; a sum that is exactly zero is the positive zero, unless
both terms are negative zeros. -/
def Double.add : Double → Double → Double
  | Double.nan, _ => Double.nan
  | _, Double.nan => Double.nan
  | Double.inf a, Double.inf b => if a = b then Double.inf a else Double.nan
  | Double.inf a, _ => Double.inf a
  | _, Double.inf b => Double.inf b
  | a, b =>
    if a.value + b.value = 0 then
      (if a.signbit && b.signbit then Double.negZero else Double.finite 0)
    else Double.round (decide (a.value + b.value < 0)) |a.value + b.value|

/-- The least value of the type `long long`. -/
def LLONG_MIN : Int := -9223372036854775808

/-- The greatest value of the type `long long`. -/
def LLONG_MAX : Int := 9223372036854775807

/-- The conversion `static_cast<long long>` of a number: the fraction is cut off. -/
def truncate (q : ℚ) : Int := if 0 ≤ q then ⌊q⌋ else -⌊-q⌋

/-- The conversion `static_cast<long long>(d)` of a double: the fraction is cut off.  The
conversion is not defined for what is not a number, for an infinity, and for a value whose
integer part is outside of the type; this is a fault in the model. -/
def Double.toLongLong : Double → Except Fault Int
  | Double.finite x =>
    if LLONG_MIN ≤ truncate x ∧ truncate x ≤ LLONG_MAX then Except.ok (truncate x)
    else Except.error Fault.outOfBounds
  | Double.negZero => Except.ok 0
  | _ => Except.error Fault.outOfBounds

/-- The text is written to the start of the buffer, and a terminator after it; the buffer
must have room for both. -/
def storeCString (buf : List Char) (text : StdString) : Except Fault (List Char) :=
  if text.length < buf.length then
    Except.ok (text ++ NUL :: buf.drop (text.length + 1))
  else
    Except.error Fault.outOfBounds

/-- The notation of a number: the flags `scientific` and `fixed` of
`karma::real_policies<T>::fmtflags`. -/
inductive FmtFlags where
  | scientific
  | fixed
  deriving DecidableEq, Repr

/-- The function `karma::sign_inserter::call` of Boost: without a forced sign, a minus sign
for a negative number and nothing for any other; with a forced sign, the sign of a number
that is not zero and a blank for zero. -/
def sign_inserter (is_zero is_negative force_sign : Bool) : StdString :=
  if force_sign then
    if !is_zero then (if is_negative then ['-'] else ['+']) else [' ']
  else
    if is_negative then ['-'] else []

/-- The policy `JavaScriptPolicy<T>::nan`. -/
def JavaScriptPolicy.nan (_n : Double) (_force_sign : Bool) : StdString := "NaN".toList

/-- The policy `JavaScriptPolicy<T>::inf`. -/
def JavaScriptPolicy.inf (n : Double) (force_sign : Bool) : StdString :=
  sign_inserter false (n.lt (Double.finite 0)) force_sign ++ "Infinity".toList

/-- The policy `JavaScriptPolicy<T>::floatfield`.  The literal `0.001` is the double nearest
to that number; `1E8` is a double. -/
def JavaScriptPolicy.floatfield (t : Double) : FmtFlags :=
  if t.ne (Double.finite 0) &&
      (t.lt (Double.ofRat (1 / 1000)) || t.gt (Double.finite 100000000)) then
    FmtFlags.scientific
  else
    FmtFlags.fixed

/-- The policy `JavaScriptPolicy<T>::precision`. -/
def JavaScriptPolicy.precision (_t : Double) : Nat := 7

/-- The generator `KarmaJavaScriptDouble` of Boost.Karma on a double: what is not a number
goes to the `nan` of the policy, an infinity to its `inf` (no sign is forced), and any other
value to the number formatting of Boost with the notation and the precision that the policy
gives; `number` is this formatting, which is not modelled.  (`generic_double_to_str` does not
call the generator with a zero.) -/
def karmaGenerate (number : FmtFlags → Nat → ℚ → StdString) (d : Double) : StdString :=
  match d with
  | Double.nan => JavaScriptPolicy.nan d false
  | Double.inf _ => JavaScriptPolicy.inf d false
  | _ => number (JavaScriptPolicy.floatfield d) (JavaScriptPolicy.precision d) d.value

/-- The least `k` from `k + 1` on with `1 ≤ m * 10 ^ k`, for a positive `m` below one; `fuel`
bounds the search. -/
def negExponent : Nat → ℚ → Nat → Nat
  | 0, _, k => k
  | fuel + 1, m, k => if 1 ≤ m * 10 then k + 1 else negExponent fuel (m * 10) (k + 1)

/-- The decimal exponent of a positive number `m`: the `e` with `10 ^ e ≤ m < 10 ^ (e + 1)`. -/
def decimalExponent (m : ℚ) : Int :=
  if 1 ≤ m then ((decimalNat ⌊m⌋.toNat).length : Int) - 1
  else -((negExponent m.den m 0 : Nat) : Int)

/-- The number `m * 10 ^ z`. -/
def scaleBy (m : ℚ) (z : Int) : ℚ :=
  if 0 ≤ z then m * 10 ^ z.toNat else m / 10 ^ (-z).toNat

/-- The decimal text of a number, with two digits at least. -/
def twoDigits (k : Nat) : StdString := if k < 10 then '0' :: decimalNat k else decimalNat k

/-- The C library call `sprintf(buf, "%.7e", d)` on a zero or a finite value, given by its
sign and its magnitude `m`, as the text that it makes: a minus sign when the sign is set, one
digit, the point, seven digits, and the exponent with its sign and two digits at least.  With
`10 ^ e ≤ m < 10 ^ (e + 1)`, the digits are those of `m * 10 ^ (7 - e)` rounded to an integer,
to the nearest and to the even one on a tie. -/
def sprintf_e7 (negative : Bool) (m : ℚ) : StdString :=
  (if negative then ['-'] else []) ++
    (if m = 0 then
      "0.0000000e+00".toList
    else
      let e := decimalExponent m
      let n := roundHalfEven (scaleBy m (7 - e))
      let n1 := if n = 100000000 then 10000000 else n
      let e1 := if n = 100000000 then e + 1 else e
      let ds := decimalNat n1
      ds.take 1 ++ ['.'] ++ ds.drop 1 ++ ['e'] ++
        (if e1 < 0 then ['-'] else ['+']) ++ twoDigits e1.natAbs)

/-- The function `generic_double_to_str(d, buf)`, in the build with `SPIRIT_FLOAT_FORMAT`
(`spirit` is true) and in the build without it; the result is the buffer. -/
def generic_double_to_str (number : FmtFlags → Nat → ℚ → StdString) (spirit : Bool)
    (d : Double) (buf : List Char) : Except Fault (List Char) :=
  if spirit then
    if d.ne (Double.finite 0) then storeCString buf (karmaGenerate number d)
    else storeCString buf ['0']
  else
    if !d.isnan then
      if !d.isinf then
        storeCString buf (sprintf_e7 d.signbit |d.value|)
      else
        if d.gt (Double.finite 0) then storeCString buf "Infinity".toList
        else storeCString buf "-Infinity".toList
    else
      storeCString buf "NaN".toList

/-- The table of digits of `itoa` and `lltoa`. -/
def digitTable : StdString := "0123456789abcdefghijklmnopqrstuvwxyz".toList

/-- The loop `do { *out = table[quotient % base]; ++out; quotient /= base; } while (quotient);`
of `lltoa`: the buffer and `out` after it. -/
def lltoaLoop : Nat → List Char → Nat → Nat → Nat → Except Fault (List Char × Nat)
  | 0, _, _, _, _ => Except.error Fault.outOfFuel
  | fuel + 1, result, out, quotient, base =>
    match readAt digitTable (quotient % base) with
    | Except.error f => Except.error f
    | Except.ok c =>
      match writeAt result out c with
      | Except.error f => Except.error f
      | Except.ok result1 =>
        if quotient / base ≠ 0 then lltoaLoop fuel result1 (out + 1) (quotient / base) base
        else Except.ok (result1, out + 1)

/-- The function `lltoa(value, result, base)`: the digits are written from the last one on, a
minus sign after them for a negative value in base ten, what has been written is reversed,
and a terminator is written after it.  The value is a `long long`: a number outside of the
type is a fault in the model, and so is the least value of the type, for which the negation
`quotient = -quotient` overflows. -/
def lltoa (value : Int) (result : List Char) (base : Nat) : Except Fault (List Char) :=
  if value < LLONG_MIN ∨ LLONG_MAX < value then Except.error Fault.outOfBounds
  else if value = LLONG_MIN then Except.error Fault.outOfBounds
  else
    let quotient := value.natAbs
    match lltoaLoop (quotient + 1) result 0 quotient base with
    | Except.error f => Except.error f
    | Except.ok r =>
      let signed :=
        if value < 0 && base == 10 then
          match writeAt r.1 r.2 '-' with
          | Except.error f => Except.error f
          | Except.ok result1 => Except.ok (result1, r.2 + 1)
        else Except.ok r
      match signed with
      | Except.error f => Except.error f
      | Except.ok r1 => writeAt ((r1.1.take r1.2).reverse ++ r1.1.drop r1.2) r1.2 NUL

/-- The C library function `strlen` on the buffer from `off` on: the number of characters
before the first terminator; without a terminator in the buffer the read leaves it. -/
def strlen (buf : List Char) (off : Nat) : Except Fault Nat :=
  if NUL ∈ buf.drop off then Except.ok ((buf.drop off).takeWhile (fun c => c != NUL)).length
  else Except.error Fault.outOfBounds

/-- The table `exp` of `round_str`. -/
def roundExp : List Int := [1, 10, 100, 1000, 10000, 100000, 1000000]

/-- The body of the first loop of `round_str`, with `num` at `off` in the buffer:
`if (i >= shift) num[i] = num[i - shift]; else num[i] = '0';`. -/
def padBody (off shift i : Nat) (buf : List Char) : Except Fault (List Char) :=
  if shift ≤ i then
    match readAt buf (off + (i - shift)) with
    | Except.error f => Except.error f
    | Except.ok c => writeAt buf (off + i) c
  else
    writeAt buf (off + i) '0'

/-- The first loop of `round_str`, from `i` down to zero. -/
def padLoop (off shift : Nat) : Nat → List Char → Except Fault (List Char)
  | 0, buf => padBody off shift 0 buf
  | i + 1, buf =>
    match padBody off shift (i + 1) buf with
    | Except.error f => Except.error f
    | Except.ok buf1 => padLoop off shift i buf1

/-- The body of the second loop of `round_str`: `num[dotPos + i + 1] = num[dotPos + i];`. -/
def moveBody (off dotPos i : Nat) (buf : List Char) : Except Fault (List Char) :=
  match readAt buf (off + (dotPos + i)) with
  | Except.error f => Except.error f
  | Except.ok c => writeAt buf (off + (dotPos + i + 1)) c

/-- The second loop of `round_str`, from `i` down to zero. -/
def moveLoop (off dotPos : Nat) : Nat → List Char → Except Fault (List Char)
  | 0, buf => moveBody off dotPos 0 buf
  | i + 1, buf =>
    match moveBody off dotPos (i + 1) buf with
    | Except.error f => Except.error f
    | Except.ok buf1 => moveLoop off dotPos i buf1

/-- The condition under which `round_str` takes its fast path. -/
def fastPathApplies (d : Double) (digits : Int) : Bool :=
  (d.eq (Double.finite 0) ||
    (d.gt (Double.finite 1) && d.lt (Double.finite 1000000)) ||
    (d.lt (Double.finite (-1)) && d.gt (Double.finite (-1000000)))) &&
  decide (digits < 7)

/-- The fast path of `round_str`.  A `digits` outside of the table `exp` is a read outside
of it.  In `d * exp[digits] + (d > 0 ? 0.49 : -0.49)` the entry of the table is converted to
a double, the product and the sum are those of doubles, and `0.49` and `-0.49` are the
doubles nearest to these numbers.  The call `lltoa(i, buf)` leaves the base to its default,
which is ten; `dotPos`, the larger of `len - digits` and zero, is the difference of natural
numbers. -/
def roundFast (d : Double) (digits : Int) (buf : List Char) : Except Fault (List Char) :=
  if digits < 0 then Except.error Fault.outOfBounds
  else
    match roundExp[digits.toNat]? with
    | Option.none => Except.error Fault.outOfBounds
    | some e =>
      match (Double.add (Double.mul d (Double.ofRat e))
          (if d.gt (Double.finite 0) then Double.ofRat (49 / 100)
            else Double.ofRat (-49 / 100))).toLongLong with
      | Except.error f => Except.error f
      | Except.ok i =>
      match lltoa i buf 10 with
      | Except.error f => Except.error f
      | Except.ok buf1 =>
        match readAt buf1 0 with
        | Except.error f => Except.error f
        | Except.ok c =>
          let off := if c == '-' then 1 else 0
          match strlen buf1 off with
          | Except.error f => Except.error f
          | Except.ok len =>
            let padded :=
              if len ≤ digits.toNat then
                match padLoop off (digits.toNat + 1 - len) (digits.toNat + 1) buf1 with
                | Except.error f => Except.error f
                | Except.ok buf2 => Except.ok (buf2, digits.toNat + 1)
              else Except.ok (buf1, len)
            match padded with
            | Except.error f => Except.error f
            | Except.ok p =>
              let dotPos := p.2 - digits.toNat
              match moveLoop off dotPos (digits.toNat + 1) p.1 with
              | Except.error f => Except.error f
              | Except.ok buf3 => writeAt buf3 (off + dotPos) '.'

/-- The function `round_str(d, digits, buf)`, in the build with `SPIRIT_FLOAT_FORMAT`
(`spirit` is true) and in the build without it; the result is the buffer. -/
def round_str (number : FmtFlags → Nat → ℚ → StdString) (spirit : Bool) (d : Double)
    (digits : Int) (buf : List Char) : Except Fault (List Char) :=
  if spirit then
    generic_double_to_str number spirit d buf
  else
    if fastPathApplies d digits then
      roundFast d digits buf
    else
      generic_double_to_str number spirit d buf

/-- The C string that a function has left in its buffer, when it has ended without a
fault. -/
def resultText (r : Except Fault (List Char)) : Option StdString :=
  match r with
  | Except.ok buf => some (c_str buf)
  | Except.error _ => Option.none

/-- The search of `std::string::find(k, pos)` through what is left of the string from the
position `i` on: the first position at which `k` starts. -/
def findFrom (k : StdString) : StdString → Nat → Option Nat
  | [], i => if k = [] then some i else Option.none
  | c :: rest, i => if k.isPrefixOf (c :: rest) then some i else findFrom k rest (i + 1)

/-- The method `std::string::find(k, pos)`: the first position from `pos` on at which `k`
starts, and nothing (`npos`) when there is none. -/
def find (s k : StdString) (pos : Nat) : Option Nat :=
  if pos ≤ s.length then findFrom k (s.drop pos) pos else Option.none

/-- The search of `std::string::find(c, pos)` for a character through what is left of the
string from the position `i` on. -/
def findCharFrom (c : Char) : StdString → Nat → Option Nat
  | [], _ => Option.none
  | x :: rest, i => if x = c then some i else findCharFrom c rest (i + 1)

/-- The method `std::string::find(c, pos)` for a character. -/
def findChar (s : StdString) (c : Char) (pos : Nat) : Option Nat :=
  if pos ≤ s.length then findCharFrom c (s.drop pos) pos else Option.none

/-- The method `std::string::replace(pos, n, r)`, for a position inside the string: the `n`
characters from `pos` on, or those that there are, make place for `r`. -/
def stringReplace (s : StdString) (pos n : Nat) (r : StdString) : StdString :=
  s.take pos ++ r ++ s.drop (pos + n)

/-- The loop
`while ((p = s.find(k, p)) != npos) { s.replace(p, k.length(), r); p += r.length(); }`
of `replace(s, k, r)`, from the position `p` on; `fuel` bounds the number of turns. -/
def replaceLoop (k r : StdString) : Nat → StdString → Nat → Except Fault StdString
  | 0, _, _ => Except.error Fault.outOfFuel
  | fuel + 1, s, p =>
    match find s k p with
    | Option.none => Except.ok s
    | some q => replaceLoop k r fuel (stringReplace s q k.length r) (q + r.length)

/-- The function `replace(std::string& s, const std::string& k, const std::string& r)`: the
string `s` after the call.  One turn of the loop for every character of `s`, and one more,
are allowed for. -/
def replace (s k r : StdString) : Except Fault StdString :=
  replaceLoop k r (s.length + 1) s 0

/-- The loop
`while ((p = s.find(c, p)) != npos) { s.replace(p, 1, r); p += r.length(); }`
of `replace(s, c, r)` for a character `c`. -/
def replaceCharLoop (c : Char) (r : StdString) : Nat → StdString → Nat → Except Fault StdString
  | 0, _, _ => Except.error Fault.outOfFuel
  | fuel + 1, s, p =>
    match findChar s c p with
    | Option.none => Except.ok s
    | some q => replaceCharLoop c r fuel (stringReplace s q 1 r) (q + r.length)

/-- The function `replace(std::string& s, char c, const std::string& r)`. -/
def replaceChar (s : StdString) (c : Char) (r : StdString) : Except Fault StdString :=
  replaceCharLoop c r (s.length + 1) s 0

/-- The replacement of every occurrence of `k` by `r` in one pass from left to right:
`skip` is the number of characters of an occurrence just replaced that are still to be passed
over; where `k` starts, `r` is put and the occurrence is passed over, and any other character
is kept.  What has been put is not looked at again. -/
def replaceAllScan (k r : StdString) : StdString → Nat → StdString
  | [], _ => []
  | _ :: rest, skip + 1 => replaceAllScan k r rest skip
  | c :: rest, 0 =>
    if k.isPrefixOf (c :: rest) then r ++ replaceAllScan k r rest (k.length - 1)
    else c :: replaceAllScan k r rest 0

/-- The string `s` with every occurrence of `k`, from left to right and without overlap,
replaced by `r`. -/
def replaceAll (s k r : StdString) : StdString := replaceAllScan k r s 0

/-! ## `WebUtils.C`: `pad_itoa` -/

/-- The table `exp` of `pad_itoa`. -/
def padExp : List Int := [1, 10, 100, 1000, 10000, 100000, 100000]

/-- The loop `for (int i = 0; i < length; ++i)` of `pad_itoa`, with `n` turns to go from `i`
on: `int b = exp[length - i - 1]; if (value >= b) result[i] = '0' + (value / b) % 10; else
result[i] = '0';`.  The division is reached with a value that is not negative only. -/
def pad_itoaLoop (value : Int) (length : Int) : Nat → Nat → List Char →
    Except Fault (List Char)
  | 0, _, result => Except.ok result
  | n + 1, i, result =>
    if length - i - 1 < 0 then Except.error Fault.outOfBounds
    else
      match padExp[(length - i - 1).toNat]? with
      | Option.none => Except.error Fault.outOfBounds
      | some b =>
        match writeAt result i (if value ≥ b then toChar (48 + (value / b) % 10) else '0') with
        | Except.error f => Except.error f
        | Except.ok result1 => pad_itoaLoop value length n (i + 1) result1

/-- The function `pad_itoa(value, length, result)`: the buffer `result` after the call. -/
def pad_itoa (value : Int) (length : Int) (result : List Char) : Except Fault (List Char) :=
  if length < 0 then Except.error Fault.outOfBounds
  else
    match writeAt result length.toNat NUL with
    | Except.error f => Except.error f
    | Except.ok result1 => pad_itoaLoop value length length.toNat 0 result1

/-- The decimal text of a number with zeros before it up to the width `length`. -/
def zeroPadded (value length : Nat) : StdString :=
  List.replicate (length - (decimalNat value).length) '0' ++ decimalNat value

/-! ## Properties of `WDialog::setHidden` -/

/-- What `setHidden` leaves alone: the identity of the dialog, its members other than the
hidden flag and the saved cover state, and the parts of the session that describe its
environment. -/
theorem setHidden_frame (d : WDialog) (app : WApplication) (hidden : Bool) (a : WAnimation) :
    (d.setHidden app hidden a).1.id = d.id ∧
    (d.setHidden app hidden a).1.modal_ = d.modal_ ∧
    (d.setHidden app hidden a).1.recursiveEventLoop_ = d.recursiveEventLoop_ ∧
    (d.setHidden app hidden a).1.result_ = d.result_ ∧
    (d.setHidden app hidden a).1.implZIndex = d.implZIndex ∧
    (d.setHidden app hidden a).2.isTest = app.isTest ∧
    (d.setHidden app hidden a).2.dialogExecutedSlots = app.dialogExecutedSlots ∧
    (d.setHidden app hidden a).2.pendingEvents = app.pendingEvents ∧
    (d.setHidden app hidden a).2.dialogCover.isSome = app.dialogCover.isSome := by
  cases hc : app.dialogCover <;> simp only [WDialog.setHidden, hc] <;> split_ifs <;>
    simp [WCompositeWidget.setHidden, WDialog.saveCoverState, WDialog.restoreCoverState,
      WApplication.pushExposedConstraint, WApplication.popExposedConstraint, hc]

/-- The events of `setHidden` come from the widget itself. -/
theorem setHidden_trace (d : WDialog) (app : WApplication) (hidden : Bool) (a : WAnimation) :
    ∃ extra, (d.setHidden app hidden a).2.trace = app.trace ++ extra ∧
      ∀ e ∈ extra, e.fromWidget = true := by
  cases hc : app.dialogCover <;> simp only [WDialog.setHidden, hc] <;> split_ifs
  all_goals first
    | (refine ⟨[], ?_, ?_⟩ <;> (simp; done))
    | (refine ⟨[Ev.widgetSetHidden d.id hidden], ?_, ?_⟩ <;>
        (simp [WCompositeWidget.setHidden, WDialog.restoreCoverState,
          WApplication.popExposedConstraint, Ev.fromWidget]; done))
    | (refine ⟨[Ev.blurActiveElement d.id, Ev.widgetSetHidden d.id hidden], ?_, ?_⟩ <;>
        (simp [WCompositeWidget.setHidden, WDialog.saveCoverState,
          WApplication.pushExposedConstraint, Ev.fromWidget]))

/-- After `hide()` the dialog is hidden, unless it is modal and visible and the cover is
gone. -/
theorem hide_hidden (d : WDialog) (app : WApplication)
    (h : app.dialogCover.isSome = true ∨ d.modal_ = false ∨ d.hidden = true) :
    (d.hide app).1.hidden = true := by
  cases hc : app.dialogCover <;> simp only [WDialog.hide, WDialog.setHidden, hc] <;>
    split_ifs with h1 h2 <;> simp [WCompositeWidget.setHidden]
  rcases h with h | h | h
  · simp [hc] at h
  · simp [h] at h2
  · simp [WDialog.isHidden, h] at h1

/-- The codes of `finished` in a record of events that is made of two parts. -/
theorem finishedCodes_append (dlg : Nat) (l1 l2 : List Ev) :
    finishedCodes dlg (l1 ++ l2) = finishedCodes dlg l1 ++ finishedCodes dlg l2 := by
  induction l1 with
  | nil => rfl
  | cons e rest ih =>
    cases e <;> simp [finishedCodes, ih]
    split_ifs <;> simp

/-- Events from the widget itself hold no emission of `finished`. -/
theorem finishedCodes_fromWidget (dlg : Nat) (l : List Ev)
    (h : ∀ e ∈ l, e.fromWidget = true) : finishedCodes dlg l = [] := by
  induction l with
  | nil => rfl
  | cons e rest ih =>
    have he := h e (List.mem_cons_self _ _)
    have hr : ∀ x ∈ rest, x.fromWidget = true := fun x hx => h x (List.mem_cons_of_mem _ hx)
    cases e <;> simp [Ev.fromWidget] at he <;> simp [finishedCodes, ih hr]

/-! ## Properties of `done()` and of handlers -/

/-- What `done` does to the dialog and what it leaves alone. -/
theorem done_frame (d : WDialog) (app : WApplication) (c : DialogCode) :
    (d.done app c).1.id = d.id ∧
    (d.done app c).1.result_ = c ∧
    (d.done app c).1.recursiveEventLoop_ = false ∧
    (d.done app c).1.modal_ = d.modal_ ∧
    (d.done app c).2.isTest = app.isTest ∧
    (d.done app c).2.dialogExecutedSlots = app.dialogExecutedSlots ∧
    (d.done app c).2.pendingEvents = app.pendingEvents ∧
    (d.done app c).2.dialogCover.isSome = app.dialogCover.isSome := by
  have hf := setHidden_frame { d with result_ := c } app true WAnimation.none
  by_cases h : d.recursiveEventLoop_ = true
  · simp [WDialog.done, h]
  · have h0 : d.recursiveEventLoop_ = false := by simpa using h
    rw [h0] at hf
    simp only [WDialog.done, WDialog.hide, h0]
    simp at hf
    simp [hf]

/-- The events of `done`: events from the widget, and then `finished`. -/
theorem done_trace (d : WDialog) (app : WApplication) (c : DialogCode) :
    ∃ w, (d.done app c).2.trace = app.trace ++ (w ++ [Ev.finished d.id c]) ∧
      ∀ e ∈ w, e.fromWidget = true := by
  by_cases h : d.recursiveEventLoop_ = true
  · exact ⟨[], by simp [WDialog.done, h], by simp⟩
  · obtain ⟨w, he, hw⟩ := setHidden_trace { d with result_ := c } app true WAnimation.none
    have h0 : d.recursiveEventLoop_ = false := by simpa using h
    rw [h0] at he
    exact ⟨w, by simp [WDialog.done, h0, WDialog.hide, he], hw⟩

/-- What a call of a handler leaves alone. -/
theorem apply_frame (a : Action) (d : WDialog) (app : WApplication) :
    (a.apply d app).1.id = d.id ∧
    (a.apply d app).2.isTest = app.isTest ∧
    (a.apply d app).2.dialogExecutedSlots = app.dialogExecutedSlots ∧
    (a.apply d app).2.pendingEvents = app.pendingEvents ∧
    (a.apply d app).2.dialogCover.isSome = app.dialogCover.isSome := by
  have hs := fun hidden => setHidden_frame d app hidden WAnimation.none
  have hd := fun c => done_frame d app c
  cases a <;> simp [Action.apply, WDialog.show, WDialog.hide, WDialog.setModal, WDialog.accept,
    WDialog.reject, hs, hd]

/-- A call of a handler clears the recursive-loop-active flag when it is `done`, `accept` or
`reject`, and leaves it alone otherwise. -/
theorem apply_recursiveEventLoop (a : Action) (d : WDialog) (app : WApplication) :
    (a.apply d app).1.recursiveEventLoop_ = (d.recursiveEventLoop_ && !a.closes) := by
  have hs := fun hidden => setHidden_frame d app hidden WAnimation.none
  have hd := fun c => done_frame d app c
  cases a <;> simp [Action.apply, WDialog.show, WDialog.hide, WDialog.setModal, WDialog.accept,
    WDialog.reject, hs, hd, Action.closes]

/-- The events of a call of a handler come from operations of the dialog. -/
theorem apply_trace (a : Action) (d : WDialog) (app : WApplication) :
    ∃ extra, (a.apply d app).2.trace = app.trace ++ extra ∧
      ∀ e ∈ extra, e.fromOperation = true := by
  have hw : ∀ l : List Ev, (∀ e ∈ l, e.fromWidget = true) → ∀ e ∈ l, e.fromOperation = true := by
    intro l hl e he
    have := hl e he
    cases e <;> simp_all [Ev.fromWidget, Ev.fromOperation]
  have hs : ∀ hidden, ∃ extra, (d.setHidden app hidden WAnimation.none).2.trace =
      app.trace ++ extra ∧ ∀ e ∈ extra, e.fromOperation = true := by
    intro hidden
    obtain ⟨w, h1, h2⟩ := setHidden_trace d app hidden WAnimation.none
    exact ⟨w, h1, hw w h2⟩
  have hd : ∀ c, ∃ extra, (d.done app c).2.trace = app.trace ++ extra ∧
      ∀ e ∈ extra, e.fromOperation = true := by
    intro c
    obtain ⟨w, h1, h2⟩ := done_trace d app c
    refine ⟨w ++ [Ev.finished d.id c], h1, ?_⟩
    intro e he
    rcases List.mem_append.1 he with h | h
    · exact hw w h2 e h
    · simp at h
      simp [h, Ev.fromOperation]
  cases a
  · exact hs false
  · exact hs true
  · exact ⟨[], by simp [Action.apply], by simp⟩
  · exact hd _
  · exact hd _
  · exact hd _

/-- A call of a handler keeps the state of a dialog that `exec()` waits on as `Waiting`
describes it. -/
theorem apply_waiting (base : List Ev) (a : Action) (d : WDialog) (app : WApplication)
    (h : Waiting base d app) : Waiting base (a.apply d app).1 (a.apply d app).2 := by
  obtain ⟨extra, ht, hw⟩ := h
  have hs : ∀ hidden, Waiting base (d.setHidden app hidden WAnimation.none).1
      (d.setHidden app hidden WAnimation.none).2 := by
    intro hidden
    obtain ⟨w, h1, h2⟩ := setHidden_trace d app hidden WAnimation.none
    have hf := setHidden_frame d app hidden WAnimation.none
    refine ⟨extra ++ w, by rw [h1, ht, List.append_assoc], ?_⟩
    rw [hf.1, hf.2.2.1, hf.2.2.2.1, finishedCodes_append, finishedCodes_fromWidget _ _ h2,
      List.append_nil]
    exact hw
  have hd : ∀ c, Waiting base (d.done app c).1 (d.done app c).2 := by
    intro c
    obtain ⟨w, h1, h2⟩ := done_trace d app c
    have hf := done_frame d app c
    refine ⟨extra ++ (w ++ [Ev.finished d.id c]), by rw [h1, ht, List.append_assoc], Or.inr ?_⟩
    rw [hf.1, hf.2.1, hf.2.2.1]
    simp [finishedCodes_append, finishedCodes]
  cases a
  · exact hs false
  · exact hs true
  · exact ⟨extra, ht, hw⟩
  · exact hd _
  · exact hd _
  · exact hd _

/-- What a handler leaves alone. -/
theorem runHandler_frame (l : List Action) (d : WDialog) (app : WApplication) :
    (runHandler l d app).1.id = d.id ∧
    (runHandler l d app).2.isTest = app.isTest ∧
    (runHandler l d app).2.dialogExecutedSlots = app.dialogExecutedSlots ∧
    (runHandler l d app).2.pendingEvents = app.pendingEvents ∧
    (runHandler l d app).2.dialogCover.isSome = app.dialogCover.isSome := by
  induction l generalizing d app with
  | nil => simp [runHandler]
  | cons a rest ih =>
    have h1 := apply_frame a d app
    have h2 := ih (a.apply d app).1 (a.apply d app).2
    simp only [runHandler]
    refine ⟨h2.1.trans h1.1, h2.2.1.trans h1.2.1, h2.2.2.1.trans h1.2.2.1,
      h2.2.2.2.1.trans h1.2.2.2.1, h2.2.2.2.2.trans h1.2.2.2.2⟩

/-- After a handler the recursive-loop-active flag is set exactly when it was set before
and the handler has called none of `done`, `accept` and `reject`. -/
theorem runHandler_recursiveEventLoop (l : List Action) (d : WDialog) (app : WApplication) :
    (runHandler l d app).1.recursiveEventLoop_ =
      (d.recursiveEventLoop_ && l.all (fun a => !a.closes)) := by
  induction l generalizing d app with
  | nil => simp [runHandler]
  | cons a rest ih =>
    simp only [runHandler, ih, apply_recursiveEventLoop, List.all_cons, Bool.and_assoc]

/-- The events of a handler come from operations of the dialog. -/
theorem runHandler_trace (l : List Action) (d : WDialog) (app : WApplication) :
    ∃ extra, (runHandler l d app).2.trace = app.trace ++ extra ∧
      ∀ e ∈ extra, e.fromOperation = true := by
  induction l generalizing d app with
  | nil => exact ⟨[], by simp [runHandler], by simp⟩
  | cons a rest ih =>
    obtain ⟨x1, h1, g1⟩ := apply_trace a d app
    obtain ⟨x2, h2, g2⟩ := ih (a.apply d app).1 (a.apply d app).2
    refine ⟨x1 ++ x2, by simp only [runHandler, h2, h1, List.append_assoc], ?_⟩
    intro e he
    rcases List.mem_append.1 he with h | h
    · exact g1 e h
    · exact g2 e h

/-- A handler keeps the state of a dialog that `exec()` waits on as `Waiting` describes
it. -/
theorem runHandler_waiting (base : List Ev) (l : List Action) (d : WDialog) (app : WApplication)
    (h : Waiting base d app) : Waiting base (runHandler l d app).1 (runHandler l d app).2 := by
  induction l generalizing d app with
  | nil => exact h
  | cons a rest ih => exact ih _ _ (apply_waiting base a d app h)

/-- Events other than `finished` of the dialog keep the state of a dialog that `exec()`
waits on as `Waiting` describes it. -/
theorem waiting_append (base : List Ev) (d : WDialog) (app : WApplication) (w : List Ev)
    (hw : finishedCodes d.id w = []) (h : Waiting base d app) :
    Waiting base d { app with trace := app.trace ++ w } := by
  obtain ⟨extra, ht, hx⟩ := h
  refine ⟨extra ++ w, by simp [ht], ?_⟩
  rw [finishedCodes_append, hw, List.append_nil]
  exact hx

/-- When the loop of `exec()` ends, the dialog has left its recursive event loop. -/
theorem execLoop_waiting (base : List Ev) (evs : List (List Action)) (d : WDialog)
    (app : WApplication) (r : WDialog × WApplication) (h : Waiting base d app)
    (hr : execLoop evs d app = some r) :
    Waiting base r.1 r.2 ∧ r.1.recursiveEventLoop_ = false ∧ r.1.id = d.id ∧
      r.2.dialogCover.isSome = app.dialogCover.isSome := by
  induction evs generalizing d app with
  | nil => simp [execLoop] at hr
  | cons handler rest ih =>
    simp only [execLoop] at hr
    have h1 : Waiting base d
        { app with pendingEvents := rest, trace := app.trace ++ [Ev.doRecursiveEventLoop] } := by
      have := waiting_append base d app [Ev.doRecursiveEventLoop] (by simp [finishedCodes]) h
      obtain ⟨extra, ht, hx⟩ := this
      exact ⟨extra, ht, hx⟩
    have h2 := runHandler_waiting base handler _ _ h1
    have h3 := runHandler_frame handler d
      { app with pendingEvents := rest, trace := app.trace ++ [Ev.doRecursiveEventLoop] }
    split_ifs at hr with hflag
    · obtain ⟨g1, g2, g3, g4⟩ := ih _ _ h2 hr
      exact ⟨g1, g2, g3.trans h3.1, g4.trans h3.2.2.2.2⟩
    · cases hr
      exact ⟨h2, by simpa using hflag, h3.1, h3.2.2.2.2⟩

/-- Events that come from operations of the dialog are neither `dialogExecuted` nor
`doRecursiveEventLoop`. -/
theorem fromOperation_free (l : List Ev) (h : ∀ e ∈ l, e.fromOperation = true) (k : Nat) :
    l.count (Ev.dialogExecuted k) = 0 ∧ Ev.doRecursiveEventLoop ∉ l := by
  constructor
  · rw [List.count_eq_zero]
    intro hm
    have := h _ hm
    simp [Ev.fromOperation] at this
  · intro hm
    have := h _ hm
    simp [Ev.fromOperation] at this

/-- Events from the widget itself are events from operations of the dialog. -/
theorem fromWidget_fromOperation (l : List Ev) (h : ∀ e ∈ l, e.fromWidget = true) :
    ∀ e ∈ l, e.fromOperation = true := by
  intro e he
  have := h e he
  cases e <;> simp_all [Ev.fromWidget, Ev.fromOperation]

/-! ## `exec()` and `done()` -/

/-- C1: `exec()` raises the invalid-state error (the exception `alreadyExecuted`) exactly
when it is called with the recursive-loop-active flag set; it then raises it at once: the
dialog and the session, the record of events included, are as they were before the call. -/
theorem exec_already_executed_iff (d : WDialog) (app : WApplication) (animation : WAnimation) :
    ((∃ d1 app1, d.exec app animation = ExecResult.threw alreadyExecuted d1 app1) ↔
        d.recursiveEventLoop_ = true) ∧
    (d.recursiveEventLoop_ = true →
        d.exec app animation = ExecResult.threw alreadyExecuted d app) := by
  have hne : mustCloseDialog ≠ alreadyExecuted := by decide
  refine ⟨⟨?_, fun h => ⟨d, app, by simp [WDialog.exec, h]⟩⟩, fun h => by simp [WDialog.exec, h]⟩
  rintro ⟨d1, app1, h⟩
  by_contra hflag
  unfold WDialog.exec at h
  rw [if_neg hflag] at h
  dsimp only at h
  split_ifs at h
  · injection h with he
    exact hne he
  · revert h
    generalize execLoop _ _ _ = r
    cases r <;> intro h <;> cases h

/-- C2, counterexample: on a visible modal dialog whose recursive-loop-active flag is clear,
in a session whose cover is gone, `done(Accepted)` stores the code and emits `finished`, and
the dialog is as visible as before. -/
theorem done_hides_counterexample :
    visibleDialog.recursiveEventLoop_ = false ∧
    visibleDialog.hidden = false ∧
    (visibleDialog.done teardownApp DialogCode.Accepted).1.result_ = DialogCode.Accepted ∧
    (visibleDialog.done teardownApp DialogCode.Accepted).1.hidden = false ∧
    (visibleDialog.done teardownApp DialogCode.Accepted).2.trace =
      [Ev.finished 1 DialogCode.Accepted] := by
  decide

/-- C2, as amended: `done(c)` stores `c` as the result code.  With the recursive-loop-active
flag set it clears the flag and changes nothing else of the dialog (it stays as visible as it
was) or of the session; otherwise it does what `hide()` does, after which the dialog is
hidden when the cover of the session exists, or the dialog is not modal, or it was hidden
already, and is still visible when the dialog is modal and visible and the cover is gone.
In both cases it then emits `finished` with `c`, once: the record of events is the one after
the unwinding or the hiding, followed by this emission, and no other emission of `finished`
is added. -/
theorem done_records_then_emits (d : WDialog) (app : WApplication) (c : DialogCode) :
    (d.done app c).1.result_ = c ∧
    (d.recursiveEventLoop_ = true →
      (d.done app c).1 = { d with result_ := c, recursiveEventLoop_ := false } ∧
      (d.done app c).2 = { app with trace := app.trace ++ [Ev.finished d.id c] }) ∧
    (d.recursiveEventLoop_ = false →
      (d.done app c).1 = ({ d with result_ := c }.hide app).1 ∧
      (d.done app c).2 =
        { ({ d with result_ := c }.hide app).2 with
          trace := ({ d with result_ := c }.hide app).2.trace ++ [Ev.finished d.id c] }) ∧
    (d.recursiveEventLoop_ = false →
      (app.dialogCover.isSome = true ∨ d.modal_ = false ∨ d.hidden = true) →
      (d.done app c).1.hidden = true) ∧
    (d.recursiveEventLoop_ = false →
      app.dialogCover = Option.none → d.modal_ = true → d.hidden = false →
      (d.done app c).1.hidden = false) ∧
    finishedCodes d.id (d.done app c).2.trace = finishedCodes d.id app.trace ++ [c] := by
  refine ⟨?_, ?_, ?_, ?_, ?_, ?_⟩
  · by_cases h : d.recursiveEventLoop_ = true
    · simp [WDialog.done, h]
    · simp [WDialog.done, h, WDialog.hide, (setHidden_frame _ _ _ _).2.2.2.1]
  · intro h
    simp [WDialog.done, h]
  · intro h
    simp [WDialog.done, h]
  · intro h hc
    have := hide_hidden { d with result_ := c } app hc
    rw [h] at this
    simpa [WDialog.done, h] using this
  · intro h hc hm hh
    simp [WDialog.done, h, WDialog.hide, WDialog.setHidden, WDialog.isHidden, hc, hm, hh]
  · by_cases h : d.recursiveEventLoop_ = true
    · simp [WDialog.done, h, finishedCodes_append, finishedCodes]
    · obtain ⟨extra, he, hw⟩ := setHidden_trace { d with result_ := c } app true WAnimation.none
      have hf : d.recursiveEventLoop_ = false := by simpa using h
      rw [hf] at he
      simp [WDialog.done, hf, WDialog.hide, he, finishedCodes_append, finishedCodes,
        finishedCodes_fromWidget _ _ hw]

/-- What `exec()` returns, and in which state, once the wait is over. -/
theorem exec_after_wait (base : List Ev) (d : WDialog) (app : WApplication)
    (r : WDialog × WApplication) (hw : Waiting base r.1 r.2)
    (hflag : r.1.recursiveEventLoop_ = false) (hid : r.1.id = d.id)
    (hc : r.2.dialogCover.isSome = app.dialogCover.isSome) :
    (r.1.hide r.2).1.recursiveEventLoop_ = false ∧
    (app.dialogCover.isSome = true ∨ (r.1.hide r.2).1.modal_ = false →
      (r.1.hide r.2).1.hidden = true) ∧
    ∃ extra, (r.1.hide r.2).2.trace = base ++ extra ∧
      (finishedCodes d.id extra).getLast? = some (r.1.hide r.2).1.result_ := by
  have hf := setHidden_frame r.1 r.2 true WAnimation.none
  obtain ⟨w, h1, h2⟩ := setHidden_trace r.1 r.2 true WAnimation.none
  obtain ⟨extra, ht, hx⟩ := hw
  refine ⟨by rw [WDialog.hide, hf.2.2.1, hflag], ?_, extra ++ w, ?_, ?_⟩
  · intro h
    apply hide_hidden
    rcases h with h | h
    · exact Or.inl (hc.trans h)
    · rw [WDialog.hide, hf.2.1] at h
      exact Or.inr (Or.inl h)
  · rw [WDialog.hide, h1, ht, List.append_assoc]
  · rw [WDialog.hide, hf.2.2.2.1, finishedCodes_append, finishedCodes_fromWidget _ _ h2,
      List.append_nil, ← hid]
    rcases hx with hx | hx
    · rw [hflag] at hx
      exact absurd hx.1 (by decide)
    · exact hx.2

/-- Whenever `exec()` returns, the recursive-loop-active flag of the dialog is clear, the
dialog is hidden provided that the cover of the session exists or that the dialog is not
modal, and the value returned is the result code of the dialog, which is the last code that
`finished` was emitted with during the call. -/
theorem exec_returned (d : WDialog) (app : WApplication) (animation : WAnimation)
    (c : DialogCode) (d1 : WDialog) (app1 : WApplication)
    (h : d.exec app animation = ExecResult.returned c d1 app1) :
    d1.recursiveEventLoop_ = false ∧
    (app.dialogCover.isSome = true ∨ d1.modal_ = false → d1.hidden = true) ∧
    c = d1.result_ ∧
    ∃ extra, app1.trace = app.trace ++ extra ∧ (finishedCodes d.id extra).getLast? = some c := by
  unfold WDialog.exec at h
  obtain ⟨w, hs1, hs2⟩ := setHidden_trace d app false animation
  have hsf := setHidden_frame d app false animation
  have hsw := finishedCodes_fromWidget d.id w hs2
  by_cases h0 : d.recursiveEventLoop_ = true
  · rw [if_pos h0] at h
    cases h
  rw [if_neg h0] at h
  dsimp only at h
  by_cases htest : (d.animateShow app animation).2.isTest = true
  · -- scripted test
    rw [if_pos htest] at h
    split_ifs at h with hstill
    injection h with e1 e2 e3
    have hw : Waiting (app.trace ++ (w ++ [Ev.dialogExecuted d.id]))
        { (d.animateShow app animation).1 with recursiveEventLoop_ := true }
        { (d.animateShow app animation).2 with
          trace := (d.animateShow app animation).2.trace ++
            [Ev.dialogExecuted (d.animateShow app animation).1.id] } := by
      refine ⟨[], ?_, Or.inl ⟨rfl, rfl⟩⟩
      simp only [WDialog.animateShow, hs1, hsf.1, List.append_assoc, List.append_nil]
    have hr := runHandler_waiting _ (d.animateShow app animation).2.dialogExecutedSlots _ _ hw
    have hfr := runHandler_frame (d.animateShow app animation).2.dialogExecutedSlots
      { (d.animateShow app animation).1 with recursiveEventLoop_ := true }
      { (d.animateShow app animation).2 with
          trace := (d.animateShow app animation).2.trace ++
            [Ev.dialogExecuted (d.animateShow app animation).1.id] }
    have key := exec_after_wait _ d app _ hr (by simpa using hstill)
      (hfr.1.trans (by simp only [WDialog.animateShow, hsf.1]))
      (hfr.2.2.2.2.trans (by simp only [WDialog.animateShow, hsf.2.2.2.2.2.2.2.2]))
    rw [e2] at key
    rw [e3] at key
    obtain ⟨k1, k2, extra, k3, k4⟩ := key
    have hc1 : c = d1.result_ := by rw [← e2]; exact e1.symm
    refine ⟨k1, k2, hc1, (w ++ [Ev.dialogExecuted d.id]) ++ extra, ?_, ?_⟩
    · rw [k3, List.append_assoc]
    · rw [finishedCodes_append, finishedCodes_append, hsw, hc1]
      simpa [finishedCodes] using k4
  · -- recursive event loop
    rw [if_neg htest] at h
    revert h
    cases hl : execLoop (d.animateShow app animation).2.pendingEvents
      { (d.animateShow app animation).1 with recursiveEventLoop_ := true }
      (d.animateShow app animation).2 with
    | none => intro h; cases h
    | some r =>
      intro h
      dsimp only at h
      injection h with e1 e2 e3
      have hw : Waiting (app.trace ++ w)
          { (d.animateShow app animation).1 with recursiveEventLoop_ := true }
          (d.animateShow app animation).2 := by
        refine ⟨[], ?_, Or.inl ⟨rfl, rfl⟩⟩
        simp only [WDialog.animateShow, hs1, List.append_nil]
      obtain ⟨g1, g2, g3, g4⟩ := execLoop_waiting _ _ _ _ r hw hl
      have key := exec_after_wait _ d app r g1 g2
        (g3.trans (by simp only [WDialog.animateShow, hsf.1]))
        (g4.trans (by simp only [WDialog.animateShow, hsf.2.2.2.2.2.2.2.2]))
      rw [e2] at key
      rw [e3] at key
      obtain ⟨k1, k2, extra, k3, k4⟩ := key
      have hc1 : c = d1.result_ := by rw [← e2]; exact e1.symm
      refine ⟨k1, k2, hc1, w ++ extra, ?_, ?_⟩
      · rw [k3, List.append_assoc]
      · rw [finishedCodes_append, hsw, hc1]
        simpa using k4

/-- The shape of `exec()` in a scripted test, on a dialog that is not being executed: the
slots run from a state `(d2, app2)` in which the dialog is in its recursive event loop and
`dialogExecuted` has just been emitted. -/
theorem exec_in_test_eq (d : WDialog) (app : WApplication) (animation : WAnimation)
    (htest : app.isTest = true) (hflag : d.recursiveEventLoop_ = false) :
    ∃ d2 app2 w, (∀ e ∈ w, e.fromWidget = true) ∧ d2.id = d.id ∧
      d2.recursiveEventLoop_ = true ∧
      app2.trace = app.trace ++ (w ++ [Ev.dialogExecuted d.id]) ∧
      app2.pendingEvents = app.pendingEvents ∧
      d.exec app animation =
        if (runHandler app.dialogExecutedSlots d2 app2).1.recursiveEventLoop_ = true then
          ExecResult.threw mustCloseDialog (runHandler app.dialogExecutedSlots d2 app2).1
            (runHandler app.dialogExecutedSlots d2 app2).2
        else
          ExecResult.returned
            ((runHandler app.dialogExecutedSlots d2 app2).1.hide
              (runHandler app.dialogExecutedSlots d2 app2).2).1.result_
            ((runHandler app.dialogExecutedSlots d2 app2).1.hide
              (runHandler app.dialogExecutedSlots d2 app2).2).1
            ((runHandler app.dialogExecutedSlots d2 app2).1.hide
              (runHandler app.dialogExecutedSlots d2 app2).2).2 := by
  obtain ⟨w, hs1, hs2⟩ := setHidden_trace d app false animation
  have hsf := setHidden_frame d app false animation
  refine ⟨{ (d.animateShow app animation).1 with recursiveEventLoop_ := true },
    { (d.animateShow app animation).2 with
        trace := (d.animateShow app animation).2.trace ++
          [Ev.dialogExecuted (d.animateShow app animation).1.id] }, w, hs2, hsf.1, rfl, ?_,
    hsf.2.2.2.2.2.2.2.1, ?_⟩
  · show (d.setHidden app false animation).2.trace ++
      [Ev.dialogExecuted (d.setHidden app false animation).1.id] = _
    rw [hs1, hsf.1, List.append_assoc]
  · have htest1 : (d.animateShow app animation).2.isTest = true := by
      rw [WDialog.animateShow, hsf.2.2.2.2.2.1, htest]
    have hslots : (d.animateShow app animation).2.dialogExecutedSlots =
        app.dialogExecutedSlots := by
      rw [WDialog.animateShow, hsf.2.2.2.2.2.2.1]
    unfold WDialog.exec
    rw [if_neg (by simp [hflag])]
    dsimp only
    rw [if_pos htest1, hslots]

/-- With the dialog in its recursive event loop, the loop of `exec()` ends when the handler
of some event to come calls `done`, `accept` or `reject`. -/
theorem execLoop_isSome (evs : List (List Action)) (d : WDialog) (app : WApplication)
    (hflag : d.recursiveEventLoop_ = true)
    (hclose : evs.any (fun handler => handler.any Action.closes) = true) :
    ∃ r, execLoop evs d app = some r := by
  induction evs generalizing d app with
  | nil => simp at hclose
  | cons handler rest ih =>
    simp only [execLoop]
    split_ifs with h
    · rw [runHandler_recursiveEventLoop, hflag, Bool.true_and] at h
      have hrest : rest.any (fun handler => handler.any Action.closes) = true := by
        have hno : handler.any Action.closes = false := by
          rw [Bool.eq_false_iff]
          intro hany
          obtain ⟨a, ha, hc⟩ := List.any_eq_true.1 hany
          have := List.all_eq_true.1 h a ha
          simp [hc] at this
        simpa [hno] using hclose
      exact ih _ _ (by rw [runHandler_recursiveEventLoop, hflag, Bool.true_and]; exact h) hrest
    · exact ⟨_, rfl⟩

/-- C3, as amended: whenever `exec()` returns, the recursive-loop-active flag of the dialog
is clear, the dialog is hidden provided that the cover of the session exists or that the
dialog is not modal, and the value returned is the result code of the dialog, which is the
code of the last `done()` made during the call: the last code that `finished` was emitted
with.  So when the last such call is `done(Accepted)`, `exec()` returns `Accepted`.  And
`exec()` on a dialog that is not being executed does return when a slot of `dialogExecuted`
(in a scripted test) or the handler of an event to come (otherwise) calls `done`, `accept`
or `reject`. -/
theorem exec_returns_last_done_code (d : WDialog) (app : WApplication)
    (animation : WAnimation) :
    (∀ c d1 app1, d.exec app animation = ExecResult.returned c d1 app1 →
      d1.recursiveEventLoop_ = false ∧
      (app.dialogCover.isSome = true ∨ d1.modal_ = false → d1.hidden = true) ∧
      c = d1.result_ ∧
      ∃ extra, app1.trace = app.trace ++ extra ∧
        (finishedCodes d.id extra).getLast? = some c) ∧
    (d.recursiveEventLoop_ = false →
      (if app.isTest then app.dialogExecutedSlots.any Action.closes
        else app.pendingEvents.any (fun handler => handler.any Action.closes)) = true →
      ∃ c d1 app1, d.exec app animation = ExecResult.returned c d1 app1) := by
  refine ⟨fun c d1 app1 h => exec_returned d app animation c d1 app1 h, ?_⟩
  intro hflag hclose
  by_cases htest : app.isTest = true
  · rw [if_pos htest] at hclose
    obtain ⟨d2, app2, w, _, _, hd2, _, _, hexec⟩ := exec_in_test_eq d app animation htest hflag
    have hfl := runHandler_recursiveEventLoop app.dialogExecutedSlots d2 app2
    rw [hd2, Bool.true_and] at hfl
    have hnot : ¬ (runHandler app.dialogExecutedSlots d2 app2).1.recursiveEventLoop_ = true := by
      rw [hfl]
      intro hall
      obtain ⟨a, ha, hc⟩ := List.any_eq_true.1 hclose
      have := List.all_eq_true.1 hall a ha
      simp [hc] at this
    rw [hexec, if_neg hnot]
    exact ⟨_, _, _, rfl⟩
  · rw [if_neg htest] at hclose
    have hsf := setHidden_frame d app false animation
    have hpe : (d.animateShow app animation).2.pendingEvents = app.pendingEvents :=
      hsf.2.2.2.2.2.2.2.1
    have htest1 : ¬ (d.animateShow app animation).2.isTest = true := by
      rw [WDialog.animateShow, hsf.2.2.2.2.2.1]
      exact htest
    obtain ⟨r, hr⟩ := execLoop_isSome app.pendingEvents
      { (d.animateShow app animation).1 with recursiveEventLoop_ := true }
      (d.animateShow app animation).2 rfl hclose
    unfold WDialog.exec
    rw [if_neg (by simp [hflag])]
    dsimp only
    rw [if_neg htest1, hpe, hr]
    exact ⟨_, _, _, rfl⟩

/-- C3, witness: in a test whose slot accepts the dialog, `exec()` on a new dialog returns
`Accepted`; outside of tests, with a first event that does not touch the dialog and a second
one that accepts it, `exec()` returns `Accepted` after the second event. -/
theorem exec_returns_last_done_code_witness :
    freshDialog.exec testApp WAnimation.none =
      ExecResult.returned DialogCode.Accepted
        { freshDialog with result_ := DialogCode.Accepted }
        { testApp with trace := [Ev.blurActiveElement 1, Ev.widgetSetHidden 1 false,
            Ev.dialogExecuted 1, Ev.finished 1 DialogCode.Accepted,
            Ev.widgetSetHidden 1 true] } ∧
    (({ freshDialog with result_ := DialogCode.Accepted } : WDialog).recursiveEventLoop_ = false ∧
     (testApp.dialogCover.isSome = true ∨
        ({ freshDialog with result_ := DialogCode.Accepted } : WDialog).modal_ = false →
      ({ freshDialog with result_ := DialogCode.Accepted } : WDialog).hidden = true) ∧
     DialogCode.Accepted = ({ freshDialog with result_ := DialogCode.Accepted } : WDialog).result_ ∧
     ∃ extra, ({ testApp with trace := [Ev.blurActiveElement 1, Ev.widgetSetHidden 1 false,
            Ev.dialogExecuted 1, Ev.finished 1 DialogCode.Accepted,
            Ev.widgetSetHidden 1 true] } : WApplication).trace = testApp.trace ++ extra ∧
        (finishedCodes freshDialog.id extra).getLast? = some DialogCode.Accepted) ∧
    (∃ c d1 app1, freshDialog.exec liveApp WAnimation.none = ExecResult.returned c d1 app1) ∧
    freshDialog.exec liveApp WAnimation.none =
      ExecResult.returned DialogCode.Accepted
        { freshDialog with result_ := DialogCode.Accepted }
        { liveApp with
          pendingEvents := [[Action.reject]]
          trace := [Ev.blurActiveElement 1, Ev.widgetSetHidden 1 false,
            Ev.doRecursiveEventLoop, Ev.doRecursiveEventLoop,
            Ev.finished 1 DialogCode.Accepted, Ev.widgetSetHidden 1 true] } :=
  ⟨by decide,
    (exec_returns_last_done_code freshDialog testApp WAnimation.none).1 _ _ _ (by decide),
    (exec_returns_last_done_code freshDialog liveApp WAnimation.none).2 (by decide)
      (by decide),
    by decide⟩

/-- C3, counterexample: in a session that is being destroyed, `exec()` on a visible modal
dialog, with a slot that accepts the dialog and then rejects it, returns `Rejected` and
leaves the dialog visible, although the call that takes the dialog out of its recursive event
loop is `accept()`: the flag is clear right after it, and `Accepted` is the first code that
`finished` is emitted with. -/
theorem exec_returns_unblocking_code_counterexample :
    visibleDialog.exec teardownApp WAnimation.none =
      ExecResult.returned DialogCode.Rejected
        { visibleDialog with result_ := DialogCode.Rejected }
        { teardownApp with trace := [Ev.widgetSetHidden 1 false, Ev.dialogExecuted 1,
            Ev.finished 1 DialogCode.Accepted, Ev.finished 1 DialogCode.Rejected] } ∧
    ({ visibleDialog with result_ := DialogCode.Rejected } : WDialog).hidden = false ∧
    (Action.accept.apply { visibleDialog with recursiveEventLoop_ := true }
      teardownApp).1.recursiveEventLoop_ = false ∧
    (finishedCodes 1 [Ev.widgetSetHidden 1 false, Ev.dialogExecuted 1,
      Ev.finished 1 DialogCode.Accepted, Ev.finished 1 DialogCode.Rejected]).head? =
        some DialogCode.Accepted := by
  decide

/-- C4: in a scripted test, `exec()` on a dialog that is not being executed fails exactly
when none of the slots of `dialogExecuted` calls `done`, `accept` or `reject`; the failure is
the exception `mustCloseDialog`, raised with the recursive-loop-active flag still set.  The
call always ends, it emits `dialogExecuted` for the dialog once, and it never calls the
recursive event loop of the session, whose pending events stay as they are. -/
theorem exec_in_test_fails_iff_not_closed (d : WDialog) (app : WApplication)
    (animation : WAnimation) (htest : app.isTest = true)
    (hflag : d.recursiveEventLoop_ = false) :
    ((∃ e d1 app1, d.exec app animation = ExecResult.threw e d1 app1) ↔
      app.dialogExecutedSlots.all (fun a => !a.closes) = true) ∧
    (∀ e d1 app1, d.exec app animation = ExecResult.threw e d1 app1 →
      e = mustCloseDialog ∧ d1.recursiveEventLoop_ = true) ∧
    d.exec app animation ≠ ExecResult.blocked ∧
    ∃ app1 extra, (d.exec app animation).app? = some app1 ∧
      app1.trace = app.trace ++ extra ∧ extra.count (Ev.dialogExecuted d.id) = 1 ∧
      Ev.doRecursiveEventLoop ∉ extra ∧ app1.pendingEvents = app.pendingEvents := by
  obtain ⟨d2, app2, w, hw, hid, hd2, htr, hpe, hexec⟩ :=
    exec_in_test_eq d app animation htest hflag
  have hwf := fromOperation_free w (fromWidget_fromOperation w hw) d.id
  have hfr := runHandler_frame app.dialogExecutedSlots d2 app2
  have hfl := runHandler_recursiveEventLoop app.dialogExecutedSlots d2 app2
  obtain ⟨x, hx1, hx2⟩ := runHandler_trace app.dialogExecutedSlots d2 app2
  have hxf := fromOperation_free x hx2 d.id
  rw [hd2, Bool.true_and] at hfl
  rw [hexec]
  generalize runHandler app.dialogExecutedSlots d2 app2 = r at hfl hfr hx1 ⊢
  by_cases hall : app.dialogExecutedSlots.all (fun a => !a.closes) = true
  · have hr : r.1.recursiveEventLoop_ = true := by rw [hfl]; exact hall
    rw [if_pos hr]
    refine ⟨⟨fun _ => hall, fun _ => ⟨_, _, _, rfl⟩⟩, ?_, (by simp), r.2,
      (w ++ [Ev.dialogExecuted d.id]) ++ x, rfl, ?_, ?_, ?_, ?_⟩
    · intro e d1 app1 h
      injection h with e1 e2 e3
      exact ⟨e1.symm, by rw [← e2]; exact hr⟩
    · rw [hx1, htr]
      simp only [List.append_assoc]
    · simp only [List.count_append, hwf.1, hxf.1, List.count_singleton_self]
    · simp only [List.mem_append, List.mem_singleton, not_or]
      exact ⟨⟨hwf.2, by simp⟩, hxf.2⟩
    · rw [hfr.2.2.2.1]
      exact hpe
  · have hr : ¬ r.1.recursiveEventLoop_ = true := by rw [hfl]; exact hall
    rw [if_neg hr]
    obtain ⟨w2, hh1, hh2⟩ := setHidden_trace r.1 r.2 true WAnimation.none
    have hhf := setHidden_frame r.1 r.2 true WAnimation.none
    have hw2 := fromOperation_free w2 (fromWidget_fromOperation w2 hh2) d.id
    refine ⟨⟨fun ⟨_, _, _, h⟩ => (by cases h), fun h => absurd h hall⟩, ?_, (by simp), _,
      ((w ++ [Ev.dialogExecuted d.id]) ++ x) ++ w2, rfl, ?_, ?_, ?_, ?_⟩
    · intro e d1 app1 h
      cases h
    · rw [WDialog.hide, hh1, hx1, htr]
      simp only [List.append_assoc]
    · simp only [List.count_append, hwf.1, hxf.1, hw2.1, List.count_singleton_self]
    · simp only [List.mem_append, List.mem_singleton, not_or]
      exact ⟨⟨⟨hwf.2, by simp⟩, hxf.2⟩, hw2.2⟩
    · rw [WDialog.hide, hhf.2.2.2.2.2.2.2.1, hfr.2.2.2.1]
      exact hpe

/-- C4, witness: on a new dialog in a test whose slot does not close the dialog, `exec()`
throws `mustCloseDialog`. -/
theorem exec_in_test_fails_iff_not_closed_witness :
    silentTestApp.isTest = true ∧ freshDialog.recursiveEventLoop_ = false ∧
    (((∃ e d1 app1, freshDialog.exec silentTestApp WAnimation.none =
        ExecResult.threw e d1 app1) ↔
      silentTestApp.dialogExecutedSlots.all (fun a => !a.closes) = true) ∧
    (∀ e d1 app1, freshDialog.exec silentTestApp WAnimation.none = ExecResult.threw e d1 app1 →
      e = mustCloseDialog ∧ d1.recursiveEventLoop_ = true) ∧
    freshDialog.exec silentTestApp WAnimation.none ≠ ExecResult.blocked ∧
    ∃ app1 extra, (freshDialog.exec silentTestApp WAnimation.none).app? = some app1 ∧
      app1.trace = silentTestApp.trace ++ extra ∧
      extra.count (Ev.dialogExecuted freshDialog.id) = 1 ∧
      Ev.doRecursiveEventLoop ∉ extra ∧
      app1.pendingEvents = silentTestApp.pendingEvents) :=
  ⟨by decide, by decide,
    exec_in_test_fails_iff_not_closed freshDialog silentTestApp WAnimation.none
      (by decide) (by decide)⟩

/-! ## The cover and the stack of exposed constraints -/

/-- C5: for a modal dialog that is hidden, in a session whose cover exists, `show()` makes
the dialog visible, shows the cover just below the dialog and pushes the dialog on the stack
of exposed constraints; `hide()` after it hides the dialog and leaves the cover (hidden flag
and z-index) and the stack as they were before `show()`. -/
theorem show_hide_restores_cover (d : WDialog) (app : WApplication) (cover : WContainerWidget)
    (hmodal : d.modal_ = true) (hhidden : d.hidden = true)
    (hcover : app.dialogCover = some cover) :
    (d.show app).1.hidden = false ∧
    (d.show app).2.dialogCover = some { hidden := false, zIndex := d.implZIndex - 1 } ∧
    (d.show app).2.exposedOnly = d.id :: app.exposedOnly ∧
    ((d.show app).1.hide (d.show app).2).1.hidden = true ∧
    ((d.show app).1.hide (d.show app).2).2.dialogCover = some cover ∧
    ((d.show app).1.hide (d.show app).2).2.exposedOnly = app.exposedOnly := by
  obtain ⟨h, z⟩ := cover
  cases h <;>
    simp [WDialog.show, WDialog.hide, WDialog.setHidden, WDialog.isHidden, hmodal, hhidden,
      hcover, WCompositeWidget.setHidden, WDialog.saveCoverState, WDialog.restoreCoverState,
      WApplication.pushExposedConstraint, WApplication.popExposedConstraint,
      WContainerWidget.isHidden, WContainerWidget.setHidden, WContainerWidget.setZIndex,
      WContainerWidget.show, WContainerWidget.animateShow, WAnimation.none, WAnimation.empty]

/-- C5, witness: the first dialog on the session of the test. -/
theorem show_hide_restores_cover_witness :
    freshDialog.modal_ = true ∧ freshDialog.hidden = true ∧
    testApp.dialogCover = some { hidden := true, zIndex := 0 } ∧
    ((freshDialog.show testApp).1.hidden = false ∧
    (freshDialog.show testApp).2.dialogCover =
      some { hidden := false, zIndex := freshDialog.implZIndex - 1 } ∧
    (freshDialog.show testApp).2.exposedOnly = freshDialog.id :: testApp.exposedOnly ∧
    ((freshDialog.show testApp).1.hide (freshDialog.show testApp).2).1.hidden = true ∧
    ((freshDialog.show testApp).1.hide (freshDialog.show testApp).2).2.dialogCover =
      some { hidden := true, zIndex := 0 } ∧
    ((freshDialog.show testApp).1.hide (freshDialog.show testApp).2).2.exposedOnly =
      testApp.exposedOnly) :=
  ⟨by decide, by decide, by decide,
    show_hide_restores_cover freshDialog testApp _ (by decide) (by decide) (by decide)⟩

/-- C6: two modal dialogs A and B, both hidden, are opened and closed in LIFO order on a
session whose cover exists.  After `hide()` of B the cover is as it was right after `show()`
of A and the stack holds A on top of its original content; after `hide()` of A the cover and
the stack are as they were before `show()` of A.  In between, the stack holds B on top of A,
and the cover lies just below B. -/
theorem nested_show_hide_restores (a b : WDialog) (app : WApplication)
    (cover : WContainerWidget) (ha : a.modal_ = true ∧ a.hidden = true)
    (hb : b.modal_ = true ∧ b.hidden = true) (hcover : app.dialogCover = some cover) :
    let showA := a.show app
    let showB := b.show showA.2
    let hideB := showB.1.hide showB.2
    let hideA := showA.1.hide hideB.2
    showA.2.dialogCover = some { hidden := false, zIndex := a.implZIndex - 1 } ∧
    showB.2.dialogCover = some { hidden := false, zIndex := b.implZIndex - 1 } ∧
    showB.2.exposedOnly = b.id :: a.id :: app.exposedOnly ∧
    hideB.2.dialogCover = showA.2.dialogCover ∧
    hideB.2.exposedOnly = a.id :: app.exposedOnly ∧
    hideA.2.dialogCover = some cover ∧
    hideA.2.exposedOnly = app.exposedOnly ∧
    hideB.1.hidden = true ∧ hideA.1.hidden = true := by
  obtain ⟨h, z⟩ := cover
  cases h <;>
    simp [WDialog.show, WDialog.hide, WDialog.setHidden, WDialog.isHidden, ha.1, ha.2, hb.1,
      hb.2, hcover, WCompositeWidget.setHidden, WDialog.saveCoverState,
      WDialog.restoreCoverState, WApplication.pushExposedConstraint,
      WApplication.popExposedConstraint, WContainerWidget.isHidden,
      WContainerWidget.setHidden, WContainerWidget.setZIndex, WContainerWidget.show,
      WContainerWidget.animateShow, WAnimation.none, WAnimation.empty]

/-- C6, witness: the two dialogs on the session of the test. -/
theorem nested_show_hide_restores_witness :
    (freshDialog.modal_ = true ∧ freshDialog.hidden = true) ∧
    (secondDialog.modal_ = true ∧ secondDialog.hidden = true) ∧
    testApp.dialogCover = some { hidden := true, zIndex := 0 } ∧
    (let showA := freshDialog.show testApp
     let showB := secondDialog.show showA.2
     let hideB := showB.1.hide showB.2
     let hideA := showA.1.hide hideB.2
     showA.2.dialogCover = some { hidden := false, zIndex := freshDialog.implZIndex - 1 } ∧
     showB.2.dialogCover = some { hidden := false, zIndex := secondDialog.implZIndex - 1 } ∧
     showB.2.exposedOnly = secondDialog.id :: freshDialog.id :: testApp.exposedOnly ∧
     hideB.2.dialogCover = showA.2.dialogCover ∧
     hideB.2.exposedOnly = freshDialog.id :: testApp.exposedOnly ∧
     hideA.2.dialogCover = some { hidden := true, zIndex := 0 } ∧
     hideA.2.exposedOnly = testApp.exposedOnly ∧
     hideB.1.hidden = true ∧ hideA.1.hidden = true) :=
  ⟨by decide, by decide, by decide,
    nested_show_hide_restores freshDialog secondDialog testApp _ (by decide) (by decide)
      (by decide)⟩

/-- The method `setHidden` touches neither the cover nor the stack when the dialog is
already as hidden as it is asked to be. -/
theorem setHidden_same (d : WDialog) (app : WApplication) (hidden : Bool) (a : WAnimation)
    (h : d.hidden = hidden) :
    (d.setHidden app hidden a).2.dialogCover = app.dialogCover ∧
    (d.setHidden app hidden a).2.exposedOnly = app.exposedOnly ∧
    (d.setHidden app hidden a).1.hidden = hidden := by
  simp [WDialog.setHidden, WDialog.isHidden, h, WCompositeWidget.setHidden]

/-- The method `setHidden` on a modal dialog changes nothing at all when the cover is gone
and the dialog is not as hidden as it is asked to be. -/
theorem setHidden_gone (d : WDialog) (app : WApplication) (hidden : Bool) (a : WAnimation)
    (hmodal : d.modal_ = true) (hcover : app.dialogCover = Option.none)
    (h : d.hidden ≠ hidden) : d.setHidden app hidden a = (d, app) := by
  simp [WDialog.setHidden, WDialog.isHidden, h, hmodal, hcover]

/-- C7: when the cover of the session is gone, `setHidden(hidden)` on a modal dialog, for
either value of `hidden`, leaves the cover gone and the stack of exposed constraints as it
is (the model of `setHidden` is a total function: the source has no `throw` and reads the
cover only after the check that it exists).  On a dialog that is already hidden, `hide()`
leaves the cover and the stack as they are, in any session.  And a second `hide()` right
after a first one leaves the cover and the stack as the first one left them. -/
theorem setHidden_without_cover_noop (d : WDialog) (app : WApplication) (hidden : Bool)
    (animation : WAnimation) (hmodal : d.modal_ = true)
    (hcover : app.dialogCover = Option.none) (d2 : WDialog) (app2 : WApplication)
    (hhidden : d2.hidden = true) (d3 : WDialog) (app3 : WApplication) :
    ((d.setHidden app hidden animation).2.dialogCover = Option.none ∧
     (d.setHidden app hidden animation).2.exposedOnly = app.exposedOnly) ∧
    ((d2.hide app2).2.dialogCover = app2.dialogCover ∧
     (d2.hide app2).2.exposedOnly = app2.exposedOnly) ∧
    (((d3.hide app3).1.hide (d3.hide app3).2).2.dialogCover = (d3.hide app3).2.dialogCover ∧
     ((d3.hide app3).1.hide (d3.hide app3).2).2.exposedOnly = (d3.hide app3).2.exposedOnly) := by
  refine ⟨?_, ?_, ?_⟩
  · by_cases h : d.hidden = hidden
    · have := setHidden_same d app hidden animation h
      exact ⟨this.1.trans hcover, this.2.1⟩
    · rw [setHidden_gone d app hidden animation hmodal hcover h]
      exact ⟨hcover, rfl⟩
  · have := setHidden_same d2 app2 true WAnimation.none hhidden
    exact ⟨this.1, this.2.1⟩
  · by_cases h : (d3.hide app3).1.hidden = true
    · have := setHidden_same (d3.hide app3).1 (d3.hide app3).2 true WAnimation.none h
      exact ⟨this.1, this.2.1⟩
    · have hv : d3.hidden ≠ true := by
        intro hh
        exact h (setHidden_same d3 app3 true WAnimation.none hh).2.2
      have hm : d3.modal_ = true := by
        by_contra hm
        exact h (hide_hidden d3 app3 (Or.inr (Or.inl (by simpa using hm))))
      have hc : app3.dialogCover = Option.none := by
        cases hc : app3.dialogCover with
        | none => rfl
        | some c => exact absurd (hide_hidden d3 app3 (Or.inl (by simp [hc]))) h
      have hg : d3.hide app3 = (d3, app3) :=
        setHidden_gone d3 app3 true WAnimation.none hm hc hv
      rw [hg]
      simp only
      rw [hg]
      exact ⟨rfl, rfl⟩

/-- C7, witness: the visible modal dialog in the session that is being destroyed, and the
hidden dialog in the session of the test. -/
theorem setHidden_without_cover_noop_witness :
    visibleDialog.modal_ = true ∧ teardownApp.dialogCover = Option.none ∧
    freshDialog.hidden = true ∧
    (((visibleDialog.setHidden teardownApp true WAnimation.none).2.dialogCover = Option.none ∧
     (visibleDialog.setHidden teardownApp true WAnimation.none).2.exposedOnly =
      teardownApp.exposedOnly) ∧
    ((freshDialog.hide testApp).2.dialogCover = testApp.dialogCover ∧
     (freshDialog.hide testApp).2.exposedOnly = testApp.exposedOnly) ∧
    (((visibleDialog.hide testApp).1.hide (visibleDialog.hide testApp).2).2.dialogCover =
      (visibleDialog.hide testApp).2.dialogCover ∧
     ((visibleDialog.hide testApp).1.hide (visibleDialog.hide testApp).2).2.exposedOnly =
      (visibleDialog.hide testApp).2.exposedOnly)) :=
  ⟨by decide, by decide, by decide,
    setHidden_without_cover_noop visibleDialog teardownApp true WAnimation.none (by decide)
      (by decide) freshDialog testApp (by decide) visibleDialog testApp⟩

/-- With the cover present, `setHidden` keeps the stack in step with the dialog. -/
theorem setHidden_stack (stack : List Nat) (d : WDialog) (app : WApplication) (hidden : Bool)
    (a : WAnimation) (hc : app.dialogCover.isSome = true)
    (h : StackTracksDialog stack d app) :
    StackTracksDialog stack (d.setHidden app hidden a).1 (d.setHidden app hidden a).2 ∧
    (d.setHidden app hidden a).1.hidden = hidden := by
  obtain ⟨cover, hcover⟩ := Option.isSome_iff_exists.1 hc
  unfold StackTracksDialog at h ⊢
  cases hm : d.modal_ <;> cases hh : d.hidden <;> cases hidden <;>
    simp [hm, hh] at h <;>
    simp [WDialog.setHidden, WDialog.isHidden, hm, hh, hcover, h, WCompositeWidget.setHidden,
      WDialog.saveCoverState, WDialog.restoreCoverState, WApplication.pushExposedConstraint,
      WApplication.popExposedConstraint]

/-- A call of a handler on a dialog that is not in a recursive event loop keeps the stack in
step with the dialog, provided that the call is not a `setModal` on a visible dialog. -/
theorem apply_stack (stack : List Nat) (a : Action) (d : WDialog) (app : WApplication)
    (hflag : d.recursiveEventLoop_ = false) (hc : app.dialogCover.isSome = true)
    (h : StackTracksDialog stack d app)
    (hok : (match a with
      | Action.setModal _ => d.isHidden
      | _ => true) = true) :
    (a.apply d app).1.recursiveEventLoop_ = false ∧
    StackTracksDialog stack (a.apply d app).1 (a.apply d app).2 := by
  refine ⟨by rw [apply_recursiveEventLoop, hflag]; rfl, ?_⟩
  have hs := fun hidden => (setHidden_stack stack d app hidden WAnimation.none hc h).1
  have hd : ∀ c, StackTracksDialog stack (d.done app c).1 (d.done app c).2 := by
    intro c
    have := (setHidden_stack stack { d with result_ := c } app true WAnimation.none hc h).1
    simpa [WDialog.done, hflag, WDialog.hide, StackTracksDialog] using this
  cases a
  · exact hs false
  · exact hs true
  · have hh : d.hidden = true := hok
    unfold StackTracksDialog at h ⊢
    simpa [Action.apply, WDialog.setModal, hh] using h
  · exact hd _
  · exact hd _
  · exact hd _

/-- A run of calls on a dialog that is not in a recursive event loop keeps the stack in step
with the dialog, provided that `setModal` is only called while the dialog is hidden. -/
theorem runHandler_stack (stack : List Nat) (l : List Action) (d : WDialog)
    (app : WApplication) (hflag : d.recursiveEventLoop_ = false)
    (hc : app.dialogCover.isSome = true) (h : StackTracksDialog stack d app)
    (hok : setModalOnlyWhenHidden l d app = true) :
    StackTracksDialog stack (runHandler l d app).1 (runHandler l d app).2 := by
  induction l generalizing d app with
  | nil => exact h
  | cons a rest ih =>
    simp only [setModalOnlyWhenHidden, Bool.and_eq_true] at hok
    have h1 := apply_stack stack a d app hflag hc h hok.1
    exact ih _ _ h1.1 ((apply_frame a d app).2.2.2.2.trans hc) h1.2 hok.2

/-- C8, counterexample: on a new dialog, `show()` and then `setModal(false)` leave the
dialog on the stack of exposed constraints although it is not modal any more. -/
theorem stack_iff_modal_visible_counterexample :
    WDialog.create testApp 1 10 DialogCode.Rejected = some freshDialog ∧
    ¬ (onExposedStack (runHandler [Action.show, Action.setModal false] freshDialog testApp).1
        (runHandler [Action.show, Action.setModal false] freshDialog testApp).2 ↔
      ((runHandler [Action.show, Action.setModal false] freshDialog testApp).1.modal_ = true ∧
       (runHandler [Action.show, Action.setModal false] freshDialog testApp).1.hidden =
        false)) := by
  decide

/-- C8, as amended: from a new dialog, whose identity is not on the stack of exposed
constraints, and after any sequence of `show()`, `hide()`, `setModal(b)`, `done(c)`,
`accept()` and `reject()` in which `setModal` is only called while the dialog is hidden, the
dialog is on the stack exactly when it is both modal and visible. -/
theorem stack_iff_modal_visible (app : WApplication) (id : Nat) (implZIndex : Int)
    (result : DialogCode) (d0 : WDialog)
    (hcreate : WDialog.create app id implZIndex result = some d0)
    (hfresh : id ∉ app.exposedOnly) (acts : List Action)
    (hacts : setModalOnlyWhenHidden acts d0 app = true) :
    onExposedStack (runHandler acts d0 app).1 (runHandler acts d0 app).2 ↔
      ((runHandler acts d0 app).1.modal_ = true ∧ (runHandler acts d0 app).1.hidden = false) := by
  cases hcover : app.dialogCover with
  | none => simp [WDialog.create, hcover] at hcreate
  | some cover =>
    simp only [WDialog.create, hcover, Option.some.injEq] at hcreate
    subst hcreate
    have hinv := runHandler_stack app.exposedOnly acts _ app rfl (by simp [hcover])
      (by simp [StackTracksDialog, WDialog.saveCoverState]) hacts
    have hid := (runHandler_frame acts
      (WDialog.saveCoverState
        { id := id, hidden := true, implZIndex := implZIndex, caption_ := [], modal_ := true,
          recursiveEventLoop_ := false, result_ := result, coverWasHidden_ := false,
          coverPreviousZIndex_ := 0 } cover) app).1
    unfold StackTracksDialog at hinv
    unfold onExposedStack
    rw [hinv, hid]
    simp only [WDialog.saveCoverState]
    split_ifs with hmv
    · simpa using hmv
    · simp only [hfresh, false_iff]
      simpa using hmv

/-- C8, witness: a new dialog that is shown, made non-modal after it has been hidden, and
shown again. -/
theorem stack_iff_modal_visible_witness :
    WDialog.create testApp 1 10 DialogCode.Rejected = some freshDialog ∧
    1 ∉ testApp.exposedOnly ∧
    setModalOnlyWhenHidden [Action.show, Action.accept, Action.setModal false, Action.show]
      freshDialog testApp = true ∧
    (onExposedStack
        (runHandler [Action.show, Action.accept, Action.setModal false, Action.show]
          freshDialog testApp).1
        (runHandler [Action.show, Action.accept, Action.setModal false, Action.show]
          freshDialog testApp).2 ↔
      ((runHandler [Action.show, Action.accept, Action.setModal false, Action.show]
          freshDialog testApp).1.modal_ = true ∧
       (runHandler [Action.show, Action.accept, Action.setModal false, Action.show]
          freshDialog testApp).1.hidden = false)) :=
  ⟨by decide, by decide, by decide,
    stack_iff_modal_visible testApp 1 10 DialogCode.Rejected freshDialog (by decide)
      (by decide) _ (by decide)⟩

/-! ## The window title -/

/-- C9: for every title `t`, the empty one included, `setWindowTitle(t)` stores `<h3>`,
`t` and `</h3>` in a row as the text of the caption, and `windowTitle()` after it returns
exactly `t`: it drops the four characters in front and the five at the end. -/
theorem windowTitle_setWindowTitle (d : WDialog) (t : StdString) :
    (d.setWindowTitle t).caption_ = "<h3>".toList ++ t ++ "</h3>".toList ∧
    (d.setWindowTitle t).windowTitle = t ∧
    ((d.setWindowTitle t).caption_.length > 9 →
      (d.setWindowTitle t).windowTitle =
        ((d.setWindowTitle t).caption_.drop 4).take ((d.setWindowTitle t).caption_.length - 9)) := by
  refine ⟨rfl, ?_, ?_⟩
  · have hlen : ("<h3>".toList ++ t ++ "</h3>".toList).length = t.length + 9 := by
      simp [List.length_append]
    have hdrop : ("<h3>".toList ++ t ++ "</h3>".toList).drop 4 = t ++ "</h3>".toList := by
      rw [List.append_assoc]
      exact List.drop_left' (by rfl)
    simp only [WDialog.windowTitle, WDialog.setWindowTitle, substr, hlen, hdrop]
    cases t with
    | nil => simp
    | cons c rest =>
      rw [if_pos (by simp)]
      simp
  · intro h
    simp only [WDialog.windowTitle, substr]
    rw [if_pos h]

/-! ## `inplaceUrlDecode` -/

/-- After the write at `j`, the first `j + 1` characters are the first `j` characters of
before and the character written. -/
theorem take_set_succ (l : StdString) (j : Nat) (x : Char) (h : j < l.length) :
    (l.set j x).take (j + 1) = l.take j ++ [x] := by
  induction l generalizing j with
  | nil => simp at h
  | cons c rest ih =>
    cases j with
    | zero => simp
    | succ k =>
      simp only [List.length_cons, Nat.add_lt_add_iff_right] at h
      simp [ih k h]

/-- A write at `j` leaves the text from any later index on as it is. -/
theorem drop_set_lt (l : StdString) (j n : Nat) (x : Char) (h : j < n) :
    (l.set j x).drop n = l.drop n := by
  induction l generalizing j n with
  | nil => simp
  | cons c rest ih =>
    cases n with
    | zero => omega
    | succ m =>
      cases j with
      | zero => simp
      | succ k => simp [ih k m (by omega)]

/-- A write at `j` leaves the character at any later index as it is. -/
theorem getD_set_lt (l : StdString) (j k : Nat) (x : Char) (h : j < k) :
    (l.set j x).getD k NUL = l.getD k NUL := by
  simp [List.getD, List.getElem?_set_ne (Nat.ne_of_lt h)]

/-- The text from an index inside it on: the character there, and the text after it. -/
theorem drop_eq_cons (l : StdString) (i : Nat) (h : i < l.length) :
    l.drop i = l.getD i NUL :: l.drop (i + 1) := by
  rw [List.drop_eq_getElem_cons h]
  simp [List.getD, List.getElem?_eq_getElem h]

/-- The codes of the hexadecimal digits. -/
theorem isxdigit_bound (c : Char) (h : isxdigit c = true) :
    (48 ≤ c.toNat ∧ c.toNat ≤ 57) ∨ (97 ≤ c.toNat ∧ c.toNat ≤ 102) ∨
      (65 ≤ c.toNat ∧ c.toNat ≤ 70) := by
  simpa [isxdigit, or_assoc] using h

/-- The value of a hexadecimal digit is below sixteen. -/
theorem hexValue_lt (c : Char) (h : isxdigit c = true) : hexValue c < 16 := by
  have := isxdigit_bound c h
  unfold hexValue
  split_ifs <;> omega

/-- The terminator of a C string is not a hexadecimal digit. -/
theorem isxdigit_not_NUL : isxdigit NUL = false := by decide

/-- A hexadecimal digit differs from any character that is not one. -/
theorem isxdigit_ne (c x : Char) (h : isxdigit c = true) (hx : isxdigit x = false) : c ≠ x := by
  rintro rfl
  rw [h] at hx
  cases hx

/-- A hexadecimal digit is not white space. -/
theorem isxdigit_not_isspace (c : Char) (h : isxdigit c = true) : isspace c = false := by
  have := isxdigit_bound c h
  simp [isspace]
  omega

/-- On two hexadecimal digits `strtol` reads both and gives their value. -/
theorem strtol16_two (a b : Char) (ha : isxdigit a = true) (hb : isxdigit b = true) :
    c_str [a, b] = [a, b] ∧ strtol16 [a, b] = (((16 * hexValue a + hexValue b : Nat) : Int), 2) := by
  have ha0 : a ≠ NUL := isxdigit_ne a NUL ha (by decide)
  have hb0 : b ≠ NUL := isxdigit_ne b NUL hb (by decide)
  have ham : a ≠ '-' := isxdigit_ne a _ ha (by decide)
  have hap : a ≠ '+' := isxdigit_ne a _ ha (by decide)
  have has := isxdigit_not_isspace a ha
  have h1 := hexValue_lt a ha
  have h2 := hexValue_lt b hb
  refine ⟨by simp [c_str, ha0, hb0], ?_⟩
  simp [strtol16, has, ham, hap, ha, hb, LONG_MAX]
  omega

/-- The conversions to `int` and to `char` keep a value below 256. -/
theorem toChar_toInt32 (n : Nat) (h : n < 256) : toChar (toInt32 (n : Int)) = Char.ofNat n := by
  have : ((((n : Int) + 2147483648) % 4294967296 - 2147483648) % 256).toNat = n := by omega
  simp only [toChar, toInt32, this]

/-- The scan at a `+`. -/
theorem urlDecodeScan_plus (rest : StdString) :
    urlDecodeScan ('+' :: rest) = ' ' :: urlDecodeScan rest := by
  rcases rest with _ | ⟨a, _ | ⟨b, r⟩⟩ <;> simp [urlDecodeScan, plusToSpace]

/-- The scan at a character that is neither `+` nor `%`. -/
theorem urlDecodeScan_plain (c : Char) (rest : StdString) (hc : c ≠ '+') (hp : c ≠ '%') :
    urlDecodeScan (c :: rest) = c :: urlDecodeScan rest := by
  rcases rest with _ | ⟨a, _ | ⟨b, r⟩⟩ <;> simp [urlDecodeScan, plusToSpace, hc, hp]

/-- The scan at a `%` that two hexadecimal digits follow. -/
theorem urlDecodeScan_escape (a b : Char) (rest : StdString) (ha : isxdigit a = true)
    (hb : isxdigit b = true) :
    urlDecodeScan ('%' :: a :: b :: rest) =
      Char.ofNat (16 * hexValue a + hexValue b) :: urlDecodeScan rest := by
  simp [urlDecodeScan, ha, hb]

/-- The invariant of the loop of `inplaceUrlDecode`: from a state with `j ≤ i` in which every
`%` from `i` on is followed by two hexadecimal digits, and with fuel for the characters
that are left, the loop ends without a fault, and the first `j` characters that it ends
with are the first `j` characters of the state followed by the scan of the text from `i`
on. -/
theorem urlDecodeLoop_scan (fuel : Nat) (text : StdString) (i j : Nat) (hji : j ≤ i)
    (hi : i ≤ text.length) (hfuel : text.length - i ≤ fuel)
    (hesc : ∀ k, i ≤ k → k < text.length → text.getD k NUL = '%' →
      isxdigit (text.getD (k + 1) NUL) = true ∧ isxdigit (text.getD (k + 2) NUL) = true) :
    ∃ r, urlDecodeLoop fuel text i j = Except.ok r ∧
      r.1.take r.2 = text.take j ++ urlDecodeScan (text.drop i) := by
  induction fuel generalizing text i j with
  | zero =>
    have hlen : i = text.length := by omega
    refine ⟨(text, j), by simp [urlDecodeLoop, hlen], by simp [hlen, urlDecodeScan]⟩
  | succ fuel ih =>
    by_cases hlt : i < text.length
    · have hstep : ∀ x : Char, ∀ i1, i < i1 → i1 ≤ text.length → text.length - i1 ≤ fuel →
          ∃ r, urlDecodeLoop fuel (text.set j x) i1 (j + 1) = Except.ok r ∧
            r.1.take r.2 = text.take j ++ x :: urlDecodeScan (text.drop i1) := by
        intro x i1 h1 h2 h3
        obtain ⟨r, hr1, hr2⟩ := ih (text.set j x) i1 (j + 1) (by omega)
          (by simpa using h2) (by simpa using h3) (by
            intro k hk1 hk2 hk3
            rw [getD_set_lt _ _ _ _ (by omega)] at hk3 ⊢
            rw [getD_set_lt _ _ _ _ (by omega)]
            exact hesc k (by omega) (by simpa using hk2) hk3)
        refine ⟨r, hr1, ?_⟩
        rw [hr2, take_set_succ _ _ _ (by omega), drop_set_lt _ _ _ _ (by omega)]
        simp
      have hread : readAt text i = Except.ok (text.getD i NUL) := by
        simp [readAt, List.getD, List.getElem?_eq_getElem hlt]
      have hwrite : ∀ x, writeAt text j x = Except.ok (text.set j x) := by
        intro x
        simp [writeAt, show j < text.length by omega]
      rw [drop_eq_cons text i hlt]
      simp only [urlDecodeLoop, if_pos hlt, hread, hwrite]
      by_cases hplus : text.getD i NUL = '+'
      · rw [hplus, urlDecodeScan_plus]
        simpa using hstep ' ' (i + 1) (by omega) (by omega) (by omega)
      · by_cases hpct : text.getD i NUL = '%'
        · obtain ⟨ha, hb⟩ := hesc i (Nat.le_refl i) hlt hpct
          have h1 : i + 1 < text.length := by
            by_contra hcon
            rw [List.getD_eq_default _ _ (by omega)] at ha
            exact absurd ha (by decide)
          have h2 : i + 2 < text.length := by
            by_contra hcon
            rw [List.getD_eq_default _ _ (by omega)] at hb
            exact absurd hb (by decide)
          have hsub : substrAt text (i + 1) 2 =
              Except.ok [text.getD (i + 1) NUL, text.getD (i + 2) NUL] := by
            simp only [substrAt, if_pos (Nat.le_of_lt h1), substr]
            rw [drop_eq_cons text (i + 1) h1, drop_eq_cons text (i + 1 + 1) h2]
            rfl
          obtain ⟨hc, hs⟩ := strtol16_two _ _ ha hb
          have hv : 16 * hexValue (text.getD (i + 1) NUL) + hexValue (text.getD (i + 2) NUL)
              < 256 := by
            have := hexValue_lt _ ha
            have := hexValue_lt _ hb
            omega
          rw [drop_eq_cons text (i + 1) h1, drop_eq_cons text (i + 1 + 1) h2, hpct,
            urlDecodeScan_escape _ _ _ ha hb]
          simp only [hsub, hc, hs, toChar_toInt32 _ hv]
          simpa [h2, NUL] using hstep _ (i + 2 + 1) (by omega) (by omega) (by omega)
        · have hs := hstep (text.getD i NUL) (i + 1) (by omega) (by omega) (by omega)
          generalize text.getD i NUL = c at hplus hpct hs ⊢
          rw [urlDecodeScan_plain _ _ hplus hpct]
          simpa [hplus, hpct] using hs
    · have hlen : i = text.length := by omega
      refine ⟨(text, j), by simp [urlDecodeLoop, hlen], by simp [hlen, urlDecodeScan]⟩

/-- C10: on a text in which every `%` is immediately followed by two hexadecimal digits,
`inplaceUrlDecode` ends without a fault and leaves the text that the scan from left to right
gives: a space for every `+`, the byte of value `XX` for every `%XX` (also at the end of
the text), and every other character as it is. -/
theorem inplaceUrlDecode_scan (text : StdString) (h : EveryPercentEscaped text) :
    inplaceUrlDecode text = Except.ok (urlDecodeScan text) := by
  obtain ⟨r, hr1, hr2⟩ := urlDecodeLoop_scan text.length text 0 0 (Nat.le_refl 0)
    (Nat.zero_le _) (by omega) (fun k _ hk hp => h k hk hp)
  simp only [inplaceUrlDecode, hr1, hr2, List.take_zero, List.nil_append, List.drop_zero]

/-- C10, witness: the text `a+b%20c` becomes `a b c`, and `a%2B%41` becomes `a+A`. -/
theorem inplaceUrlDecode_scan_witness :
    EveryPercentEscaped "a+b%20c".toList ∧
    inplaceUrlDecode "a+b%20c".toList = Except.ok (urlDecodeScan "a+b%20c".toList) ∧
    urlDecodeScan "a+b%20c".toList = "a b c".toList ∧
    inplaceUrlDecode "a%2B%41".toList = Except.ok "a+A".toList :=
  ⟨by decide, inplaceUrlDecode_scan "a+b%20c".toList (by decide), by decide, by rfl⟩

/-- C11, the code at a failing input: the texts `%-1` and `% 1` hold no `+` and no `%` that
two hexadecimal digits follow, and yet `inplaceUrlDecode` does not pass them through: it
makes the single byte 255 of the first and the single byte 1 of the second, because `strtol`
reads a sign and skips white space.  The text `bad%` stays as it is. -/
theorem inplaceUrlDecode_malformed_decoded :
    ('+' ∉ "%-1".toList ∧ NoPercentEscaped "%-1".toList ∧
      inplaceUrlDecode "%-1".toList = Except.ok [Char.ofNat 255]) ∧
    ('+' ∉ "% 1".toList ∧ NoPercentEscaped "% 1".toList ∧
      inplaceUrlDecode "% 1".toList = Except.ok [Char.ofNat 1]) ∧
    inplaceUrlDecode "bad%".toList = Except.ok "bad%".toList :=
  ⟨⟨by decide, by decide, by rfl⟩, ⟨by decide, by decide, by rfl⟩, by rfl⟩

/-- The loop of `inplaceUrlDecode` is its turn, again and again. -/
theorem urlDecodeLoop_succ (fuel : Nat) (text : StdString) (i j : Nat) :
    urlDecodeLoop (fuel + 1) text i j =
      if i < text.length then
        match urlDecodeStep text i j with
        | Except.error f => Except.error f
        | Except.ok s => urlDecodeLoop fuel s.1 s.2.1 s.2.2
      else Except.ok (text, j) := by
  simp only [urlDecodeLoop, urlDecodeStep]
  split_ifs <;> (try rfl)
  all_goals (split <;> (try rfl))
  all_goals split_ifs
  all_goals (split <;> try rfl)
  all_goals split_ifs
  all_goals (split <;> rfl)

/-- A turn of the loop from a state with `j ≤ i` and `i` inside the text ends without a
fault: its read, its `substr` and its write are inside the text.  It leaves the length of
the text as it is, moves `j` by one and `i` by one or three, and `i` stays within the
length. -/
theorem urlDecodeStep_ok (text : StdString) (i j : Nat) (hji : j ≤ i) (hi : i < text.length) :
    ∃ s, urlDecodeStep text i j = Except.ok s ∧ s.1.length = text.length ∧ s.2.2 = j + 1 ∧
      i < s.2.1 ∧ s.2.1 ≤ text.length := by
  have hread : readAt text i = Except.ok (text.getD i NUL) := by
    simp [readAt, List.getD, List.getElem?_eq_getElem hi]
  have hwrite : ∀ x, writeAt text j x = Except.ok (text.set j x) := by
    intro x
    simp [writeAt, show j < text.length by omega]
  simp only [urlDecodeStep, hread, hwrite]
  by_cases hplus : (text.getD i NUL == '+') = true
  · rw [if_pos hplus]
    exact ⟨_, rfl, by simp, rfl, by simp, by simpa using hi⟩
  · rw [if_neg hplus]
    by_cases hpct : (text.getD i NUL == '%' && decide (i + 2 < text.length)) = true
    · rw [if_pos hpct]
      have h2 : i + 2 < text.length := by
        simp only [Bool.and_eq_true, decide_eq_true_eq] at hpct
        exact hpct.2
      have hsub : substrAt text (i + 1) 2 = Except.ok (substr text (i + 1) 2) := by
        simp [substrAt, show i + 1 ≤ text.length by omega]
      simp only [hsub]
      split_ifs
      · exact ⟨_, rfl, by simp, rfl, by show i < i + 2 + 1; omega, by simpa using h2⟩
      · exact ⟨_, rfl, by simp, rfl, by simp, by simpa using hi⟩
    · rw [if_neg hpct]
      exact ⟨_, rfl, by simp, rfl, by simp, by simpa using hi⟩

/-- In every state that the loop goes through, the write index is at most the read index,
the read index is at most the length of the text, and the text is as long as at the
start. -/
theorem UrlDecodeReaches.bounds (text0 text : StdString) (i j : Nat)
    (h : UrlDecodeReaches text0 text i j) :
    j ≤ i ∧ i ≤ text.length ∧ text.length = text0.length := by
  induction h with
  | start => exact ⟨Nat.le_refl 0, Nat.zero_le _, rfl⟩
  | turn text i j s _ hi hs ih =>
    obtain ⟨s1, h1, h2, h3, h4, h5⟩ := urlDecodeStep_ok text i j ih.1 hi
    rw [hs] at h1
    cases h1
    refine ⟨by omega, by omega, by omega⟩

/-- From a state that the loop goes through, and with fuel for the characters that are
left, the loop ends without a fault in a state that it goes through, with `i` at the end of
the text. -/
theorem urlDecodeLoop_ok (text0 : StdString) (fuel : Nat) (text : StdString) (i j : Nat)
    (h : UrlDecodeReaches text0 text i j) (hfuel : text.length - i ≤ fuel) :
    ∃ r, urlDecodeLoop fuel text i j = Except.ok r ∧
      UrlDecodeReaches text0 r.1 r.1.length r.2 := by
  induction fuel generalizing text i j with
  | zero =>
    have hb := h.bounds
    have hlen : i = text.length := by omega
    subst hlen
    exact ⟨(text, j), by simp [urlDecodeLoop], h⟩
  | succ fuel ih =>
    have hb := h.bounds
    rw [urlDecodeLoop_succ]
    by_cases hi : i < text.length
    · rw [if_pos hi]
      obtain ⟨s, h1, h2, h3, h4, h5⟩ := urlDecodeStep_ok text i j hb.1 hi
      rw [h1]
      exact ih s.1 s.2.1 s.2.2 (UrlDecodeReaches.turn text i j s h hi h1) (by omega)
    · rw [if_neg hi]
      have hlen : i = text.length := by omega
      subst hlen
      exact ⟨(text, j), rfl, h⟩

/-- C12: on every text `inplaceUrlDecode` ends without a fault (no read or write outside
the text, and the loop is not cut off), and the text that it leaves is at most as long as
the one it was given.  In every state `(text, i, j)` that the loop goes through, the write
index `j` is at most the read index `i`, the read index is at most the length of the text,
the text is as long as at the start, and, when `i` is inside the text, the turn of the loop
from this state ends without a fault.  The result is what the first `j` characters are in
a state that the loop goes through with `i` at the end of the text. -/
theorem inplaceUrlDecode_safe (text0 : StdString) :
    (∃ r, inplaceUrlDecode text0 = Except.ok r ∧ r.length ≤ text0.length) ∧
    (∀ text i j, UrlDecodeReaches text0 text i j →
      j ≤ i ∧ i ≤ text.length ∧ text.length = text0.length ∧
      (i < text.length → ∃ s, urlDecodeStep text i j = Except.ok s)) ∧
    (∃ text j, UrlDecodeReaches text0 text text.length j ∧
      inplaceUrlDecode text0 = Except.ok (text.take j)) := by
  obtain ⟨r, hr, hreach⟩ := urlDecodeLoop_ok text0 text0.length text0 0 0
    UrlDecodeReaches.start (by omega)
  have hb := hreach.bounds
  refine ⟨⟨r.1.take r.2, by simp [inplaceUrlDecode, hr], ?_⟩, ?_, r.1, r.2, hreach,
    by simp [inplaceUrlDecode, hr]⟩
  · rw [List.length_take]
    omega
  · intro text i j h
    have hb := h.bounds
    refine ⟨hb.1, hb.2.1, hb.2.2, fun hi => ?_⟩
    obtain ⟨s, hs, _⟩ := urlDecodeStep_ok text i j hb.1 hi
    exact ⟨s, hs⟩

/-! ## Decimal text of integers: reading back what was written -/

/-- The value of the character of a digit is the digit. -/
theorem digitValue_digitChar (d : Nat) (h : d < 10) : digitValue? (digitChar d) = some d := by
  interval_cases d <;> rfl

/-- Reading digits in two parts. -/
theorem parseNatAux_append (acc : Nat) (l1 l2 : List Char) :
    parseNatAux acc (l1 ++ l2) = (parseNatAux acc l1).bind (fun a => parseNatAux a l2) := by
  induction l1 generalizing acc with
  | nil => rfl
  | cons c rest ih =>
    simp only [List.cons_append, parseNatAux]
    cases digitValue? c with
    | none => rfl
    | some d => exact ih _

/-- The digits of a number, read back, give the number; and there is at least one. -/
theorem parseNatAux_decimalRev (fuel n : Nat) (h : n < fuel) :
    parseNatAux 0 (decimalRev fuel n).reverse = some n ∧ decimalRev fuel n ≠ [] := by
  induction fuel generalizing n with
  | zero => omega
  | succ fuel ih =>
    refine ⟨?_, by simp [decimalRev]⟩
    simp only [decimalRev, List.reverse_cons, parseNatAux_append]
    by_cases h0 : n / 10 = 0
    · have hn : n % 10 = n := by omega
      simp [h0, parseNatAux, hn, digitValue_digitChar n (by omega)]
    · rw [if_neg h0, (ih (n / 10) (by omega)).1]
      simp only [Option.some_bind, parseNatAux, digitValue_digitChar (n % 10) (by omega)]
      congr 1
      omega

/-- The decimal text of a natural number, read back, gives the number. -/
theorem parseNat_decimalNat (n : Nat) : parseNat (decimalNat n) = some n := by
  have h := parseNatAux_decimalRev (n + 1) n (by omega)
  unfold parseNat decimalNat
  rw [if_neg (by simpa using h.2)]
  exact h.1

/-- A text that reads as a natural number starts with neither sign. -/
theorem parseNat_head (c : Char) (rest : List Char) (n : Nat)
    (h : parseNat (c :: rest) = some n) : c ≠ '-' ∧ c ≠ '+' := by
  constructor <;>
  · rintro rfl
    simp [parseNat, parseNatAux, digitValue?] at h

/-- The decimal text of an integer, read back, gives the integer. -/
theorem lexical_cast_int_string (v : Int) : lexical_cast_int (lexical_cast_string v) = some v := by
  unfold lexical_cast_string
  split_ifs with hneg
  · simp only [lexical_cast_int, if_true, parseNat_decimalNat, Option.map_some']
    rw [Int.ofNat_natAbs_of_nonpos (le_of_lt hneg), neg_neg]
  · have hp := parseNat_decimalNat v.natAbs
    cases hd : decimalNat v.natAbs with
    | nil => simp [hd, parseNat] at hp
    | cons c rest =>
      rw [hd] at hp
      obtain ⟨h1, h2⟩ := parseNat_head c rest _ hp
      simp only [lexical_cast_int, if_neg h1, if_neg h2, hp, Option.map_some']
      rw [Int.natAbs_of_nonneg (not_lt.1 hneg)]

/-! ## The spin box -/

/-- C16, counterexample: after `setMinimum(5)` on a new spin box the minimum is 5, and the
validator that the spin box owns still has the bottom 0 that it was made with. -/
theorem validator_range_counterexample :
    ((WSpinBox.new WLocale.classic true).setMinimum 5).min_ = 5 ∧
    ((WSpinBox.new WLocale.classic true).setMinimum 5).validator.bottom = 0 ∧
    ¬ (((WSpinBox.new WLocale.classic true).setMinimum 5).validator.bottom =
          ((WSpinBox.new WLocale.classic true).setMinimum 5).min_ ∧
       ((WSpinBox.new WLocale.classic true).setMinimum 5).validator.top =
          ((WSpinBox.new WLocale.classic true).setMinimum 5).max_) := by
  decide

/-- The calls that change the range leave the validator of the spin box as it is. -/
theorem runRangeCalls_validator (calls : List RangeCall) (sb : WSpinBox) :
    (runRangeCalls calls sb).validator = sb.validator := by
  induction calls generalizing sb with
  | nil => rfl
  | cons c rest ih =>
    rw [runRangeCalls, ih]
    cases c <;> rfl

/-- C16, as amended: after construction the range of the validator that the spin box owns is
the `(min, max)` of the spin box, which is `(0, 99)`.  Calls of `setMinimum`, `setMaximum`
and `setRange` leave this validator as it is; the validator that `createValidator()` makes
after them has the current `(min, max)` as its range. -/
theorem validator_range_after_range_calls (loc : WLocale) (native : Bool)
    (calls : List RangeCall) :
    ((WSpinBox.new loc native).validator.bottom = (WSpinBox.new loc native).min_ ∧
     (WSpinBox.new loc native).validator.top = (WSpinBox.new loc native).max_ ∧
     (WSpinBox.new loc native).validator = { bottom := 0, top := 99 }) ∧
    (runRangeCalls calls (WSpinBox.new loc native)).validator = { bottom := 0, top := 99 } ∧
    (runRangeCalls calls (WSpinBox.new loc native)).createValidator.bottom =
      (runRangeCalls calls (WSpinBox.new loc native)).min_ ∧
    (runRangeCalls calls (WSpinBox.new loc native)).createValidator.top =
      (runRangeCalls calls (WSpinBox.new loc native)).max_ := by
  have hnew : (WSpinBox.new loc native).validator = { bottom := 0, top := 99 } ∧
      (WSpinBox.new loc native).min_ = 0 ∧ (WSpinBox.new loc native).max_ = 99 := by
    simp [WSpinBox.new, WSpinBox.setValue, WSpinBox.createValidator, WIntValidator.setRange]
  refine ⟨⟨by rw [hnew.1, hnew.2.1], by rw [hnew.1, hnew.2.2], hnew.1⟩, ?_, rfl, rfl⟩
  rw [runRangeCalls_validator, hnew.1]

/-- C17: `validateRange()` reports `Valid` exactly when the value lies between the minimum and
the maximum, and a number out of the range otherwise: too small below the minimum, too large
above the maximum.  The method `setValue` stores the value that it is given, whatever the
range: after `setRange(0, 10)` and `setValue(15)` the value is 15 and `validateRange()`
reports a number that is too large. -/
theorem validateRange_iff (loc : WLocale) (sb : WSpinBox) :
    (sb.validateRange = ValidatorResult.Valid ↔ sb.min_ ≤ sb.value_ ∧ sb.value_ ≤ sb.max_) ∧
    (sb.value_ < sb.min_ → sb.validateRange = ValidatorResult.InvalidTooSmall) ∧
    (sb.min_ ≤ sb.value_ → sb.max_ < sb.value_ →
      sb.validateRange = ValidatorResult.InvalidTooLarge) ∧
    (¬ (sb.min_ ≤ sb.value_ ∧ sb.value_ ≤ sb.max_) → sb.validateRange.outOfRange = true) ∧
    (∀ value, (sb.setValue loc value).value_ = value) ∧
    ((sb.setRange 0 10).setValue loc 15).value_ = 15 ∧
    ((sb.setRange 0 10).setValue loc 15).validateRange = ValidatorResult.InvalidTooLarge := by
  have hv : ∀ x : WSpinBox, x.validateRange =
      if x.value_ < x.min_ then ValidatorResult.InvalidTooSmall
      else if x.value_ > x.max_ then ValidatorResult.InvalidTooLarge
      else ValidatorResult.Valid := by
    intro x
    simp only [WSpinBox.validateRange, WIntValidator.validate, lexical_cast_int_string,
      WIntValidator.setRange]
  have hset : ∀ x : WSpinBox, ∀ value, (x.setValue loc value).value_ = value ∧
      (x.setValue loc value).min_ = x.min_ ∧ (x.setValue loc value).max_ = x.max_ := by
    intro x value
    unfold WSpinBox.setValue
    split_ifs with h
    · exact ⟨rfl, rfl, rfl⟩
    · exact ⟨by simpa using h, rfl, rfl⟩
  refine ⟨?_, ?_, ?_, ?_, fun value => (hset sb value).1, (hset _ 15).1, ?_⟩
  · rw [hv]
    split_ifs <;> simp <;> omega
  · intro h
    rw [hv, if_pos h]
  · intro h1 h2
    rw [hv, if_neg (by omega), if_pos h2]
  · intro h
    rw [hv]
    split_ifs with h1 h2
    · rfl
    · rfl
    · exact absurd ⟨by omega, by omega⟩ h
  · rw [hv, (hset _ 15).1, (hset _ 15).2.1, (hset _ 15).2.2]
    rfl

/-- C18: `parseNumberValue(text)` is a total function of the parse of the locale: when the
parse fails it returns `false` and leaves the spin box as it is; when the parse gives `n` it
returns `true`, the value becomes `n`, and the minimum, the maximum and the step stay as
they are. -/
theorem parseNumberValue_spec (loc : WLocale) (sb : WSpinBox) (text : StdString) :
    (loc.toInt text = Option.none → sb.parseNumberValue loc text = (sb, false)) ∧
    (∀ n, loc.toInt text = some n →
      (sb.parseNumberValue loc text).2 = true ∧
      (sb.parseNumberValue loc text).1.value_ = n ∧
      (sb.parseNumberValue loc text).1.min_ = sb.min_ ∧
      (sb.parseNumberValue loc text).1.max_ = sb.max_ ∧
      (sb.parseNumberValue loc text).1.step_ = sb.step_) := by
  constructor
  · intro h
    simp [WSpinBox.parseNumberValue, h]
  · intro n h
    simp [WSpinBox.parseNumberValue, h]

/-- C19, counterexample: a spin box that does not use the native control and has the text
`$` in front of its value holds 5; its `textFromValue()` is `$5`, and `parseNumberValue` of
this text returns `false`. -/
theorem parse_textFromValue_counterexample :
    dollarSpinBox.textFromValue WLocale.classic = "$5".toList ∧
    dollarSpinBox.parseNumberValue WLocale.classic
      (dollarSpinBox.textFromValue WLocale.classic) = (dollarSpinBox, false) := by
  decide

/-- C19, as amended: with a locale whose parse gives back every integer from the text that
the locale makes of it, and on a spin box that uses the native control or has neither a text
in front of its value nor one behind it, `parseNumberValue(textFromValue())` returns `true`
and leaves the value, and all of the spin box, as it is. -/
theorem parse_textFromValue (loc : WLocale) (sb : WSpinBox)
    (hloc : ∀ v, loc.toInt (loc.toString v) = some v)
    (hplain : sb.nativeControl = true ∨ (sb.prefix_ = [] ∧ sb.suffix_ = [])) :
    (sb.parseNumberValue loc (sb.textFromValue loc)).2 = true ∧
    (sb.parseNumberValue loc (sb.textFromValue loc)).1.value_ = sb.value_ ∧
    (sb.parseNumberValue loc (sb.textFromValue loc)).1 = sb := by
  have htext : sb.textFromValue loc = loc.toString sb.value_ := by
    unfold WSpinBox.textFromValue
    rcases hplain with h | ⟨h1, h2⟩
    · rw [if_pos h]
    · split_ifs
      · rfl
      · rw [h1, h2, List.nil_append, List.append_nil]
  simp [WSpinBox.parseNumberValue, htext, hloc]

/-- C19, witness: a new spin box in the locale of plain decimal text, after `setValue(-42)`. -/
theorem parse_textFromValue_witness :
    (∀ v, WLocale.classic.toInt (WLocale.classic.toString v) = some v) ∧
    (((WSpinBox.new WLocale.classic false).setValue WLocale.classic (-42)).nativeControl = true ∨
      (((WSpinBox.new WLocale.classic false).setValue WLocale.classic (-42)).prefix_ = [] ∧
       ((WSpinBox.new WLocale.classic false).setValue WLocale.classic (-42)).suffix_ = [])) ∧
    ((((WSpinBox.new WLocale.classic false).setValue WLocale.classic (-42)).parseNumberValue
        WLocale.classic
        (((WSpinBox.new WLocale.classic false).setValue WLocale.classic (-42)).textFromValue
          WLocale.classic)).2 = true ∧
     (((WSpinBox.new WLocale.classic false).setValue WLocale.classic (-42)).parseNumberValue
        WLocale.classic
        (((WSpinBox.new WLocale.classic false).setValue WLocale.classic (-42)).textFromValue
          WLocale.classic)).1.value_ =
      ((WSpinBox.new WLocale.classic false).setValue WLocale.classic (-42)).value_ ∧
     (((WSpinBox.new WLocale.classic false).setValue WLocale.classic (-42)).parseNumberValue
        WLocale.classic
        (((WSpinBox.new WLocale.classic false).setValue WLocale.classic (-42)).textFromValue
          WLocale.classic)).1 =
      (WSpinBox.new WLocale.classic false).setValue WLocale.classic (-42)) :=
  ⟨lexical_cast_int_string, by decide,
    parse_textFromValue WLocale.classic _ lexical_cast_int_string (by decide)⟩

/-- C20: on a spin box that uses the native control, `updateDom(element, all)` hands to the
method of the base class the element with the attributes `min`, `max` and `step` set to the
decimal texts of the minimum, the maximum and the step, when `all` is true or the flag
`changed_` is set; and it hands on the element as it is, with no attribute set, when `all`
is false and the flag is clear.  Each of `setMinimum`, `setMaximum`, `setRange` and
`setSingleStep` sets the flag `changed_` and its members; these methods take no element. -/
theorem updateDom_range (base : WSpinBox → DomElement → Bool → WSpinBox × DomElement)
    (sb : WSpinBox) (element : DomElement) (all : Bool) (hnative : sb.nativeControl = true) :
    (all = true ∨ sb.changed_ = true →
      (sb.updateDomRange element all).getAttribute "min" = some (lexical_cast_string sb.min_) ∧
      (sb.updateDomRange element all).getAttribute "max" = some (lexical_cast_string sb.max_) ∧
      (sb.updateDomRange element all).getAttribute "step" =
        some (lexical_cast_string sb.step_) ∧
      (sb.updateDomRange element all).attributes =
        ("step", lexical_cast_string sb.step_) :: ("max", lexical_cast_string sb.max_) ::
          ("min", lexical_cast_string sb.min_) :: element.attributes) ∧
    (all = false → sb.changed_ = false → sb.updateDomRange element all = element) ∧
    sb.updateDom base element all = base sb (sb.updateDomRange element all) all ∧
    (∀ m, (sb.setMinimum m).changed_ = true ∧ (sb.setMinimum m).min_ = m) ∧
    (∀ m, (sb.setMaximum m).changed_ = true ∧ (sb.setMaximum m).max_ = m) ∧
    (∀ a b, (sb.setRange a b).changed_ = true ∧ (sb.setRange a b).min_ = a ∧
      (sb.setRange a b).max_ = b) ∧
    (∀ m, (sb.setSingleStep m).changed_ = true ∧ (sb.setSingleStep m).step_ = m) := by
  refine ⟨?_, ?_, rfl, fun m => ⟨rfl, rfl⟩, fun m => ⟨rfl, rfl⟩, fun a b => ⟨rfl, rfl, rfl⟩,
    fun m => ⟨rfl, rfl⟩⟩
  · intro h
    have hc : (all || sb.changed_) = true := by
      rcases h with h | h <;> simp [h]
    simp [WSpinBox.updateDomRange, hc, hnative, DomElement.setAttribute,
      DomElement.getAttribute, List.find?]
  · intro h1 h2
    simp [WSpinBox.updateDomRange, h1, h2]

/-- C20, witness: a new spin box with the native control after `setRange(0, 10)`, in a render
of what has changed. -/
theorem updateDom_range_witness :
    ((WSpinBox.new WLocale.classic true).setRange 0 10).nativeControl = true ∧
    ((((WSpinBox.new WLocale.classic true).setRange 0 10).updateDom clearChanged
        { attributes := [] } false).2.getAttribute "max" = some "10".toList ∧
     (((WSpinBox.new WLocale.classic true).setRange 0 10).updateDom clearChanged
        { attributes := [] } false).2.attributes =
      [("step", "1".toList), ("max", "10".toList), ("min", "0".toList)] ∧
     ((((WSpinBox.new WLocale.classic true).setRange 0 10).updateDom clearChanged
        { attributes := [] } false).1.updateDom clearChanged { attributes := [] } false).2 =
      { attributes := [] }) ∧
    (((WSpinBox.new WLocale.classic true).setRange 0 10).updateDom clearChanged
        { attributes := [] } false =
      clearChanged ((WSpinBox.new WLocale.classic true).setRange 0 10)
        (((WSpinBox.new WLocale.classic true).setRange 0 10).updateDomRange
          { attributes := [] } false) false) :=
  ⟨by decide, by decide,
    (updateDom_range clearChanged ((WSpinBox.new WLocale.classic true).setRange 0 10)
      { attributes := [] } false (by decide)).2.2.1⟩

/-! ## Numbers to text: values that are not finite, and the notation -/

theorem takeWhile_ne_NUL_append (text rest : StdString) (hnul : NUL ∉ text) :
    (text ++ NUL :: rest).takeWhile (fun c => c != NUL) = text := by
  induction text with
  | nil => simp [List.takeWhile]
  | cons c cs ih =>
    have hc : c ≠ NUL := fun h => hnul (by simp [h])
    have hcs : NUL ∉ cs := fun h => hnul (by simp [h])
    have hb : (c != NUL) = true := by simp [hc]
    simp [List.takeWhile, hb, ih hcs]

theorem resultText_storeCString (buf : List Char) (text : StdString)
    (hlen : text.length < buf.length) (hnul : NUL ∉ text) :
    resultText (storeCString buf text) = some text := by
  simp [storeCString, hlen, resultText, c_str, takeWhile_ne_NUL_append text _ hnul]

/-- Claim C13.  In both builds and for every `digits`, with a buffer of ten characters or
more, `round_str` and `generic_double_to_str` leave "NaN" for what is not a number,
"Infinity" for the positive infinity and "-Infinity" for the negative one, and the condition
of the fast path of `round_str` is false for each of these values. -/
theorem nonfinite_rendering (number : FmtFlags → Nat → ℚ → StdString) (spirit : Bool)
    (digits : Int) (buf : List Char) (hbuf : 10 ≤ buf.length) :
    (resultText (round_str number spirit Double.nan digits buf) = some "NaN".toList ∧
      resultText (round_str number spirit (Double.inf false) digits buf)
        = some "Infinity".toList ∧
      resultText (round_str number spirit (Double.inf true) digits buf)
        = some "-Infinity".toList) ∧
    (resultText (generic_double_to_str number spirit Double.nan buf) = some "NaN".toList ∧
      resultText (generic_double_to_str number spirit (Double.inf false) buf)
        = some "Infinity".toList ∧
      resultText (generic_double_to_str number spirit (Double.inf true) buf)
        = some "-Infinity".toList) ∧
    fastPathApplies Double.nan digits = false ∧
    fastPathApplies (Double.inf false) digits = false ∧
    fastPathApplies (Double.inf true) digits = false := by
  have h1 : resultText (storeCString buf "NaN".toList) = some "NaN".toList :=
    resultText_storeCString buf _ (by simp; omega) (by decide)
  have h2 : resultText (storeCString buf "Infinity".toList) = some "Infinity".toList :=
    resultText_storeCString buf _ (by simp; omega) (by decide)
  have h3 : resultText (storeCString buf "-Infinity".toList) = some "-Infinity".toList :=
    resultText_storeCString buf _ (by simp; omega) (by decide)
  have g1 : resultText (generic_double_to_str number spirit Double.nan buf)
      = some "NaN".toList := by
    cases spirit
    · simpa [generic_double_to_str, Double.isnan] using h1
    · simpa [generic_double_to_str, Double.ne, Double.eq, karmaGenerate,
        JavaScriptPolicy.nan] using h1
  have g2 : resultText (generic_double_to_str number spirit (Double.inf false) buf)
      = some "Infinity".toList := by
    cases spirit
    · simpa [generic_double_to_str, Double.isnan, Double.isinf, Double.gt, Double.lt] using h2
    · simpa [generic_double_to_str, Double.ne, Double.eq, karmaGenerate,
        JavaScriptPolicy.inf, sign_inserter, Double.lt] using h2
  have g3 : resultText (generic_double_to_str number spirit (Double.inf true) buf)
      = some "-Infinity".toList := by
    cases spirit
    · simpa [generic_double_to_str, Double.isnan, Double.isinf, Double.gt, Double.lt] using h3
    · simpa [generic_double_to_str, Double.ne, Double.eq, karmaGenerate,
        JavaScriptPolicy.inf, sign_inserter, Double.lt] using h3
  have f1 : fastPathApplies Double.nan digits = false := by
    simp [fastPathApplies, Double.eq, Double.gt, Double.lt]
  have f2 : fastPathApplies (Double.inf false) digits = false := by
    simp [fastPathApplies, Double.eq, Double.gt, Double.lt]
  have f3 : fastPathApplies (Double.inf true) digits = false := by
    simp [fastPathApplies, Double.eq, Double.gt, Double.lt]
  refine ⟨⟨?_, ?_, ?_⟩, ⟨g1, g2, g3⟩, f1, f2, f3⟩
  · cases spirit
    · simpa [round_str, f1] using g1
    · simpa [round_str] using g1
  · cases spirit
    · simpa [round_str, f2] using g2
    · simpa [round_str] using g2
  · cases spirit
    · simpa [round_str, f3] using g3
    · simpa [round_str] using g3

/-- Witness of the theorem of claim C13: the build without Spirit, two digits, and a buffer of
twenty characters. -/
theorem nonfinite_rendering_witness :
    10 ≤ (List.replicate 20 'x').length ∧
    resultText (round_str (fun _ _ _ => []) false (Double.inf true) 2 (List.replicate 20 'x'))
      = some "-Infinity".toList :=
  ⟨by decide,
    (nonfinite_rendering (fun _ _ _ => []) false 2 (List.replicate 20 'x') (by decide)).1.2.2⟩

theorem digitChar_ne_NUL (d : Nat) (h : d < 10) : digitChar d ≠ NUL := by
  interval_cases d <;> decide

theorem decimalRev_no_NUL (fuel n : Nat) : NUL ∉ decimalRev fuel n := by
  induction fuel generalizing n with
  | zero => simp [decimalRev]
  | succ fuel ih =>
    simp only [decimalRev, List.mem_cons, not_or]
    refine ⟨fun h => digitChar_ne_NUL (n % 10) (Nat.mod_lt _ (by decide)) h.symm, ?_⟩
    split_ifs
    · simp
    · exact ih _

theorem decimalNat_no_NUL (n : Nat) : NUL ∉ decimalNat n := by
  simp [decimalNat, decimalRev_no_NUL]

theorem twoDigits_no_NUL (k : Nat) : NUL ∉ twoDigits k := by
  unfold twoDigits
  split_ifs
  · simp only [List.mem_cons, not_or]
    exact ⟨by decide, decimalNat_no_NUL k⟩
  · exact decimalNat_no_NUL k

/-- The text of `sprintf_e7` has no terminator inside. -/
theorem sprintf_e7_no_NUL (negative : Bool) (m : ℚ) : NUL ∉ sprintf_e7 negative m := by
  have hsign : NUL ∉ (if negative then ['-'] else [] : StdString) := by
    cases negative <;> decide
  by_cases h0 : m = 0
  · simp only [sprintf_e7, if_pos h0, List.mem_append, not_or]
    exact ⟨hsign, by decide⟩
  · simp only [sprintf_e7, if_neg h0, List.mem_append, not_or]
    refine ⟨hsign, ⟨⟨⟨⟨⟨?_, by decide⟩, ?_⟩, by decide⟩, ?_⟩, twoDigits_no_NUL _⟩⟩
    · exact fun h => decimalNat_no_NUL _ (List.mem_of_mem_take h)
    · exact fun h => decimalNat_no_NUL _ (List.mem_of_mem_drop h)
    · split_ifs <;> decide

/-- The text of `sprintf_e7` has the mark of the exponent. -/
theorem sprintf_e7_scientific (negative : Bool) (m : ℚ) : 'e' ∈ sprintf_e7 negative m := by
  by_cases h0 : m = 0
  · simp only [sprintf_e7, if_pos h0, List.mem_append]
    exact Or.inr (by decide)
  · simp [sprintf_e7, if_neg h0]

/-! ## Numbers to text: the arithmetic of doubles -/

/-- The number of binary digits of a number that is not zero. -/
theorem bitLength_spec (fuel n : Nat) (hn : n ≠ 0) (hf : n ≤ fuel) :
    1 ≤ bitLength fuel n ∧ 2 ^ (bitLength fuel n - 1) ≤ n ∧ n < 2 ^ bitLength fuel n := by
  induction fuel generalizing n with
  | zero => omega
  | succ fuel ih =>
    rw [bitLength, if_neg hn]
    by_cases h2 : n / 2 = 0
    · have h1 : n = 1 := by omega
      subst h1
      have hz : bitLength fuel (1 / 2) = 0 := by
        cases fuel <;> simp [bitLength]
      rw [hz]
      decide
    · obtain ⟨hb, hlo, hhi⟩ := ih (n / 2) h2 (by omega)
      refine ⟨by omega, ?_, ?_⟩
      · have e : bitLength fuel (n / 2) + 1 - 1 = (bitLength fuel (n / 2) - 1) + 1 := by omega
        rw [e, pow_succ]
        omega
      · rw [pow_succ]
        omega

/-- The binary exponent of a positive number. -/
theorem binaryExponent_spec (m : ℚ) (hm : 0 < m) :
    (2 : ℚ) ^ binaryExponent m ≤ m ∧ m < 2 ^ (binaryExponent m + 1) := by
  have hnum : 0 < m.num := Rat.num_pos.2 hm
  have hp0 : m.num.natAbs ≠ 0 := by
    intro h
    have := Int.natAbs_eq_zero.1 h
    omega
  unfold binaryExponent
  obtain ⟨hbp, hplo, hphi⟩ := bitLength_spec m.num.natAbs m.num.natAbs hp0 le_rfl
  obtain ⟨hbq, hqlo, hqhi⟩ := bitLength_spec m.den m.den m.den_nz le_rfl
  generalize bitLength m.num.natAbs m.num.natAbs = bp at hbp hplo hphi ⊢
  generalize bitLength m.den m.den = bq at hbq hqlo hqhi ⊢
  have hmeq : m = (m.num.natAbs : ℚ) / (m.den : ℚ) := by
    have h2 : (m.num.natAbs : ℚ) = (m.num : ℚ) := by
      rw [Nat.cast_natAbs, abs_of_pos hnum]
    rw [h2]
    exact (Rat.num_div_den m).symm
  have hq : (0 : ℚ) < (m.den : ℚ) := by exact_mod_cast m.den_pos
  have hP1 : ((2 : ℚ) ^ bp) ≤ 2 * (m.num.natAbs : ℚ) := by
    have e : bp = (bp - 1) + 1 := by omega
    have : (2 ^ (bp - 1) : ℕ) ≤ m.num.natAbs := hplo
    have h3 : ((2 ^ (bp - 1) : ℕ) : ℚ) ≤ (m.num.natAbs : ℚ) := by exact_mod_cast this
    rw [e, pow_succ]
    push_cast at h3
    linarith
  have hP2 : (m.num.natAbs : ℚ) < (2 : ℚ) ^ bp := by exact_mod_cast hphi
  have hQ1 : ((2 : ℚ) ^ bq) ≤ 2 * (m.den : ℚ) := by
    have e : bq = (bq - 1) + 1 := by omega
    have h3 : ((2 ^ (bq - 1) : ℕ) : ℚ) ≤ (m.den : ℚ) := by exact_mod_cast hqlo
    rw [e, pow_succ]
    push_cast at h3
    linarith
  have hQ2 : (m.den : ℚ) < (2 : ℚ) ^ bq := by exact_mod_cast hqhi
  have hA : (2 : ℚ) ^ ((bp : ℤ) - (bq : ℤ)) = (2 : ℚ) ^ bp / (2 : ℚ) ^ bq := by
    rw [zpow_sub₀ (by norm_num), zpow_natCast, zpow_natCast]
  have h2bq : (0 : ℚ) < (2 : ℚ) ^ bq := by positivity
  have h2bp : (0 : ℚ) < (2 : ℚ) ^ bp := by positivity
  -- the quotient lies strictly between the half and the double of `2 ^ (bp - bq)`
  have hlow : (2 : ℚ) ^ bp / (2 : ℚ) ^ bq / 2 ≤ m := by
    rw [hmeq, div_div, div_le_div_iff₀ (by positivity) hq]
    nlinarith
  have hupp : m < 2 * ((2 : ℚ) ^ bp / (2 : ℚ) ^ bq) := by
    rw [hmeq, ← mul_div_assoc, div_lt_div_iff₀ hq h2bq]
    nlinarith
  split_ifs with hc
  · refine ⟨hc, ?_⟩
    rw [zpow_add₀ (by norm_num), hA, zpow_one]
    linarith
  · refine ⟨?_, ?_⟩
    · rw [zpow_sub₀ (by norm_num), hA, zpow_one]
      exact hlow
    · rw [sub_add_cancel]
      exact not_le.1 hc

/-- The double nearest to 0.001. -/
theorem ofRat_thousandth :
    Double.ofRat (1 / 1000) = Double.finite (1152921504606847 / 1152921504606846976) := by
  decide!

/-- No double lies from 0.001 up to the double nearest to it: for a double, to be below the
literal `0.001` of the source is to be below 0.001. -/
theorem double_lt_thousandth (t : ℚ) (ht : 0 < t) (hd : roundBinary64 t = t) :
    t < 1152921504606847 / 1152921504606846976 ↔ t < 1 / 1000 := by
  constructor
  · intro h2
    by_contra h1
    have h1 : 1 / 1000 ≤ t := not_lt.1 h1
    obtain ⟨hlo, hhi⟩ := binaryExponent_spec t ht
    have he : binaryExponent t = -10 := by
      have a1 : (2 : ℚ) ^ (binaryExponent t) < 2 ^ (-9 : ℤ) := by
        refine lt_of_le_of_lt hlo (lt_trans h2 ?_)
        rw [zpow_neg]
        norm_num
      have a2 : (2 : ℚ) ^ (-10 : ℤ) < 2 ^ (binaryExponent t + 1) := by
        refine lt_of_le_of_lt ?_ hhi
        refine le_trans ?_ h1
        rw [zpow_neg]
        norm_num
      have b1 := (zpow_lt_zpow_iff_right₀ (by norm_num : (1 : ℚ) < 2)).1 a1
      have b2 := (zpow_lt_zpow_iff_right₀ (by norm_num : (1 : ℚ) < 2)).1 a2
      omega
    unfold roundBinary64 at hd
    rw [he] at hd
    have hmax : max (-10 : ℤ) (-1022) - 52 = -62 := by decide
    rw [hmax] at hd
    generalize roundHalfEven (t / 2 ^ (-62 : ℤ)) = N at hd
    have hz : (2 : ℚ) ^ (-62 : ℤ) = 1 / 4611686018427387904 := by
      rw [zpow_neg]
      norm_num
    rw [hz] at hd
    rw [← hd] at h1 h2
    have hN1 : (4611686018427387904 : ℚ) ≤ N * 1000 := by linarith
    have hN2 : (N : ℚ) < 4611686018427388 := by linarith
    have hN1n : 4611686018427387904 ≤ N * 1000 := by exact_mod_cast hN1
    have hN2n : N < 4611686018427388 := by exact_mod_cast hN2
    omega
  · intro h
    have : (1 : ℚ) / 1000 < 1152921504606847 / 1152921504606846976 := by norm_num
    linarith

/-- The policy `floatfield` on a finite value, as a condition on the value. -/
theorem floatfield_finite (t : ℚ) :
    JavaScriptPolicy.floatfield (Double.finite t) =
      if t ≠ 0 ∧ (t < 1152921504606847 / 1152921504606846976 ∨ 100000000 < t) then
        FmtFlags.scientific
      else FmtFlags.fixed := by
  unfold JavaScriptPolicy.floatfield
  rw [ofRat_thousandth]
  unfold Double.ne Double.eq Double.gt Double.lt
  simp only [Double.value]
  by_cases h0 : t = 0 <;>
    by_cases h1 : t < 1152921504606847 / 1152921504606846976 <;>
    by_cases h2 : (100000000 : ℚ) < t <;>
    simp only [ne_eq, h0, h1, h2] <;> decide

/-- The policy of the build with Spirit selects the scientific notation for every negative
value, whatever its magnitude: it compares the value itself with 0.001. -/
theorem floatfield_negative (t : ℚ) (h : t < 0) :
    JavaScriptPolicy.floatfield (Double.finite t) = FmtFlags.scientific := by
  rw [floatfield_finite, if_pos ⟨ne_of_lt h, Or.inl (lt_trans h (by norm_num))⟩]

/-- Counterexample to claim C14 as stated: in the build without Spirit the double 12345.678
is written in the scientific notation, the positive zero is written as "0.0000000e+00" and
the negative zero as "-0.0000000e+00". -/
theorem floatfield_switchover_counterexample :
    resultText (generic_double_to_str (fun _ _ _ => []) false
      (Double.ofRat (12345678 / 1000)) (List.replicate 20 'x')) = some "1.2345678e+04".toList ∧
    resultText (generic_double_to_str (fun _ _ _ => []) false
      (Double.finite 0) (List.replicate 20 'x')) = some "0.0000000e+00".toList ∧
    resultText (generic_double_to_str (fun _ _ _ => []) false
      Double.negZero (List.replicate 20 'x')) = some "-0.0000000e+00".toList := by
  decide!

/-- Claim C14, as amended.  In the build with Spirit, for a double `t` above zero the
policy selects the scientific notation exactly when `t` is below 0.001 or above 1e8 and the
fixed notation otherwise, the generator formats `t` with the notation selected and the
precision 7, and each of the two zeros is written as "0".  In the build without Spirit every
finite value is written by `sprintf` with "%.7e", in the scientific notation; the positive
zero is written as "0.0000000e+00" and the negative zero as "-0.0000000e+00". -/
theorem floatfield_switchover (number : FmtFlags → Nat → ℚ → StdString) (t : ℚ)
    (buf : List Char) (hbuf : 15 ≤ buf.length)
    (hroom : (sprintf_e7 (decide (t < 0)) |t|).length < buf.length) :
    (0 < t → roundBinary64 t = t →
      (JavaScriptPolicy.floatfield (Double.finite t) = FmtFlags.scientific ↔
        t < 1 / 1000 ∨ 100000000 < t) ∧
      (JavaScriptPolicy.floatfield (Double.finite t) = FmtFlags.fixed ↔
        1 / 1000 ≤ t ∧ t ≤ 100000000) ∧
      karmaGenerate number (Double.finite t) =
        number (JavaScriptPolicy.floatfield (Double.finite t)) 7 t) ∧
    (resultText (generic_double_to_str number true (Double.finite 0) buf) = some ['0'] ∧
      resultText (generic_double_to_str number true Double.negZero buf) = some ['0']) ∧
    (resultText (generic_double_to_str number false (Double.finite t) buf)
        = some (sprintf_e7 (decide (t < 0)) |t|) ∧
      'e' ∈ sprintf_e7 (decide (t < 0)) |t|) ∧
    (resultText (generic_double_to_str number false (Double.finite 0) buf)
        = some "0.0000000e+00".toList ∧
      resultText (generic_double_to_str number false Double.negZero buf)
        = some "-0.0000000e+00".toList) := by
  have hgen : ∀ d : Double, d.isnan = false → d.isinf = false →
      (sprintf_e7 d.signbit |d.value|).length < buf.length →
      resultText (generic_double_to_str number false d buf)
        = some (sprintf_e7 d.signbit |d.value|) := by
    intro d h1 h2 h3
    have h := resultText_storeCString buf _ h3 (sprintf_e7_no_NUL d.signbit |d.value|)
    simpa [generic_double_to_str, h1, h2] using h
  have hzero := resultText_storeCString buf ['0'] (by simp; omega) (by decide)
  refine ⟨fun ht hd => ?_, ⟨?_, ?_⟩, ⟨hgen (Double.finite t) rfl rfl hroom,
    sprintf_e7_scientific _ _⟩, ⟨?_, ?_⟩⟩
  · have h0 : t ≠ 0 := ne_of_gt ht
    have hff : JavaScriptPolicy.floatfield (Double.finite t) =
        if t ≠ 0 ∧ (t < 1 / 1000 ∨ 100000000 < t) then FmtFlags.scientific
        else FmtFlags.fixed := by
      rw [floatfield_finite]
      by_cases hc : t < 1 / 1000
      · rw [if_pos ⟨h0, Or.inl ((double_lt_thousandth t ht hd).2 hc)⟩, if_pos ⟨h0, Or.inl hc⟩]
      · have hc1 : ¬ t < 1152921504606847 / 1152921504606846976 :=
          fun h => hc ((double_lt_thousandth t ht hd).1 h)
        by_cases h8 : (100000000 : ℚ) < t
        · rw [if_pos ⟨h0, Or.inr h8⟩, if_pos ⟨h0, Or.inr h8⟩]
        · rw [if_neg (fun h => h.2.elim hc1 h8), if_neg (fun h => h.2.elim hc h8)]
    refine ⟨?_, ?_, rfl⟩ <;> rw [hff]
    · constructor
      · intro h
        by_contra hn
        rw [if_neg (fun hc => hn hc.2)] at h
        exact FmtFlags.noConfusion h
      · intro h
        rw [if_pos ⟨h0, h⟩]
    · constructor
      · intro h
        by_contra hn
        rw [if_pos ⟨h0, by
          by_contra hc
          exact hn ⟨not_lt.1 (fun h1 => hc (Or.inl h1)), not_lt.1 (fun h2 => hc (Or.inr h2))⟩⟩]
          at h
        exact FmtFlags.noConfusion h
      · intro h
        rw [if_neg (fun hc => hc.2.elim (not_lt.2 h.1) (not_lt.2 h.2))]
  · simpa [generic_double_to_str, Double.ne, Double.eq, Double.value] using hzero
  · simpa [generic_double_to_str, Double.ne, Double.eq, Double.value] using hzero
  · have h := hgen (Double.finite 0) rfl rfl (by
      have e : sprintf_e7 (Double.finite 0).signbit |(Double.finite 0).value|
          = "0.0000000e+00".toList := by decide!
      rw [e]
      simp
      omega)
    rw [h]
    decide!
  · have h := hgen Double.negZero rfl rfl (by
      have e : sprintf_e7 Double.negZero.signbit |Double.negZero.value|
          = "-0.0000000e+00".toList := by decide!
      rw [e]
      simp
      omega)
    rw [h]
    decide!

/-- Witness of the theorem of claim C14: the double 1/8192, which is below 0.001, and a
buffer of twenty characters. -/
theorem floatfield_switchover_witness :
    (15 ≤ (List.replicate 20 'x').length ∧
      (sprintf_e7 (decide ((1 / 8192 : ℚ) < 0)) |(1 / 8192 : ℚ)|).length
        < (List.replicate 20 'x').length) ∧
    JavaScriptPolicy.floatfield (Double.finite (1 / 8192)) = FmtFlags.scientific ∧
    resultText (generic_double_to_str (fun _ _ _ => []) false (Double.finite (1 / 8192))
      (List.replicate 20 'x')) = some "1.2207031e-04".toList :=
  ⟨by decide!,
    ((floatfield_switchover (fun _ _ _ => []) (1 / 8192) (List.replicate 20 'x')
      (by decide) (by decide!)).1 (by norm_num) (by decide!)).1.2 (Or.inl (by norm_num)),
    ((floatfield_switchover (fun _ _ _ => []) (1 / 8192) (List.replicate 20 'x')
      (by decide) (by decide!)).2.2.1.1).trans (by decide!)⟩

/-! ## Numbers to text: the fast path of `round_str` -/

theorem readAt_append (pre post : List Char) (c : Char) (k : Nat) (hk : k = pre.length) :
    readAt (pre ++ c :: post) k = Except.ok c := by
  subst hk
  have h : (pre ++ c :: post)[pre.length]? = some c := by
    rw [List.getElem?_append_right (le_refl _)]
    simp
  simp only [readAt, h]

theorem writeAt_append (pre post : List Char) (c d : Char) (k : Nat) (hk : k = pre.length) :
    writeAt (pre ++ c :: post) k d = Except.ok (pre ++ d :: post) := by
  subst hk
  simp [writeAt]

theorem decimalRev_length_le (fuel n k : Nat) (hk : 1 ≤ k) (hn : n < 10 ^ k) :
    (decimalRev fuel n).length ≤ k := by
  induction fuel generalizing n k with
  | zero => simp [decimalRev]
  | succ fuel ih =>
    simp only [decimalRev, List.length_cons]
    split_ifs with h0
    · simpa using hk
    · have hk2 : 2 ≤ k := by
        by_contra hlt
        have hk1 : k = 1 := by omega
        subst hk1
        omega
      have := ih (n / 10) (k - 1) (by omega) (by
        have e : 10 ^ k = 10 ^ (k - 1) * 10 := by
          rw [← pow_succ]
          congr 1
          omega
        rw [e] at hn
        exact Nat.div_lt_of_lt_mul (by rwa [Nat.mul_comm] at hn))
      omega

theorem decimalNat_length_le (n k : Nat) (hk : 1 ≤ k) (hn : n < 10 ^ k) :
    (decimalNat n).length ≤ k := by
  simpa [decimalNat] using decimalRev_length_le (n + 1) n k hk hn

/-- The conversion to `long long` does not go away from zero. -/
theorem truncate_abs_le (q : ℚ) : ((truncate q).natAbs : ℚ) ≤ |q| := by
  unfold truncate
  split_ifs with h
  · rw [Nat.cast_natAbs, abs_of_nonneg h, Int.cast_abs, abs_of_nonneg (by exact_mod_cast Int.floor_nonneg.2 h)]
    exact Int.floor_le q
  · have hq : 0 ≤ -q := by linarith
    rw [Nat.cast_natAbs, Int.cast_abs, Int.cast_neg, abs_neg,
      abs_of_nonneg (by exact_mod_cast Int.floor_nonneg.2 hq), abs_of_neg (not_le.1 h)]
    exact Int.floor_le (-q)

/-! ## Numbers to text: the fast path of `round_str` and the general formatter -/

/-- Claim C21.  With a method `updateDom` of the base class that clears the flag `changed_`
and leaves the attributes `min`, `max` and `step` of the element as they are, the flag is
clear after every render pass of a spin box, with `all` true or false; a render of what has
changed that follows, with no call of a setter in between, leaves the element that it is
given as it is before the method of the base class is called, and the element that it gives
back has the attributes `min`, `max` and `step` of the element that it was given. -/
theorem updateDom_clears_changed
    (base : WSpinBox → DomElement → Bool → WSpinBox × DomElement)
    (hclear : ∀ sb element all, (base sb element all).1.changed_ = false)
    (hkeep : ∀ sb element all, ∀ name ∈ ["min", "max", "step"],
      (base sb element all).2.getAttribute name = element.getAttribute name)
    (sb : WSpinBox) (element element2 : DomElement) (all : Bool) :
    (sb.updateDom base element all).1.changed_ = false ∧
    (sb.updateDom base element all).1.updateDomRange element2 false = element2 ∧
    (∀ name ∈ ["min", "max", "step"],
      ((sb.updateDom base element all).1.updateDom base element2 false).2.getAttribute name =
        element2.getAttribute name) ∧
    ((sb.updateDom base element all).1.updateDom base element2 false).1.changed_ = false := by
  have h1 : (sb.updateDom base element all).1.changed_ = false := hclear _ _ _
  have h2 : (sb.updateDom base element all).1.updateDomRange element2 false = element2 := by
    simp [WSpinBox.updateDomRange, h1]
  refine ⟨h1, h2, ?_, hclear _ _ _⟩
  intro name hname
  rw [WSpinBox.updateDom, h2]
  exact hkeep _ _ _ name hname

/-- Witness of the theorem of claim C21: a new spin box with the native control after
`setRange(0, 10)`, a full render, and then a render of what has changed into an element
without attributes. -/
theorem updateDom_clears_changed_witness :
    ((∀ sb element all, (clearChanged sb element all).1.changed_ = false) ∧
      (∀ sb element all, ∀ name ∈ ["min", "max", "step"],
        (clearChanged sb element all).2.getAttribute name = element.getAttribute name)) ∧
    ((WSpinBox.new WLocale.classic true).setRange 0 10).changed_ = true ∧
    (((WSpinBox.new WLocale.classic true).setRange 0 10).updateDom clearChanged
      { attributes := [] } true).2.attributes =
      [("step", "1".toList), ("max", "10".toList), ("min", "0".toList)] ∧
    (((WSpinBox.new WLocale.classic true).setRange 0 10).updateDom clearChanged
      { attributes := [] } true).1.changed_ = false ∧
    ((((WSpinBox.new WLocale.classic true).setRange 0 10).updateDom clearChanged
      { attributes := [] } true).1.updateDomRange { attributes := [] } false) =
      { attributes := [] } :=
  ⟨⟨fun _ _ _ => rfl, fun _ _ _ _ _ => rfl⟩, by decide, by decide,
    (updateDom_clears_changed clearChanged (fun _ _ _ => rfl) (fun _ _ _ _ _ => rfl)
      ((WSpinBox.new WLocale.classic true).setRange 0 10) { attributes := [] }
      { attributes := [] } true).1,
    (updateDom_clears_changed clearChanged (fun _ _ _ => rfl) (fun _ _ _ _ _ => rfl)
      ((WSpinBox.new WLocale.classic true).setRange 0 10) { attributes := [] }
      { attributes := [] } true).2.1⟩

/-! ## `exec()`: the state after an error -/

/-- Counterexample to claim C22 as stated: in a scripted test whose slot leaves the dialog
open, `exec()` on a new dialog raises `mustCloseDialog`, and after it the dialog is shown, its
recursive-loop-active flag is set, the cover is shown below the dialog and the dialog is on
the stack of exposed constraints, none of which was so before the call; a second `exec()`
raises `alreadyExecuted`. -/
theorem exec_failure_state_counterexample :
    ∃ d1 app1, freshDialog.exec silentTestApp WAnimation.none =
        ExecResult.threw mustCloseDialog d1 app1 ∧
      (freshDialog.hidden = true ∧ d1.hidden = false) ∧
      (freshDialog.recursiveEventLoop_ = false ∧ d1.recursiveEventLoop_ = true) ∧
      (silentTestApp.dialogCover = some { hidden := true, zIndex := 0 } ∧
        app1.dialogCover = some { hidden := false, zIndex := 9 }) ∧
      (silentTestApp.exposedOnly = [] ∧ app1.exposedOnly = [1]) ∧
      d1.exec app1 WAnimation.none = ExecResult.threw alreadyExecuted d1 app1 :=
  ⟨_, _, rfl, by decide, by decide, by decide, by decide, by decide⟩

/-- Claim C22, as amended.  Whenever `exec()` raises an error, the recursive-loop-active flag
of the dialog is set after it, and an `exec()` that follows at once raises `alreadyExecuted`
and changes nothing.  When the flag was set before the call, the error is `alreadyExecuted`
and the dialog and the session are as they were.  When it was clear, the session is a
scripted test none of whose slots closes the dialog, the error is `mustCloseDialog`, and the
dialog and the session are as `animateShow`, the setting of the flag, the emission of
`dialogExecuted` and its slots have left them; when there is no slot, and the dialog was
hidden and modal and the session has its cover, this is with the dialog shown, the cover
shown just below it, and the dialog on top of the stack of exposed constraints. -/
theorem exec_failure_state (d : WDialog) (app : WApplication) (animation : WAnimation)
    (e : WException) (d1 : WDialog) (app1 : WApplication)
    (h : d.exec app animation = ExecResult.threw e d1 app1) :
    d1.recursiveEventLoop_ = true ∧
    (∀ animation2, d1.exec app1 animation2 = ExecResult.threw alreadyExecuted d1 app1) ∧
    (d.recursiveEventLoop_ = true → e = alreadyExecuted ∧ d1 = d ∧ app1 = app) ∧
    (d.recursiveEventLoop_ = false →
      e = mustCloseDialog ∧ app.isTest = true ∧
      app.dialogExecutedSlots.all (fun a => !a.closes) = true ∧
      (d1, app1) = runHandler app.dialogExecutedSlots
        { (d.animateShow app animation).1 with recursiveEventLoop_ := true }
        { (d.animateShow app animation).2 with
            trace := (d.animateShow app animation).2.trace ++ [Ev.dialogExecuted d.id] }) ∧
    (d.recursiveEventLoop_ = false → app.dialogExecutedSlots = [] →
      d.hidden = true → d.modal_ = true → ∀ cover, app.dialogCover = some cover →
      d1.hidden = false ∧ app1.exposedOnly = d.id :: app.exposedOnly ∧
      app1.dialogCover = some { hidden := false, zIndex := d.implZIndex - 1 }) := by
  have hsf := setHidden_frame d app false animation
  have key : d1.recursiveEventLoop_ = true ∧
      (d.recursiveEventLoop_ = true → e = alreadyExecuted ∧ d1 = d ∧ app1 = app) ∧
      (d.recursiveEventLoop_ = false →
        e = mustCloseDialog ∧ app.isTest = true ∧
        app.dialogExecutedSlots.all (fun a => !a.closes) = true ∧
        (d1, app1) = runHandler app.dialogExecutedSlots
          { (d.animateShow app animation).1 with recursiveEventLoop_ := true }
          { (d.animateShow app animation).2 with
              trace := (d.animateShow app animation).2.trace ++ [Ev.dialogExecuted d.id] }) := by
    unfold WDialog.exec at h
    by_cases h0 : d.recursiveEventLoop_ = true
    · rw [if_pos h0] at h
      injection h with he hd ha
      subst hd ha
      exact ⟨h0, fun _ => ⟨he.symm, rfl, rfl⟩, fun hf => by rw [h0] at hf; cases hf⟩
    · rw [if_neg h0] at h
      dsimp only at h
      have hid : (d.animateShow app animation).1.id = d.id := hsf.1
      have hslots : (d.animateShow app animation).2.dialogExecutedSlots =
          app.dialogExecutedSlots := hsf.2.2.2.2.2.2.1
      have htest : (d.animateShow app animation).2.isTest = app.isTest := hsf.2.2.2.2.2.1
      by_cases ht : app.isTest = true
      · rw [if_pos (htest.trans ht)] at h
        split_ifs at h with hstill
        injection h with he hd ha
        refine ⟨by rw [← hd]; exact hstill, fun hf => absurd hf h0, fun _ =>
          ⟨he.symm, ht, ?_, ?_⟩⟩
        · rw [runHandler_recursiveEventLoop, hslots] at hstill
          simpa using hstill
        · rw [← hd, ← ha]
          dsimp only
          rw [hid, hslots]
      · rw [if_neg (by rw [htest]; exact ht)] at h
        revert h
        generalize execLoop _ _ _ = r
        cases r <;> intro h <;> cases h
  refine ⟨key.1, fun animation2 => ?_, key.2.1, key.2.2, ?_⟩
  · simp [WDialog.exec, key.1]
  · intro hflag hslots hhidden hmodal cover hcover
    have hst := (key.2.2 hflag).2.2.2
    rw [hslots] at hst
    simp only [runHandler, Prod.mk.injEq] at hst
    obtain ⟨hd1, ha1⟩ := hst
    subst hd1 ha1
    cases hch : cover.hidden <;> cases hae : animation.empty <;>
      simp [WDialog.animateShow, WDialog.setHidden, WDialog.isHidden, hhidden, hmodal, hcover,
        WDialog.saveCoverState, WContainerWidget.isHidden, WContainerWidget.animateShow,
        WContainerWidget.show, WContainerWidget.setHidden, WContainerWidget.setZIndex,
        WApplication.pushExposedConstraint, WCompositeWidget.setHidden, hch, hae]

/-- Witness of the theorem of claim C22: a new dialog in a scripted test whose slot leaves
the dialog open. -/
theorem exec_failure_state_witness :
    ∃ d1 app1, freshDialog.exec silentTestApp WAnimation.none =
        ExecResult.threw mustCloseDialog d1 app1 ∧
      d1.recursiveEventLoop_ = true ∧
      d1.exec app1 WAnimation.none = ExecResult.threw alreadyExecuted d1 app1 :=
  ⟨_, _, rfl,
    (exec_failure_state freshDialog silentTestApp WAnimation.none mustCloseDialog _ _ rfl).1,
    (exec_failure_state freshDialog silentTestApp WAnimation.none mustCloseDialog _ _ rfl).2.1
      WAnimation.none⟩

/-! ## `replace` -/

theorem replaceAllScan_skip (k r a b : StdString) :
    replaceAllScan k r (a ++ b) a.length = replaceAllScan k r b 0 := by
  induction a with
  | nil => rfl
  | cons x a ih => simpa [replaceAllScan] using ih

/-- Without an occurrence of `k` the pass from left to right keeps the string. -/
theorem findFrom_none (k r l : StdString) (i : Nat) (h : findFrom k l i = Option.none) :
    replaceAllScan k r l 0 = l := by
  induction l generalizing i with
  | nil => rfl
  | cons c rest ih =>
    unfold findFrom at h
    split_ifs at h with hp
    rw [replaceAllScan, if_neg hp, ih (i + 1) h]

/-- At the first occurrence of `k` the pass from left to right keeps what is before it, puts
`r`, and goes on after the occurrence. -/
theorem findFrom_some (k r l : StdString) (i q : Nat) (hk : k ≠ [])
    (h : findFrom k l i = some q) :
    ∃ pre post, l = pre ++ k ++ post ∧ q = i + pre.length ∧
      replaceAllScan k r l 0 = pre ++ r ++ replaceAllScan k r post 0 := by
  induction l generalizing i with
  | nil => simp [findFrom, hk] at h
  | cons c rest ih =>
    unfold findFrom at h
    split_ifs at h with hp
    · obtain ⟨post, hpost⟩ := List.isPrefixOf_iff_prefix.1 hp
      obtain ⟨x, k1, rfl⟩ := List.exists_cons_of_ne_nil hk
      simp only [List.cons_append, List.cons.injEq] at hpost
      obtain ⟨rfl, hrest⟩ := hpost
      refine ⟨[], post, by simp [hrest], by simpa using (Option.some.inj h).symm, ?_⟩
      rw [replaceAllScan, if_pos hp, ← hrest]
      simp [replaceAllScan_skip]
    · obtain ⟨pre, post, h1, h2, h3⟩ := ih (i + 1) h
      refine ⟨c :: pre, post, by simp [h1], by simp [h2]; omega, ?_⟩
      rw [replaceAllScan, if_neg hp, h3]
      simp

theorem find_append (done rest k : StdString) :
    find (done ++ rest) k done.length = findFrom k rest done.length := by
  simp [find]

/-- The loop of `replace`, with what is before the position `p` done and `rest` to go. -/
theorem replaceLoop_scan (k r : StdString) (hk : k ≠ []) (fuel : Nat) (done rest : StdString)
    (hfuel : rest.length < fuel) :
    replaceLoop k r fuel (done ++ rest) done.length =
      Except.ok (done ++ replaceAllScan k r rest 0) := by
  induction fuel generalizing done rest with
  | zero => omega
  | succ fuel ih =>
    rw [replaceLoop, find_append]
    cases hf : findFrom k rest done.length with
    | none => simp only [findFrom_none k r rest _ hf]
    | some q =>
      obtain ⟨pre, post, h1, h2, h3⟩ := findFrom_some k r rest _ q hk hf
      have hklen : 0 < k.length := List.length_pos.2 hk
      have hs : stringReplace (done ++ rest) q k.length r = (done ++ pre ++ r) ++ post := by
        subst h1 h2
        have e : done ++ (pre ++ k ++ post) = (done ++ pre) ++ (k ++ post) := by simp
        have e2 : done.length + pre.length + k.length = (done ++ pre ++ k).length := by
          simp [Nat.add_assoc]
        have e3 : done ++ (pre ++ k ++ post) = (done ++ pre ++ k) ++ post := by simp
        unfold stringReplace
        rw [e2]
        nth_rewrite 2 [e3]
        rw [List.drop_left, e, List.take_left' (by simp)]
      have hp : q + r.length = (done ++ pre ++ r).length := by
        subst h2
        simp [Nat.add_assoc]
      simp only []
      rw [hs, hp, ih (done ++ pre ++ r) post (by
        subst h1
        simp at hfuel
        omega), h3]
      simp

theorem findCharFrom_eq (c : Char) (l : StdString) (i : Nat) :
    findCharFrom c l i = findFrom [c] l i := by
  induction l generalizing i with
  | nil => simp [findCharFrom, findFrom]
  | cons x rest ih =>
    unfold findCharFrom findFrom
    by_cases hx : x = c
    · simp [hx, List.isPrefixOf]
    · have hx2 : ¬ c = x := fun e => hx e.symm
      simp [hx, hx2, List.isPrefixOf, ih]

theorem replaceCharLoop_eq (c : Char) (r : StdString) (fuel : Nat) (s : StdString) (p : Nat) :
    replaceCharLoop c r fuel s p = replaceLoop [c] r fuel s p := by
  induction fuel generalizing s p with
  | zero => rfl
  | succ fuel ih =>
    have hf : findChar s c p = find s [c] p := by
      simp [findChar, find, findCharFrom_eq]
    rw [replaceCharLoop, replaceLoop, hf]
    cases find s [c] p with
    | none => rfl
    | some q => simpa using ih _ _

/-- Claim C23.  For a key `k` that is not empty, `replace(s, k, r)` ends, and leaves `s` with
every occurrence of `k`, from left to right and without overlap, replaced by `r`, whatever
`r` is; and `replace(s, c, r)` for a character `c` is `replace(s, k, r)` for the key of the
one character `c`. -/
theorem replace_replaceAll (s k r : StdString) (hk : k ≠ []) :
    replace s k r = Except.ok (replaceAll s k r) ∧
    ∀ c, replaceChar s c r = replace s [c] r ∧
      replaceChar s c r = Except.ok (replaceAll s [c] r) := by
  have h := fun (k : StdString) (hk : k ≠ []) =>
    replaceLoop_scan k r hk (s.length + 1) [] s (by omega)
  simp only [List.nil_append, List.length_nil] at h
  refine ⟨h k hk, fun c => ?_⟩
  have e : replaceChar s c r = replace s [c] r := replaceCharLoop_eq c r _ s 0
  exact ⟨e, e.trans (h [c] (by simp))⟩

/-- Witness of the theorem of claim C23: every point of `a.b.c` becomes two points, and the
points that have been put are not replaced again. -/
theorem replace_replaceAll_witness :
    ".".toList ≠ [] ∧
    replace "a.b.c".toList ".".toList "..".toList = Except.ok "a..b..c".toList ∧
    replaceAll "a.b.c".toList ".".toList "..".toList = "a..b..c".toList ∧
    replaceChar "a.b.c".toList '.' "..".toList = Except.ok "a..b..c".toList :=
  ⟨by decide,
    (replace_replaceAll "a.b.c".toList ".".toList "..".toList (by decide)).1.trans rfl,
    by decide,
    ((replace_replaceAll "a.b.c".toList ".".toList "..".toList (by decide)).2 '.').2.trans rfl⟩

/-! ## `pad_itoa` -/

theorem decimalRev_fuel (f1 f2 m : Nat) (h1 : m < f1) (h2 : m < f2) :
    decimalRev f1 m = decimalRev f2 m := by
  induction f1 generalizing f2 m with
  | zero => omega
  | succ f1 ih =>
    cases f2 with
    | zero => omega
    | succ f2 =>
      simp only [decimalRev]
      split_ifs with h0
      · rfl
      · rw [ih f2 (m / 10) (by omega) (by omega)]

/-- The decimal text of a number: its last digit after the text of the tenth of it. -/
theorem decimalNat_step (n : Nat) :
    decimalNat n =
      if n < 10 then [digitChar n] else decimalNat (n / 10) ++ [digitChar (n % 10)] := by
  have hstep : decimalRev (n + 1) n =
      digitChar (n % 10) :: (if n / 10 = 0 then [] else decimalRev n (n / 10)) := rfl
  unfold decimalNat
  rw [hstep]
  by_cases h : n < 10
  · have h0 : n / 10 = 0 := by omega
    rw [if_pos h, if_pos h0, Nat.mod_eq_of_lt h]
    rfl
  · have h0 : ¬ n / 10 = 0 := by omega
    rw [if_neg h, if_neg h0, decimalRev_fuel n (n / 10 + 1) (n / 10) (by omega) (by omega)]
    simp

theorem zeroPadded_step (value length : Nat) (hl : 1 ≤ length) (hv : value < 10 ^ (length + 1)) :
    zeroPadded value (length + 1) =
      zeroPadded (value / 10) length ++ [digitChar (value % 10)] := by
  unfold zeroPadded
  rw [decimalNat_step value]
  split_ifs with h
  · have h0 : value / 10 = 0 := by omega
    have hz : decimalNat 0 = ['0'] := rfl
    rw [h0, hz, Nat.mod_eq_of_lt h]
    simp only [List.length_singleton, Nat.add_sub_cancel]
    obtain ⟨m, rfl⟩ : ∃ m, length = m + 1 := ⟨length - 1, by omega⟩
    simp [List.replicate_succ']
  · simp only [List.length_append, List.length_singleton, Nat.add_sub_add_right,
      List.append_assoc]

theorem zeroPadded_one (value : Nat) (hv : value < 10) : zeroPadded value 1 = [digitChar value] := by
  unfold zeroPadded
  rw [decimalNat_step, if_pos hv]
  simp

theorem zeroPadded_length (value length : Nat) (hl : 1 ≤ length) (hv : value < 10 ^ length) :
    (zeroPadded value length).length = length := by
  have h := decimalNat_length_le value length hl hv
  simp only [zeroPadded, List.length_append, List.length_replicate]
  omega

/-- The digits of the padded decimal text, from the left. -/
theorem zeroPadded_getElem (value length i : Nat) (hl : 1 ≤ length) (hv : value < 10 ^ length)
    (hi : i < length) :
    (zeroPadded value length)[i]? = some (digitChar ((value / 10 ^ (length - 1 - i)) % 10)) := by
  induction length generalizing value i with
  | zero => omega
  | succ length ih =>
    by_cases h1 : length = 0
    · subst h1
      have hi0 : i = 0 := by omega
      subst hi0
      rw [zeroPadded_one value (by simpa using hv)]
      simp [Nat.mod_eq_of_lt (by simpa using hv : value < 10)]
    · have hl1 : 1 ≤ length := by omega
      have hv1 : value / 10 < 10 ^ length := by
        rw [pow_succ] at hv
        exact Nat.div_lt_of_lt_mul (by rwa [Nat.mul_comm] at hv)
      rw [zeroPadded_step value length hl1 hv]
      have hlen := zeroPadded_length (value / 10) length hl1 hv1
      by_cases hlast : i = length
      · subst hlast
        rw [List.getElem?_append_right (by omega), hlen]
        simp
      · have hi1 : i < length := by omega
        rw [List.getElem?_append_left (by omega), ih (value / 10) i hl1 hv1 hi1,
          Nat.div_div_eq_div_mul]
        have e : 10 * 10 ^ (length - 1 - i) = 10 ^ (length + 1 - 1 - i) := by
          rw [← pow_succ']
          congr 1
          omega
        rw [e]

theorem padExp_get (j : Nat) (h : j ≤ 5) : padExp[j]? = some ((10 ^ j : Nat) : Int) := by
  interval_cases j <;> rfl

/-- The character that a turn of the loop of `pad_itoa` writes, for a value that is not
negative and a power of ten. -/
theorem pad_itoa_digit (value j : Nat) :
    (if (value : Int) ≥ ((10 ^ j : Nat) : Int) then
      toChar (48 + ((value : Int) / ((10 ^ j : Nat) : Int)) % 10) else '0') =
      digitChar ((value / 10 ^ j) % 10) := by
  have hd : ((value : Int) / ((10 ^ j : Nat) : Int)) % 10 = (((value / 10 ^ j) % 10 : Nat) : Int) := by
    push_cast
    rfl
  have hlt : (value / 10 ^ j) % 10 < 10 := Nat.mod_lt _ (by decide)
  split_ifs with h
  · rw [hd]
    unfold toChar digitChar
    congr 1
    omega
  · have hv : value < 10 ^ j := by
      have : ¬ ((10 ^ j : Nat) ≤ value) := fun hc => h (by exact_mod_cast hc)
      omega
    rw [Nat.div_eq_of_lt hv]
    rfl

/-- The loop of `pad_itoa` for a length up to six writes the digits of the padded decimal
text, from the position `i` on. -/
theorem pad_itoaLoop_text (value length : Nat) (hl : 1 ≤ length) (hl6 : length ≤ 6)
    (hv : value < 10 ^ length) (n i : Nat) (hin : i + n = length) (pre seg post : List Char)
    (hpre : pre.length = i) (hseg : seg.length = n) :
    pad_itoaLoop value length n i (pre ++ seg ++ post) =
      Except.ok (pre ++ (zeroPadded value length).drop i ++ post) := by
  induction n generalizing i pre seg with
  | zero =>
    have hnil : seg = [] := List.eq_nil_of_length_eq_zero hseg
    have hd : (zeroPadded value length).drop i = [] := by
      apply List.drop_eq_nil_of_le
      rw [zeroPadded_length value length hl hv]
      omega
    rw [pad_itoaLoop, hnil, hd]
  | succ n ih =>
    obtain ⟨c, seg1, rfl⟩ := List.exists_cons_of_ne_nil (l := seg) (by
      intro h0
      simp [h0] at hseg)
    have h1 : ¬ ((length : Int) - (i : Int) - 1 < 0) := by omega
    have h2 : ((length : Int) - (i : Int) - 1).toNat = length - 1 - i := by omega
    have hget := zeroPadded_getElem value length i hl hv (by omega)
    have hlen := zeroPadded_length value length hl hv
    have hdrop : (zeroPadded value length).drop i =
        digitChar ((value / 10 ^ (length - 1 - i)) % 10) ::
          (zeroPadded value length).drop (i + 1) := by
      rw [List.drop_eq_getElem_cons (by omega)]
      congr 1
      have hlt : i < (zeroPadded value length).length := by omega
      rw [List.getElem?_eq_getElem hlt] at hget
      exact Option.some.inj hget
    have e1 : pre ++ c :: seg1 ++ post = pre ++ c :: (seg1 ++ post) := by simp
    rw [pad_itoaLoop, if_neg h1, h2, padExp_get _ (by omega)]
    simp only []
    rw [pad_itoa_digit, e1, writeAt_append pre _ c _ i hpre.symm]
    simp only []
    have e2 : pre ++ digitChar ((value / 10 ^ (length - 1 - i)) % 10) :: (seg1 ++ post) =
        (pre ++ [digitChar ((value / 10 ^ (length - 1 - i)) % 10)]) ++ seg1 ++ post := by simp
    rw [e2, ih (i + 1) (by omega) _ seg1 (by simp [hpre]) (by simpa using hseg), hdrop]
    simp

/-- The function `pad_itoa` for a length from one to six and a value that fits. -/
theorem pad_itoa_text (value length : Nat) (result : List Char) (hl : 1 ≤ length)
    (hl6 : length ≤ 6) (hv : value < 10 ^ length) (hroom : length < result.length) :
    pad_itoa value length result =
      Except.ok (zeroPadded value length ++ NUL :: result.drop (length + 1)) := by
  have h0 : ¬ ((length : Int) < 0) := by omega
  have e1 : result = result.take length ++ result[length] :: result.drop (length + 1) := by
    rw [← List.drop_eq_getElem_cons hroom, List.take_append_drop]
  have hw : writeAt result length NUL =
      Except.ok (result.take length ++ NUL :: result.drop (length + 1)) := by
    nth_rewrite 1 [e1]
    exact writeAt_append _ _ _ NUL length (by simp; omega)
  rw [pad_itoa, if_neg h0, Int.toNat_ofNat, hw]
  simp only []
  have h := pad_itoaLoop_text value length hl hl6 hv length 0 (by omega) []
    (result.take length) (NUL :: result.drop (length + 1)) rfl (by simp; omega)
  simpa using h

/-- Claim C24, as the code has it.  For the length 7, the last entry of the table, the text
is not the padded decimal text of the value: 1234567 is written as "2234567" and 100000 as
"1100000" (the padded texts are "1234567" and "0100000").  For every length from 1 to 6,
every value from zero to below `10 ^ length` and a buffer with room, `pad_itoa` writes the
decimal text of the value padded with zeros to the width `length`, and a terminator after
it. -/
theorem pad_itoa_table :
    (pad_itoa 1234567 7 (List.replicate 8 'x') = Except.ok ("2234567".toList ++ [NUL]) ∧
      zeroPadded 1234567 7 = "1234567".toList) ∧
    (pad_itoa 100000 7 (List.replicate 8 'x') = Except.ok ("1100000".toList ++ [NUL]) ∧
      zeroPadded 100000 7 = "0100000".toList) ∧
    padExp[6]? = some 100000 ∧
    ∀ (value length : Nat) (result : List Char), 1 ≤ length → length ≤ 6 →
      value < 10 ^ length → length < result.length →
      pad_itoa value length result =
        Except.ok (zeroPadded value length ++ NUL :: result.drop (length + 1)) :=
  ⟨⟨rfl, by decide⟩, ⟨rfl, by decide⟩, rfl,
    fun value length result hl hl6 hv hroom => pad_itoa_text value length result hl hl6 hv hroom⟩

end Wt
